import Mathlib

/-!
# IOnode I2C subsystem: reading cache, bus manager, sensor decoders, display

A shallow embedding of `src/i2c_devices.cpp` and of the SSD1306 driver and
template engine of `src/i2c_display.cpp`.

Conventions of the embedding

* C globals become fields of an explicit state; every function takes the
  state and returns the new state together with its result.
* `uint8_t`, `uint16_t`, `uint32_t` values are `Nat`, reduced modulo the width
  where the source can leave it (`sub32` for the clock); `int`, `int32_t`,
  `int64_t` values are `Int`. The BME280 arithmetic is reduced to two's
  complement after every operation (`wrap32`, `wrap64`); the reference
  counter and the scan counter, which cannot reach 2^31, are not.
* `millis()` is an input: each function that reads the clock receives the
  value read as an argument.
* The devices on the bus are a parameter `Wire`; every action on the hardware
  is appended to the log `hw` of the state.
* A C `float` is a `CFloat`: either NaN or an exact rational. Rounding to
  binary32 is not modelled.
* `Serial.printf` logging is not modelled.
* A C string is the list of its characters before the terminator, one `Char`
  for each byte. What the template engine obtains from outside the I2C
  sources (network address, heap size, device table) is a parameter.
-/

namespace IOnode

/-! ## Floats -/

/-- A C `float`: NaN, or a number kept as an exact rational. -/
inductive CFloat where
  | nan : CFloat
  | num (q : ℚ) : CFloat
deriving DecidableEq

namespace CFloat

/-- The C library test `isnan`. -/
def isnan : CFloat → Bool
  | nan => true
  | num _ => false

/-- Conversion `(float)n` of an integer. -/
def ofInt (n : Int) : CFloat := num n

/-- Float product; NaN is absorbing. -/
def mul : CFloat → CFloat → CFloat
  | num a, num b => num (a * b)
  | _, _ => nan

/-- Float sum; NaN is absorbing. -/
def add : CFloat → CFloat → CFloat
  | num a, num b => num (a + b)
  | _, _ => nan

/-- Float quotient by a non-zero constant; NaN is absorbing. -/
def div : CFloat → CFloat → CFloat
  | num a, num b => num (a / b)
  | _, _ => nan

end CFloat

/-! ## 32-bit clock -/

/-- The modulus of `uint32_t`. -/
def UINT32_MOD : Nat := 4294967296

/-- The constant `UINT32_MAX`. -/
def UINT32_MAX : Nat := 4294967295

/-- Subtraction `a - b` in `uint32_t`. -/
def sub32 (a b : Nat) : Nat := (a % UINT32_MOD + UINT32_MOD - b % UINT32_MOD) % UINT32_MOD

/-! ## Per-address reading cache (`i2c_devices.h`, `i2c_devices.cpp` 106-158) -/

/-- The macro `I2C_CACHE_MAX`. -/
def I2C_CACHE_MAX : Nat := 8

/-- The macro `I2C_CACHE_TTL_MS`. -/
def I2C_CACHE_TTL_MS : Nat := 1000

/-- The record `struct I2cCache`; `values` is the array `float values[4]`. -/
structure I2cCache where
  addr : Nat
  last_read_ms : Nat
  values : List CFloat
  num_values : Nat
  valid : Bool
deriving DecidableEq

/-- A zero-initialised `I2cCache` (static storage). -/
def I2cCache.zero : I2cCache :=
  { addr := 0, last_read_ms := 0,
    values := [CFloat.num 0, CFloat.num 0, CFloat.num 0, CFloat.num 0],
    num_values := 0, valid := false }

/-- The table `g_i2c_cache[I2C_CACHE_MAX]` at program start. -/
def g_i2c_cache_init : List I2cCache := List.replicate I2C_CACHE_MAX I2cCache.zero

/-- The test of the `if` inside the loop of `i2cCacheGet`. -/
def cacheHit (now addr channel : Nat) (e : I2cCache) : Bool :=
  e.valid && e.addr == addr &&
    decide (sub32 now e.last_read_ms < I2C_CACHE_TTL_MS) &&
    decide (channel < e.num_values)

/-- The function `i2cCacheGet`: the requested channel of the first slot, in
slot order, that passes the test, `NAN` when no slot does. `now` is the value
of `millis()`. -/
def i2cCacheGet (cache : List I2cCache) (now addr channel : Nat) : CFloat :=
  match cache.find? (cacheHit now addr channel) with
  | some e => e.values.getD channel CFloat.nan
  | none => CFloat.nan

/-- First loop of `i2cCacheSet`, run on the slots from index `i` on with the
current value of `slot`: a slot whose `addr` matches ends the loop, the first
invalid slot is remembered while `slot < 0`. -/
def findSlot (addr : Nat) : List I2cCache → Nat → Int → Int
  | [], _, slot => slot
  | e :: rest, i, slot =>
    if e.addr = addr then (i : Int)
    else if e.valid = false ∧ slot < 0 then findSlot addr rest (i + 1) (i : Int)
    else findSlot addr rest (i + 1) slot

/-- Second loop of `i2cCacheSet` ("evict oldest"), run on the slots from index
`i` on with the current values of `oldest` and `slot`. -/
def evictScan : List I2cCache → Nat → Nat → Int → Int
  | [], _, _, slot => slot
  | e :: rest, i, oldest, slot =>
    if e.last_read_ms < oldest then evictScan rest (i + 1) e.last_read_ms (i : Int)
    else evictScan rest (i + 1) oldest slot

/-- The slot index `i2cCacheSet` writes to. -/
def chooseSlot (cache : List I2cCache) (addr : Nat) : Nat :=
  let slot := findSlot addr cache 0 (-1)
  let slot := if slot < 0 then evictScan cache 0 UINT32_MAX slot else slot
  let slot := if slot < 0 then 0 else slot
  slot.toNat

/-- The copy loop at the end of `i2cCacheSet`: the first `num_values` cells of
the four-element array are overwritten, the others keep their content. -/
def storeValues (old : List CFloat) (values : Nat → CFloat) (num_values : Nat) : List CFloat :=
  (List.range 4).map fun i => if i < num_values then values i else old.getD i (CFloat.num 0)

/-- The assignments `i2cCacheSet` makes to the chosen slot. -/
def fillSlot (now addr : Nat) (values : Nat → CFloat) (num : Nat) (e : I2cCache) : I2cCache :=
  let num_values := if num > 4 then 4 else num
  { addr := addr, last_read_ms := now, num_values := num_values, valid := true,
    values := storeValues e.values values num_values }

/-- The function `i2cCacheSet`; `values` is the caller's array, read at the
indices below `num`, and `now` is the value of `millis()`. -/
def i2cCacheSet (cache : List I2cCache) (now addr : Nat) (values : Nat → CFloat) (num : Nat) :
    List I2cCache :=
  List.modify (fillSlot now addr values num) (chooseSlot cache addr) cache

/-- The function `i2cCacheInvalidate`. -/
def i2cCacheInvalidate (cache : List I2cCache) (addr : Nat) : List I2cCache :=
  cache.map fun e => if e.addr = addr then { e with valid := false } else e

/-- A call of the cache interface. -/
inductive CacheCall where
  | set (now addr : Nat) (values : Nat → CFloat) (num : Nat)
  | invalidate (addr : Nat)
  | get (now addr channel : Nat)

/-- Effect of one call on the table; `i2cCacheGet` does not write. -/
def CacheCall.run (cache : List I2cCache) : CacheCall → List I2cCache
  | .set now addr values num => i2cCacheSet cache now addr values num
  | .invalidate addr => i2cCacheInvalidate cache addr
  | .get _ _ _ => cache

/-- Effect of a sequence of calls, first call first. -/
def runCalls (cache : List I2cCache) (calls : List CacheCall) : List I2cCache :=
  calls.foldl CacheCall.run cache

/-- Whether a call is `i2cCacheSet` for address `a`. -/
def CacheCall.isSetFor (a : Nat) : CacheCall → Bool
  | .set _ addr _ _ => addr == a
  | _ => false

/-! ## Hardware interface -/

/-- The macro `I2C_SDA` (default target). -/
def I2C_SDA : Nat := 21

/-- The macro `I2C_SCL` (default target). -/
def I2C_SCL : Nat := 22

/-- One action of the firmware on the hardware. `transmit addr bytes stop` is a
complete `Wire.beginTransmission(addr)`, `Wire.write` of each byte,
`Wire.endTransmission(stop)`. -/
inductive HwOp where
  | wireBegin (sda scl : Nat)
  | wireSetTimeOut (ms : Nat)
  | wireEnd
  | pinModeOutput (pin : Nat)
  | digitalWrite (pin : Nat) (high : Bool)
  | delayMicroseconds (us : Nat)
  | delay (ms : Nat)
  | transmit (addr : Nat) (bytes : List Nat) (sendStop : Bool)
  | requestFrom (addr : Nat) (len : Nat)
deriving DecidableEq

/-- Whether an action is a transaction on the I2C bus. -/
def HwOp.isTransaction : HwOp → Bool
  | .transmit _ _ _ => true
  | .requestFrom _ _ => true
  | _ => false

/-- The devices on the bus. Both answers may depend on everything the firmware
has done so far (the log of earlier actions): `endTransmission` gives the status
code of a write transaction (0 is an acknowledged transfer), `requestFrom` the
bytes received by a read transaction. -/
structure Wire where
  endTransmission : List HwOp → Nat → List Nat → Bool → Nat
  requestFrom : List HwOp → Nat → Nat → List Nat

/-! ## Fixed-width integers -/

/-- Reduction of an integer to `int32_t` (two's complement). -/
def wrap32 (x : Int) : Int := (x + 2147483648) % 4294967296 - 2147483648

/-- Reduction of an integer to `int64_t` (two's complement). -/
def wrap64 (x : Int) : Int :=
  (x + 9223372036854775808) % 18446744073709551616 - 9223372036854775808

/-- The cast `(int16_t)` of an unsigned value. -/
def toInt16 (n : Nat) : Int :=
  if n % 65536 < 32768 then ((n % 65536 : Nat) : Int) else ((n % 65536 : Nat) : Int) - 65536

/-- The cast `(int8_t)` of an unsigned value. -/
def toInt8 (n : Nat) : Int :=
  if n % 256 < 128 then ((n % 256 : Nat) : Int) else ((n % 256 : Nat) : Int) - 256

/-- The shift `x >> k` of a signed value: the arithmetic shift, which rounds
towards minus infinity. -/
def sar (x : Int) (k : Nat) : Int := x >>> k

/-- Sum in `int32_t`. -/
def i32add (a b : Int) : Int := wrap32 (a + b)

/-- Difference in `int32_t`. -/
def i32sub (a b : Int) : Int := wrap32 (a - b)

/-- Product in `int32_t`. -/
def i32mul (a b : Int) : Int := wrap32 (a * b)

/-- Left shift in `int32_t`. -/
def i32shl (a : Int) (k : Nat) : Int := wrap32 (a * 2 ^ k)

/-- Sum in `int64_t`. -/
def i64add (a b : Int) : Int := wrap64 (a + b)

/-- Difference in `int64_t`. -/
def i64sub (a b : Int) : Int := wrap64 (a - b)

/-- Product in `int64_t`. -/
def i64mul (a b : Int) : Int := wrap64 (a * b)

/-- Left shift in `int64_t`. -/
def i64shl (a : Int) (k : Nat) : Int := wrap64 (a * 2 ^ k)

/-- Quotient in `int64_t`, rounded towards zero. -/
def i64div (a b : Int) : Int := wrap64 (Int.tdiv a b)

/-! ## State of the I2C subsystem -/

/-- The macro `BME280_CALIB_MAX`. -/
def BME280_CALIB_MAX : Nat := 2

/-- The record `struct Bme280Calib`. -/
structure Bme280Calib where
  addr : Nat
  valid : Bool
  dig_T1 : Nat
  dig_T2 : Int
  dig_T3 : Int
  dig_P1 : Nat
  dig_P2 : Int
  dig_P3 : Int
  dig_P4 : Int
  dig_P5 : Int
  dig_P6 : Int
  dig_P7 : Int
  dig_P8 : Int
  dig_P9 : Int
  dig_H1 : Nat
  dig_H3 : Nat
  dig_H2 : Int
  dig_H4 : Int
  dig_H5 : Int
  dig_H6 : Int
deriving DecidableEq

/-- A zero-initialised `Bme280Calib` (static storage). -/
def Bme280Calib.zero : Bme280Calib :=
  { addr := 0, valid := false, dig_T1 := 0, dig_T2 := 0, dig_T3 := 0, dig_P1 := 0,
    dig_P2 := 0, dig_P3 := 0, dig_P4 := 0, dig_P5 := 0, dig_P6 := 0, dig_P7 := 0,
    dig_P8 := 0, dig_P9 := 0, dig_H1 := 0, dig_H3 := 0, dig_H2 := 0, dig_H4 := 0,
    dig_H5 := 0, dig_H6 := 0 }

/-- The file-level variables of `i2c_devices.cpp`, and the log `hw` of the
actions performed on the hardware, oldest first. -/
structure I2cState where
  g_i2c_ref_count : Int
  g_i2c_initialized : Bool
  g_i2c_cache : List I2cCache
  g_bme_calib : List Bme280Calib
  g_bh1750_inited : List Bool
  g_bh1750_addrs : List Nat
  hw : List HwOp

/-- The state at program start. -/
def I2cState.init : I2cState :=
  { g_i2c_ref_count := 0, g_i2c_initialized := false,
    g_i2c_cache := g_i2c_cache_init,
    g_bme_calib := List.replicate BME280_CALIB_MAX Bme280Calib.zero,
    g_bh1750_inited := [false, false], g_bh1750_addrs := [0, 0], hw := [] }

/-! ## Bus management (`i2c_devices.cpp` 14-104) -/

/-- The function `i2cInit`. The counter is kept as an unbounded integer: an
`int` holds it exactly as long as fewer than 2^31 calls are outstanding. -/
def i2cInit (s : I2cState) : I2cState :=
  if s.g_i2c_initialized then
    { s with g_i2c_ref_count := s.g_i2c_ref_count + 1 }
  else
    { s with
      hw := s.hw ++ [HwOp.wireBegin I2C_SDA I2C_SCL, HwOp.wireSetTimeOut 50]
      g_i2c_initialized := true
      g_i2c_ref_count := 1 }

/-- The function `i2cDeinit`. -/
def i2cDeinit (s : I2cState) : I2cState :=
  if !s.g_i2c_initialized then s
  else
    let s1 := { s with g_i2c_ref_count := s.g_i2c_ref_count - 1 }
    if s1.g_i2c_ref_count ≤ 0 then
      { s1 with hw := s1.hw ++ [HwOp.wireEnd], g_i2c_initialized := false, g_i2c_ref_count := 0 }
    else s1

/-- The function `i2cActive`. -/
def i2cActive (s : I2cState) : Bool := s.g_i2c_initialized

/-- One pass of the clock-toggling loop of `i2cRecover`. -/
def sclPulse : List HwOp :=
  [HwOp.digitalWrite I2C_SCL false, HwOp.delayMicroseconds 5,
   HwOp.digitalWrite I2C_SCL true, HwOp.delayMicroseconds 5]

/-- The function `i2cRecover`. -/
def i2cRecover (s : I2cState) : I2cState :=
  let hw := s.hw ++ [HwOp.wireEnd, HwOp.pinModeOutput I2C_SCL] ++ (List.replicate 9 sclPulse).flatten
  let hw := if s.g_i2c_initialized then
      hw ++ [HwOp.wireBegin I2C_SDA I2C_SCL, HwOp.wireSetTimeOut 50]
    else hw
  { s with hw := hw }

/-- A call of the bus lifecycle interface. -/
inductive BusCall where
  | init
  | deinit
  | recover
deriving DecidableEq

/-- Effect of one lifecycle call. -/
def BusCall.run (s : I2cState) : BusCall → I2cState
  | .init => i2cInit s
  | .deinit => i2cDeinit s
  | .recover => i2cRecover s

/-- Effect of a sequence of lifecycle calls, first call first. -/
def runBus (s : I2cState) (calls : List BusCall) : I2cState :=
  calls.foldl BusCall.run s

/-- The loop of `i2cScan`, run on the addresses still to probe: `hw` is the
log, `addrs` the filled part of the caller's buffer, `count` its length. -/
def i2cScanLoop (w : Wire) (max_addrs : Int) :
    List Nat → List HwOp → List Nat → Int → List HwOp × List Nat × Int
  | [], hw, addrs, count => (hw, addrs, count)
  | a :: rest, hw, addrs, count =>
    if count < max_addrs then
      let st := w.endTransmission hw a [] true
      let hw1 := hw ++ [HwOp.transmit a [] true]
      if st = 0 then i2cScanLoop w max_addrs rest hw1 (addrs ++ [a]) (count + 1)
      else i2cScanLoop w max_addrs rest hw1 addrs count
    else (hw, addrs, count)

/-- The function `i2cScan`: the new state, the addresses written to `addrs`
and the returned count. The probed addresses are 1, 2, .., 126. -/
def i2cScan (w : Wire) (s : I2cState) (max_addrs : Int) : I2cState × List Nat × Int :=
  if !s.g_i2c_initialized then (s, [], 0)
  else
    let r := i2cScanLoop w max_addrs (List.range' 1 126) s.hw [] 0
    ({ s with hw := r.1 }, r.2.1, r.2.2)

/-- The function `i2cDetect`. -/
def i2cDetect (w : Wire) (s : I2cState) (addr : Nat) : I2cState × Bool :=
  if !s.g_i2c_initialized then (s, false)
  else
    let st := w.endTransmission s.hw addr [] true
    ({ s with hw := s.hw ++ [HwOp.transmit addr [] true] }, st == 0)

/-- The function `i2cReadReg`: `none` is the result `false`, `some buf` the
result `true` with the `len` bytes stored in `buf`. -/
def i2cReadReg (w : Wire) (s : I2cState) (addr reg len : Nat) : I2cState × Option (List Nat) :=
  if !s.g_i2c_initialized then (s, none)
  else
    let st := w.endTransmission s.hw addr [reg] false
    let s1 := { s with hw := s.hw ++ [HwOp.transmit addr [reg] false] }
    if st ≠ 0 then (s1, none)
    else
      let rx := w.requestFrom s1.hw addr len
      let s2 := { s1 with hw := s1.hw ++ [HwOp.requestFrom addr len] }
      if rx.length ≠ len then (s2, none)
      else (s2, some (rx.map fun b => b % 256))

/-- The function `i2cWriteReg`. -/
def i2cWriteReg (w : Wire) (s : I2cState) (addr reg : Nat) (data : List Nat) : I2cState × Bool :=
  if !s.g_i2c_initialized then (s, false)
  else
    let st := w.endTransmission s.hw addr (reg :: data) true
    ({ s with hw := s.hw ++ [HwOp.transmit addr (reg :: data) true] }, st == 0)

/-! ## Generic register sensor (`i2c_devices.cpp` 160-176) -/

/-- The function `i2cGenericRead`. -/
def i2cGenericRead (w : Wire) (s : I2cState) (addr reg reg_len : Nat) (scale : CFloat) :
    I2cState × CFloat :=
  if !s.g_i2c_initialized then (s, CFloat.nan)
  else
    let reg_len := if reg_len < 1 then 1 else reg_len
    let reg_len := if reg_len > 2 then 2 else reg_len
    match i2cReadReg w s addr reg reg_len with
    | (s1, none) => (s1, CFloat.nan)
    | (s1, some buf) =>
      let raw := buf.getD 0 0
      let raw := if reg_len = 2 then ((raw <<< 8) ||| buf.getD 1 0) % 65536 else raw
      (s1, CFloat.mul (CFloat.ofInt raw) scale)

/-! ## BME280 (`i2c_devices.cpp` 178-365) -/

/-- The element `buf[i]` of a byte buffer. -/
def byteAt (buf : List Nat) (i : Nat) : Nat := buf.getD i 0

/-- The function `bme280GetCalib`: the first valid record for the address. -/
def bme280GetCalib (s : I2cState) (addr : Nat) : Option Bme280Calib :=
  s.g_bme_calib.find? fun c => c.valid && c.addr == addr

/-- The assignments of `bme280LoadCalib` after the read of bank 1 (0x88). -/
def calibBank1 (buf : List Nat) (c : Bme280Calib) : Bme280Calib :=
  { c with
    dig_T1 := ((byteAt buf 1 <<< 8) ||| byteAt buf 0) % 65536
    dig_T2 := toInt16 ((byteAt buf 3 <<< 8) ||| byteAt buf 2)
    dig_T3 := toInt16 ((byteAt buf 5 <<< 8) ||| byteAt buf 4)
    dig_P1 := ((byteAt buf 7 <<< 8) ||| byteAt buf 6) % 65536
    dig_P2 := toInt16 ((byteAt buf 9 <<< 8) ||| byteAt buf 8)
    dig_P3 := toInt16 ((byteAt buf 11 <<< 8) ||| byteAt buf 10)
    dig_P4 := toInt16 ((byteAt buf 13 <<< 8) ||| byteAt buf 12)
    dig_P5 := toInt16 ((byteAt buf 15 <<< 8) ||| byteAt buf 14)
    dig_P6 := toInt16 ((byteAt buf 17 <<< 8) ||| byteAt buf 16)
    dig_P7 := toInt16 ((byteAt buf 19 <<< 8) ||| byteAt buf 18)
    dig_P8 := toInt16 ((byteAt buf 21 <<< 8) ||| byteAt buf 20)
    dig_P9 := toInt16 ((byteAt buf 23 <<< 8) ||| byteAt buf 22)
    dig_H1 := byteAt buf 25 }

/-- The assignments of `bme280LoadCalib` after the read of bank 2 (0xE1). -/
def calibBank2 (addr : Nat) (buf2 : List Nat) (c : Bme280Calib) : Bme280Calib :=
  { c with
    dig_H2 := toInt16 ((byteAt buf2 1 <<< 8) ||| byteAt buf2 0)
    dig_H3 := byteAt buf2 2
    dig_H4 := toInt16 ((byteAt buf2 3 <<< 4) ||| (byteAt buf2 4 &&& 0x0F))
    dig_H5 := toInt16 ((byteAt buf2 5 <<< 4) ||| ((byteAt buf2 4 >>> 4) &&& 0x0F))
    dig_H6 := toInt8 (byteAt buf2 6)
    addr := addr
    valid := true }

/-- The function `bme280LoadCalib`. -/
def bme280LoadCalib (w : Wire) (s : I2cState) (addr : Nat) : I2cState × Bool :=
  match s.g_bme_calib.findIdx? (fun c => !c.valid) with
  | none => (s, false)
  | some slot =>
    match i2cReadReg w s addr 0x88 26 with
    | (s1, none) => (s1, false)
    | (s1, some buf) =>
      let s2 := { s1 with g_bme_calib := List.modify (calibBank1 buf) slot s1.g_bme_calib }
      match i2cReadReg w s2 addr 0xE1 7 with
      | (s3, none) => (s3, false)
      | (s3, some buf2) =>
        ({ s3 with g_bme_calib := List.modify (calibBank2 addr buf2) slot s3.g_bme_calib }, true)

/-- The function `bme280Init`. -/
def bme280Init (w : Wire) (s : I2cState) (addr : Nat) : I2cState × Bool :=
  let r := i2cReadReg w s addr 0xD0 1
  let id := match r.2 with
    | some buf => byteAt buf 0
    | none => 0
  if r.2.isNone || id ≠ 0x60 then (r.1, false)
  else
    let s1 := (i2cWriteReg w r.1 addr 0xE0 [0xB6]).1
    let s2 := { s1 with hw := s1.hw ++ [HwOp.delay 10] }
    match bme280LoadCalib w s2 addr with
    | (s3, false) => (s3, false)
    | (s3, true) =>
      let s4 := (i2cWriteReg w s3 addr 0xF2 [0x01]).1
      let s5 := (i2cWriteReg w s4 addr 0xF4 [0x27]).1
      let s6 := (i2cWriteReg w s5 addr 0xF5 [0xA0]).1
      (s6, true)

/-- The raw pressure `adc_P` of a burst read. -/
def bme280AdcP (buf : List Nat) : Int :=
  (((byteAt buf 0 <<< 12) ||| (byteAt buf 1 <<< 4) ||| (byteAt buf 2 >>> 4) : Nat) : Int)

/-- The raw temperature `adc_T` of a burst read. -/
def bme280AdcT (buf : List Nat) : Int :=
  (((byteAt buf 3 <<< 12) ||| (byteAt buf 4 <<< 4) ||| (byteAt buf 5 >>> 4) : Nat) : Int)

/-- The raw humidity `adc_H` of a burst read. -/
def bme280AdcH (buf : List Nat) : Int :=
  (((byteAt buf 6 <<< 8) ||| byteAt buf 7 : Nat) : Int)

/-- The value `t_fine` of `bme280DoRead` (temperature compensation, computed
in `int32_t`). -/
def bme280TFine (c : Bme280Calib) (adc_T : Int) : Int :=
  let var1 := sar (i32mul (i32sub (sar adc_T 3) (i32shl (c.dig_T1 : Int) 1)) c.dig_T2) 11
  let var2 := sar (i32mul (sar (i32mul (i32sub (sar adc_T 4) (c.dig_T1 : Int))
      (i32sub (sar adc_T 4) (c.dig_T1 : Int))) 12) c.dig_T3) 14
  i32add var1 var2

/-- The integer `(t_fine * 5 + 128) >> 8` of `bme280DoRead`, the temperature
in hundredths of a degree. -/
def bme280TempCenti (t_fine : Int) : Int := sar (i32add (i32mul t_fine 5) 128) 8

/-- The output `*temp` of `bme280DoRead`. -/
def bme280Temp (t_fine : Int) : CFloat :=
  CFloat.div (CFloat.ofInt (bme280TempCenti t_fine)) (CFloat.num 100)

/-- The divisor `p_var1` tested by `bme280DoRead` (pressure compensation,
computed in `int64_t`). -/
def bme280PressDivisor (c : Bme280Calib) (t_fine : Int) : Int :=
  let p_var1 := i64sub t_fine 128000
  let p_var1 := i64add (sar (i64mul (i64mul p_var1 p_var1) c.dig_P3) 8)
    (i64shl (i64mul p_var1 c.dig_P2) 12)
  sar (i64mul (i64add (i64shl 1 47) p_var1) (c.dig_P1 : Int)) 33

/-- The value `p_var2` of `bme280DoRead` before the division. -/
def bme280PressOffset (c : Bme280Calib) (t_fine : Int) : Int :=
  let p_var1 := i64sub t_fine 128000
  let p_var2 := i64mul (i64mul p_var1 p_var1) c.dig_P6
  let p_var2 := i64add p_var2 (i64shl (i64mul p_var1 c.dig_P5) 17)
  i64add p_var2 (i64shl c.dig_P4 35)

/-- The integer `p` of `bme280DoRead` after the division (pascal in Q24.8);
only evaluated when the divisor is not 0. -/
def bme280PressQ (c : Bme280Calib) (t_fine adc_P : Int) : Int :=
  let p_var1 := bme280PressDivisor c t_fine
  let p_var2 := bme280PressOffset c t_fine
  let p := i64sub 1048576 adc_P
  let p := i64div (i64mul (i64sub (i64shl p 31) p_var2) 3125) p_var1
  let p_var1 := sar (i64mul (i64mul c.dig_P9 (sar p 13)) (sar p 13)) 25
  let p_var2 := sar (i64mul c.dig_P8 p) 19
  i64add (sar (i64add (i64add p p_var1) p_var2) 8) (i64shl c.dig_P7 4)

/-- The output `*pres` of `bme280DoRead`. -/
def bme280Pres (c : Bme280Calib) (t_fine adc_P : Int) : CFloat :=
  if bme280PressDivisor c t_fine = 0 then CFloat.num 0
  else CFloat.div (CFloat.ofInt (bme280PressQ c t_fine adc_P)) (CFloat.num 25600)

/-- The value `v_x1_u32r` of `bme280DoRead` after the two clamps (humidity
compensation, computed in `int32_t`). -/
def bme280HumQ (c : Bme280Calib) (t_fine adc_H : Int) : Int :=
  let v := i32sub t_fine 76800
  let left := sar (i32add
    (i32sub (i32sub (i32shl adc_H 14) (i32shl c.dig_H4 20)) (i32mul c.dig_H5 v)) 16384) 15
  let right := sar (i32add (i32mul (i32add (sar (i32mul (sar (i32mul v c.dig_H6) 10)
    (i32add (sar (i32mul v (c.dig_H3 : Int)) 11) 32768)) 10) 2097152) c.dig_H2) 8192) 14
  let v := i32mul left right
  let v := i32sub v (sar (i32mul (sar (i32mul (sar v 15) (sar v 15)) 7) (c.dig_H1 : Int)) 4)
  let v := if v < 0 then 0 else v
  let v := if v > 419430400 then 419430400 else v
  v

/-- The output `*humi` of `bme280DoRead`. -/
def bme280Humi (c : Bme280Calib) (t_fine adc_H : Int) : CFloat :=
  CFloat.div (CFloat.ofInt (sar (bme280HumQ c t_fine adc_H) 12)) (CFloat.num 1024)

/-- The three outputs (`*temp`, `*humi`, `*pres`) of `bme280DoRead` for a
calibration record and the eight bytes of the burst read. -/
def bme280Compensate (c : Bme280Calib) (buf : List Nat) : CFloat × CFloat × CFloat :=
  let t_fine := bme280TFine c (bme280AdcT buf)
  (bme280Temp t_fine, bme280Humi c t_fine (bme280AdcH buf), bme280Pres c t_fine (bme280AdcP buf))

/-- The function `bme280DoRead`: `none` is the result `false`. -/
def bme280DoRead (w : Wire) (s : I2cState) (addr : Nat) :
    I2cState × Option (CFloat × CFloat × CFloat) :=
  let r : I2cState × Option Bme280Calib :=
    match bme280GetCalib s addr with
    | some c => (s, some c)
    | none =>
      match bme280Init w s addr with
      | (s1, false) => (s1, none)
      | (s1, true) => (s1, bme280GetCalib s1 addr)
  match r with
  | (s1, none) => (s1, none)
  | (s1, some c) =>
    match i2cReadReg w s1 addr 0xF7 8 with
    | (s2, none) => (s2, none)
    | (s2, some buf) => (s2, some (bme280Compensate c buf))

/-- The function `i2cBme280Read`; `now_get` and `now_set` are the values of
`millis()` read by `i2cCacheGet` and, after a hardware read, by `i2cCacheSet`. -/
def i2cBme280Read (w : Wire) (s : I2cState) (now_get now_set addr channel : Nat) :
    I2cState × CFloat :=
  if !s.g_i2c_initialized || channel > 2 then (s, CFloat.nan)
  else
    let cached := i2cCacheGet s.g_i2c_cache now_get addr channel
    if !cached.isnan then (s, cached)
    else
      match bme280DoRead w s addr with
      | (s1, none) => (s1, CFloat.nan)
      | (s1, some (temp, humi, pres)) =>
        let values := [temp, humi, pres]
        ({ s1 with g_i2c_cache :=
            i2cCacheSet s1.g_i2c_cache now_set addr (fun i => values.getD i CFloat.nan) 3 },
          values.getD channel CFloat.nan)

/-! ## BH1750 (`i2c_devices.cpp` 367-413) -/

/-- The function `bh1750Slot`: the slot index or -1, and the state with the
address recorded when a free slot was taken. -/
def bh1750Slot (s : I2cState) (addr : Nat) : I2cState × Int :=
  match s.g_bh1750_addrs.findIdx? (fun a => a == addr) with
  | some i => (s, (i : Int))
  | none =>
    match s.g_bh1750_addrs.findIdx? (fun a => a == 0) with
    | some i => ({ s with g_bh1750_addrs := s.g_bh1750_addrs.set i addr }, (i : Int))
    | none => (s, -1)

/-- The function `bh1750Init`. -/
def bh1750Init (w : Wire) (s : I2cState) (addr : Nat) : I2cState × Bool :=
  match bh1750Slot s addr with
  | (s1, slot) =>
    if slot < 0 then (s1, false)
    else if s1.g_bh1750_inited.getD slot.toNat false then (s1, true)
    else
      let st1 := w.endTransmission s1.hw addr [0x01] true
      let s2 := { s1 with hw := s1.hw ++ [HwOp.transmit addr [0x01] true] }
      if st1 ≠ 0 then (s2, false)
      else
        let st2 := w.endTransmission s2.hw addr [0x10] true
        let s3 := { s2 with hw := s2.hw ++ [HwOp.transmit addr [0x10] true] }
        if st2 ≠ 0 then (s3, false)
        else ({ s3 with g_bh1750_inited := s3.g_bh1750_inited.set slot.toNat true }, true)

/-- The function `i2cBh1750Read`; the first byte received is the high byte. -/
def i2cBh1750Read (w : Wire) (s : I2cState) (addr : Nat) : I2cState × CFloat :=
  if !s.g_i2c_initialized then (s, CFloat.nan)
  else
    match bh1750Init w s addr with
    | (s1, false) => (s1, CFloat.nan)
    | (s1, true) =>
      let rx := w.requestFrom s1.hw addr 2
      let s2 := { s1 with hw := s1.hw ++ [HwOp.requestFrom addr 2] }
      if rx.length ≠ 2 then (s2, CFloat.nan)
      else
        let raw := (((byteAt rx 0 % 256) <<< 8) ||| (byteAt rx 1 % 256)) % 65536
        (s2, CFloat.div (CFloat.ofInt raw) (CFloat.num (6 / 5)))

/-! ## SHT31 (`i2c_devices.cpp` 415-457) -/

/-- The function `sht31DoRead`: `none` is the result `false`, otherwise the
outputs `*temp` and `*humi`. -/
def sht31DoRead (w : Wire) (s : I2cState) (addr : Nat) : I2cState × Option (CFloat × CFloat) :=
  let st := w.endTransmission s.hw addr [0x2C, 0x06] true
  let s1 := { s with hw := s.hw ++ [HwOp.transmit addr [0x2C, 0x06] true] }
  if st ≠ 0 then (s1, none)
  else
    let s2 := { s1 with hw := s1.hw ++ [HwOp.delay 16] }
    let rx := w.requestFrom s2.hw addr 6
    let s3 := { s2 with hw := s2.hw ++ [HwOp.requestFrom addr 6] }
    if rx.length ≠ 6 then (s3, none)
    else
      let buf := rx.map fun b => b % 256
      let raw_t := ((byteAt buf 0 <<< 8) ||| byteAt buf 1) % 65536
      let raw_h := ((byteAt buf 3 <<< 8) ||| byteAt buf 4) % 65536
      let temp := CFloat.add (CFloat.num (-45))
        (CFloat.div (CFloat.mul (CFloat.num 175) (CFloat.ofInt raw_t)) (CFloat.num 65535))
      let humi := CFloat.div (CFloat.mul (CFloat.num 100) (CFloat.ofInt raw_h)) (CFloat.num 65535)
      (s3, some (temp, humi))

/-- The function `i2cSht31Read`; `now_get` and `now_set` are the values of
`millis()` read by `i2cCacheGet` and, after a hardware read, by `i2cCacheSet`. -/
def i2cSht31Read (w : Wire) (s : I2cState) (now_get now_set addr channel : Nat) :
    I2cState × CFloat :=
  if !s.g_i2c_initialized || channel > 1 then (s, CFloat.nan)
  else
    let cached := i2cCacheGet s.g_i2c_cache now_get addr channel
    if !cached.isnan then (s, cached)
    else
      match sht31DoRead w s addr with
      | (s1, none) => (s1, CFloat.nan)
      | (s1, some (temp, humi)) =>
        let values := [temp, humi]
        ({ s1 with g_i2c_cache :=
            i2cCacheSet s1.g_i2c_cache now_set addr (fun i => values.getD i CFloat.nan) 2 },
          values.getD channel CFloat.nan)

/-! ## ADS1115 (`i2c_devices.cpp` 459-497) -/

/-- The configuration word `config` built by `i2cAds1115Read`. -/
def ads1115Config (channel : Nat) : Nat :=
  let mux := ((0x04 + channel) &&& 0x07) % 65536
  (0x8000 ||| (mux <<< 12) ||| 0x0200 ||| 0x0100 ||| 0x0080) % 65536

/-- The function `i2cAds1115Read`. -/
def i2cAds1115Read (w : Wire) (s : I2cState) (addr channel : Nat) : I2cState × CFloat :=
  if !s.g_i2c_initialized || channel > 3 then (s, CFloat.nan)
  else
    let config := ads1115Config channel
    let cfg_bytes := [(config >>> 8) % 256, (config &&& 0xFF) % 256]
    match i2cWriteReg w s addr 0x01 cfg_bytes with
    | (s1, false) => (s1, CFloat.nan)
    | (s1, true) =>
      let s2 := { s1 with hw := s1.hw ++ [HwOp.delay 10] }
      match i2cReadReg w s2 addr 0x00 2 with
      | (s3, none) => (s3, CFloat.nan)
      | (s3, some result) =>
        let raw := toInt16 ((byteAt result 0 <<< 8) ||| byteAt result 1)
        (s3, CFloat.mul (CFloat.ofInt raw) (CFloat.num (1 / 8)))

/-! ## SSD1306 commands and initialisation (`i2c_display.cpp` 121-205) -/

/-- The function `ssd1306Cmd`. -/
def ssd1306Cmd (s : I2cState) (addr cmd : Nat) : I2cState :=
  { s with hw := s.hw ++ [HwOp.transmit addr [0x00, cmd] true] }

/-- The function `ssd1306CmdList`. -/
def ssd1306CmdList (s : I2cState) (addr : Nat) (cmds : List Nat) : I2cState :=
  { s with hw := s.hw ++ [HwOp.transmit addr (0x00 :: cmds) true] }

/-- A sequence of `ssd1306Cmd` calls, first command first. -/
def ssd1306Cmds (s : I2cState) (addr : Nat) (cmds : List Nat) : I2cState :=
  cmds.foldl (fun st cmd => ssd1306Cmd st addr cmd) s

/-- The function `ssd1306Clear`: the window commands, then 8 pages of 8 data
transfers of 16 zero bytes. -/
def ssd1306Clear (s : I2cState) (addr : Nat) : I2cState :=
  if !i2cActive s then s
  else
    let s1 := ssd1306Cmds s addr [0x21, 0, 127, 0x22, 0, 7]
    { s1 with hw := s1.hw ++
        List.replicate (8 * 8) (HwOp.transmit addr (0x40 :: List.replicate 16 0) true) }

/-- The function `ssd1306Init`. -/
def ssd1306Init (w : Wire) (s : I2cState) (addr height : Nat) : I2cState × Bool :=
  if !i2cActive s then (s, false)
  else
    match i2cDetect w s addr with
    | (s1, false) => (s1, false)
    | (s1, true) =>
      let mux_ratio := if height = 32 then 0x1F else 0x3F
      let com_pins := if height = 32 then 0x02 else 0x12
      let s2 := ssd1306CmdList s1 addr [0xAE, 0xD5, 0x80, 0xA8]
      let s3 := ssd1306Cmds s2 addr
        [mux_ratio, 0xD3, 0x00, 0x40, 0x8D, 0x14, 0x20, 0x00, 0xA1, 0xC8, 0xDA, com_pins,
         0x81, 0xCF, 0xD9, 0xF1, 0xDB, 0x40, 0xA4, 0xA6, 0xAF]
      (ssd1306Clear s3 addr, true)

/-! ## Predicates used by the theorems -/

/-- Invariant of the table: a slot that repeats the address of an earlier slot
is invalid, so a valid slot is always the first slot with its address. -/
def FirstHolderOnly (cache : List I2cCache) : Prop :=
  cache.Pairwise fun x y => x.addr = y.addr → y.valid = false

/-- Every valid slot holding address `A` carries the timestamp `t`. -/
def StampedAt (A t : Nat) (cache : List I2cCache) : Prop :=
  ∀ x ∈ cache, x.valid = true → x.addr = A → x.last_read_ms = t

/-- No valid slot holds address `A`. -/
def NoValidSlot (A : Nat) (cache : List I2cCache) : Prop :=
  ∀ x ∈ cache, x.addr = A → x.valid = false

/-- The table after eight writes to the addresses 0x10 .. 0x17 at the clock
values 10, 20, .., 80, starting from the table at program start. -/
def fullTable : List I2cCache :=
  runCalls g_i2c_cache_init
    ((List.range 8).map fun i => CacheCall.set (10 * (i + 1)) (0x10 + i) (fun _ => CFloat.num i) 1)

/-- A bus on which exactly the addresses 0x23, 0x48 and 0x76 acknowledge; no
device returns data. -/
def threeDeviceBus : Wire :=
  { endTransmission := fun _ a _ _ => if a = 0x23 ∨ a = 0x48 ∨ a = 0x76 then 0 else 2
    requestFrom := fun _ _ _ => [] }

/-- The temperature formula as the specification writes it, evaluated over
the integers (no word width); `>>` is the arithmetic shift. -/
def specTFine (dig_T1 : Nat) (dig_T2 dig_T3 : Int) (adc_T : Int) : Int :=
  sar ((sar adc_T 3 - (dig_T1 : Int) * 2) * dig_T2) 11 +
    sar (sar ((sar adc_T 4 - (dig_T1 : Int)) ^ 2) 12 * dig_T3) 14

/-- The specification's `(t_fine * 5 + 128) >> 8`, over the integers. -/
def specTempCenti (t_fine : Int) : Int := sar (t_fine * 5 + 128) 8

/-- The calibration of the data sheet's worked example (temperature and
pressure words; the example gives no humidity words, they are 0 here). -/
def exampleCalib : Bme280Calib :=
  { Bme280Calib.zero with
    addr := 0x76, valid := true
    dig_T1 := 27504, dig_T2 := 26435, dig_T3 := -1000
    dig_P1 := 36477, dig_P2 := -10685, dig_P3 := 3024, dig_P4 := 2855, dig_P5 := 140
    dig_P6 := -7, dig_P7 := 15500, dig_P8 := -14600, dig_P9 := 6000 }

/-- A burst read whose temperature bytes hold the worked example's
`adc_T = 519888 = 0x7EED0` and whose pressure bytes hold `adc_P = 415148 =
0x655AC`. -/
def exampleBurst : List Nat := [0x65, 0x5A, 0xC0, 0x7E, 0xED, 0x00, 0x80, 0x00]

/-- A calibration with the largest `dig_T2`, and all other words 0. -/
def extremeCalib : Bme280Calib := { Bme280Calib.zero with dig_T2 := 32767 }

/-- A burst read with the largest raw temperature `adc_T = 0xFFFFF`. -/
def extremeBurst : List Nat := [0, 0, 0, 0xFF, 0xFF, 0xF0, 0, 0]

/-- The register byte of the last write transaction in a log, 0 when the log
does not end with one. -/
def lastReg (hist : List HwOp) : Nat :=
  match hist.getLast? with
  | some (HwOp.transmit _ (r :: _) _) => r
  | _ => 0

/-- A bus on which every address acknowledges and answers like a BME280 with
an all-zero calibration: the chip-ID register 0xD0 reads 0x60, the data
registers from 0xF7 read `exampleBurst`, every other register reads zeros. -/
def bme280Device : Wire :=
  { endTransmission := fun _ _ _ _ => 0
    requestFrom := fun hist _ len =>
      if lastReg hist = 0xD0 then [0x60]
      else if lastReg hist = 0xF7 then exampleBurst
      else List.replicate len 0 }

/-- An active bus whose two calibration slots hold valid records for the
addresses 0x76 and 0x77. -/
def twoSensorsState : I2cState :=
  { i2cInit I2cState.init with
    g_bme_calib := [exampleCalib, { exampleCalib with addr := 0x77 }] }

/-- A bus on which every address acknowledges and every read returns the
first `len` bytes of `data`. -/
def echoDevice (data : List Nat) : Wire :=
  { endTransmission := fun _ _ _ _ => 0
    requestFrom := fun _ _ len => data.take len }

/-- The number of bytes `i2cGenericRead` asks for: `reg_len` clamped to 1 .. 2. -/
def genericLen (reg_len : Nat) : Nat := max 1 (min reg_len 2)

/-- The big-endian value of the bytes read by `i2cGenericRead`. -/
def genericRaw (n : Nat) (buf : List Nat) : Nat :=
  if n = 1 then byteAt buf 0 else byteAt buf 0 * 256 + byteAt buf 1

/-- A 16-bit word read as a two's-complement number. -/
def signed16 (n : Nat) : Int := if n < 32768 then (n : Int) else (n : Int) - 65536

/-- The cache table and the bus flag of `t` are those of `s`. -/
def SameCache (s t : I2cState) : Prop :=
  t.g_i2c_cache = s.g_i2c_cache ∧ t.g_i2c_initialized = s.g_i2c_initialized

/-- A bus with one BH1750 at 0x23, which acknowledges and returns the raw
light value 0x012C = 300; no other address acknowledges. -/
def bh1750Bus : Wire :=
  { endTransmission := fun _ a _ _ => if a = 0x23 then 0 else 2
    requestFrom := fun _ a _ => if a = 0x23 then [0x01, 0x2C] else [] }

/-- The state after `i2cInit` and one failed `i2cBh1750Read` at the
non-responding address 0x5C. -/
def afterOneFailedRead : I2cState :=
  (i2cBh1750Read bh1750Bus (i2cInit I2cState.init) 0x5C).1

/-! ## SSD1306 font and text rendering (`i2c_display.cpp` 18-119, 207-245) -/

/-- The table `FONT_5X7`: five column bytes for each of the characters
32 .. 127, one source row per line. -/
def FONT_5X7 : List Nat :=
  [
   0x00, 0x00, 0x00, 0x00, 0x00,
   0x00, 0x00, 0x5F, 0x00, 0x00,
   0x00, 0x07, 0x00, 0x07, 0x00,
   0x14, 0x7F, 0x14, 0x7F, 0x14,
   0x24, 0x2A, 0x7F, 0x2A, 0x12,
   0x23, 0x13, 0x08, 0x64, 0x62,
   0x36, 0x49, 0x55, 0x22, 0x50,
   0x00, 0x05, 0x03, 0x00, 0x00,
   0x00, 0x1C, 0x22, 0x41, 0x00,
   0x00, 0x41, 0x22, 0x1C, 0x00,
   0x08, 0x2A, 0x1C, 0x2A, 0x08,
   0x08, 0x08, 0x3E, 0x08, 0x08,
   0x00, 0x50, 0x30, 0x00, 0x00,
   0x08, 0x08, 0x08, 0x08, 0x08,
   0x00, 0x60, 0x60, 0x00, 0x00,
   0x20, 0x10, 0x08, 0x04, 0x02,
   0x3E, 0x51, 0x49, 0x45, 0x3E,
   0x00, 0x42, 0x7F, 0x40, 0x00,
   0x42, 0x61, 0x51, 0x49, 0x46,
   0x21, 0x41, 0x45, 0x4B, 0x31,
   0x18, 0x14, 0x12, 0x7F, 0x10,
   0x27, 0x45, 0x45, 0x45, 0x39,
   0x3C, 0x4A, 0x49, 0x49, 0x30,
   0x01, 0x71, 0x09, 0x05, 0x03,
   0x36, 0x49, 0x49, 0x49, 0x36,
   0x06, 0x49, 0x49, 0x29, 0x1E,
   0x00, 0x36, 0x36, 0x00, 0x00,
   0x00, 0x56, 0x36, 0x00, 0x00,
   0x00, 0x08, 0x14, 0x22, 0x41,
   0x14, 0x14, 0x14, 0x14, 0x14,
   0x41, 0x22, 0x14, 0x08, 0x00,
   0x02, 0x01, 0x51, 0x09, 0x06,
   0x32, 0x49, 0x79, 0x41, 0x3E,
   0x7E, 0x11, 0x11, 0x11, 0x7E,
   0x7F, 0x49, 0x49, 0x49, 0x36,
   0x3E, 0x41, 0x41, 0x41, 0x22,
   0x7F, 0x41, 0x41, 0x22, 0x1C,
   0x7F, 0x49, 0x49, 0x49, 0x41,
   0x7F, 0x09, 0x09, 0x01, 0x01,
   0x3E, 0x41, 0x41, 0x51, 0x32,
   0x7F, 0x08, 0x08, 0x08, 0x7F,
   0x00, 0x41, 0x7F, 0x41, 0x00,
   0x20, 0x40, 0x41, 0x3F, 0x01,
   0x7F, 0x08, 0x14, 0x22, 0x41,
   0x7F, 0x40, 0x40, 0x40, 0x40,
   0x7F, 0x02, 0x04, 0x02, 0x7F,
   0x7F, 0x04, 0x08, 0x10, 0x7F,
   0x3E, 0x41, 0x41, 0x41, 0x3E,
   0x7F, 0x09, 0x09, 0x09, 0x06,
   0x3E, 0x41, 0x51, 0x21, 0x5E,
   0x7F, 0x09, 0x19, 0x29, 0x46,
   0x46, 0x49, 0x49, 0x49, 0x31,
   0x01, 0x01, 0x7F, 0x01, 0x01,
   0x3F, 0x40, 0x40, 0x40, 0x3F,
   0x1F, 0x20, 0x40, 0x20, 0x1F,
   0x7F, 0x20, 0x18, 0x20, 0x7F,
   0x63, 0x14, 0x08, 0x14, 0x63,
   0x03, 0x04, 0x78, 0x04, 0x03,
   0x61, 0x51, 0x49, 0x45, 0x43,
   0x00, 0x00, 0x7F, 0x41, 0x41,
   0x02, 0x04, 0x08, 0x10, 0x20,
   0x41, 0x41, 0x7F, 0x00, 0x00,
   0x04, 0x02, 0x01, 0x02, 0x04,
   0x40, 0x40, 0x40, 0x40, 0x40,
   0x00, 0x01, 0x02, 0x04, 0x00,
   0x20, 0x54, 0x54, 0x54, 0x78,
   0x7F, 0x48, 0x44, 0x44, 0x38,
   0x38, 0x44, 0x44, 0x44, 0x20,
   0x38, 0x44, 0x44, 0x48, 0x7F,
   0x38, 0x54, 0x54, 0x54, 0x18,
   0x08, 0x7E, 0x09, 0x01, 0x02,
   0x08, 0x54, 0x54, 0x54, 0x3C,
   0x7F, 0x08, 0x04, 0x04, 0x78,
   0x00, 0x44, 0x7D, 0x40, 0x00,
   0x20, 0x40, 0x44, 0x3D, 0x00,
   0x00, 0x7F, 0x10, 0x28, 0x44,
   0x00, 0x41, 0x7F, 0x40, 0x00,
   0x7C, 0x04, 0x18, 0x04, 0x78,
   0x7C, 0x08, 0x04, 0x04, 0x78,
   0x38, 0x44, 0x44, 0x44, 0x38,
   0x7C, 0x14, 0x14, 0x14, 0x08,
   0x08, 0x14, 0x14, 0x18, 0x7C,
   0x7C, 0x08, 0x04, 0x04, 0x08,
   0x48, 0x54, 0x54, 0x54, 0x20,
   0x04, 0x3F, 0x44, 0x40, 0x20,
   0x3C, 0x40, 0x40, 0x20, 0x7C,
   0x1C, 0x20, 0x40, 0x20, 0x1C,
   0x3C, 0x40, 0x30, 0x40, 0x3C,
   0x44, 0x28, 0x10, 0x28, 0x44,
   0x0C, 0x50, 0x50, 0x50, 0x3C,
   0x44, 0x64, 0x54, 0x4C, 0x44,
   0x00, 0x08, 0x36, 0x41, 0x00,
   0x00, 0x00, 0x7F, 0x00, 0x00,
   0x00, 0x41, 0x36, 0x08, 0x00,
   0x08, 0x04, 0x08, 0x10, 0x08,
   0x7F, 0x41, 0x41, 0x41, 0x7F]

/-- The macro `SSD1306_MAX_COLS`. -/
def SSD1306_MAX_COLS : Nat := 21

/-- The byte `(uint8_t)text[i]` of a character of a C string. -/
def charByte (ch : Char) : Nat := ch.toNat % 256

/-- The offset `(c - 32) * 5` into `FONT_5X7` after the replacement of the
bytes outside 32 .. 127 by 32. -/
def glyphOffset (c : Nat) : Nat :=
  let c := if c < 32 ∨ c > 127 then 32 else c
  (c - 32) * 5

/-- The five bytes `pgm_read_byte(&glyph[j])`, `j = 0 .. 4`, sent for the byte
`c` of the text. -/
def glyphBytes (c : Nat) : List Nat :=
  (List.range 5).map fun j => FONT_5X7.getD (glyphOffset c + j) 0

/-- The data transfer for one character: control byte 0x40, the five glyph
bytes, one spacing byte. -/
def charTransfer (addr : Nat) (ch : Char) : HwOp :=
  HwOp.transmit addr (0x40 :: (glyphBytes (charByte ch) ++ [0x00])) true

/-- The rendering loop of `ssd1306WriteText` on the characters still to show,
entered with the column `col`: the transfers made and the column reached. -/
def writeChars (addr : Nat) : List Char → Nat → List HwOp × Nat
  | [], col => ([], col)
  | ch :: rest, col =>
    if col < SSD1306_MAX_COLS then
      ((charTransfer addr ch) :: (writeChars addr rest (col + 1)).1,
        (writeChars addr rest (col + 1)).2)
    else ([], col)

/-- The fill loop of `ssd1306WriteText` with `remaining` bytes to blank, in
chunks of at most 16; the first argument bounds the number of passes. -/
def blankChunks (addr : Nat) : Nat → Nat → List HwOp
  | 0, _ => []
  | fuel + 1, remaining =>
    if remaining > 0 then
      let chunk := if remaining > 16 then 16 else remaining
      HwOp.transmit addr (0x40 :: List.replicate chunk 0) true ::
        blankChunks addr fuel (remaining - chunk)
    else []

/-- The function `ssd1306WriteText`; `text` is the C string without its
terminator. -/
def ssd1306WriteText (s : I2cState) (addr line : Nat) (text : List Char) : I2cState :=
  if !i2cActive s then s
  else
    let s1 := ssd1306Cmds s addr [0x21, 0, 127, 0x22, line, line]
    let r := writeChars addr text 0
    let remaining := (SSD1306_MAX_COLS - r.2) * 6
    { s1 with hw := s1.hw ++ r.1 ++ blankChunks addr remaining remaining }

/-- The data bytes of a transfer: what follows the control byte 0x40. -/
def dataPayload : HwOp → List Nat
  | HwOp.transmit _ (0x40 :: bytes) _ => bytes
  | _ => []

/-- The data bytes of a sequence of transfers, in order. -/
def dataBytes (ops : List HwOp) : List Nat := (ops.map dataPayload).flatten

/-! ## Further definitions used by the theorems on the display and the BME280 -/

/-- A bus set up by one `i2cInit`. -/
def activeBus : I2cState := i2cInit I2cState.init

/-- A text of 30 characters. -/
def thirtyChars : List Char := "ABCDEFGHIJKLMNOPQRSTUVWXYZ0123".toList

/-- Quotient in `int64_t` that fails on the divisor 0. -/
def i64divChecked (a b : Int) : Option Int :=
  if b = 0 then none else some (i64div a b)

/-- The pressure compensation of `bme280DoRead` with the division made
fallible: `none` when the division is reached with the divisor 0. -/
def bme280PresChecked (c : Bme280Calib) (t_fine adc_P : Int) : Option CFloat :=
  let p_var1 := i64sub t_fine 128000
  let p_var2 := i64mul (i64mul p_var1 p_var1) c.dig_P6
  let p_var2 := i64add p_var2 (i64shl (i64mul p_var1 c.dig_P5) 17)
  let p_var2 := i64add p_var2 (i64shl c.dig_P4 35)
  let p_var1 := i64add (sar (i64mul (i64mul p_var1 p_var1) c.dig_P3) 8)
    (i64shl (i64mul p_var1 c.dig_P2) 12)
  let p_var1 := sar (i64mul (i64add (i64shl 1 47) p_var1) (c.dig_P1 : Int)) 33
  if p_var1 = 0 then some (CFloat.num 0)
  else
    let p := i64sub 1048576 adc_P
    match i64divChecked (i64mul (i64sub (i64shl p 31) p_var2) 3125) p_var1 with
    | none => none
    | some p =>
      let p_var1 := sar (i64mul (i64mul c.dig_P9 (sar p 13)) (sar p 13)) 25
      let p_var2 := sar (i64mul c.dig_P8 p) 19
      let p := i64add (sar (i64add (i64add p p_var1) p_var2) 8) (i64shl c.dig_P7 4)
      some (CFloat.div (CFloat.ofInt p) (CFloat.num 25600))

/-- A 12-bit word read as a two's-complement number, the reading the BME280
datasheet gives to `dig_H4` and `dig_H5`. -/
def specSigned12 (n : Nat) : Int :=
  if n % 4096 < 2048 then ((n % 4096 : Nat) : Int) else ((n % 4096 : Nat) : Int) - 4096

/-! ## Template engine (`i2c_display.cpp` 247-333)

A C string is the list of its characters before the terminator. The functions
and variables that `templateExpand` calls and that are declared outside the
I2C sources (`WiFi.localIP`, `ESP.getFreeHeap`, `millis`, `cfg_device_name`,
`deviceFind`, `deviceIsSensor`, `deviceIsActuator`, `deviceReadSensor`) are
parameters: the values they return, and what a sensor read does to the state
of the I2C subsystem. A write outside the buffer `expanded[256]` leaves the
behaviour of the program undefined; `ssd1306RenderTemplate` has no result
then. -/

/-- What the device lookup of `templateExpand` finds for a token: a sensor,
with the text that `"%.1f"` prints for its reading, an actuator, with its
`last_value`, or neither. The text printed by `"%.1f"` is never empty: it is
given by its first character and the characters after it. -/
inductive DeviceLookup where
  | absent
  | sensor (first : Char) (more : List Char)
  | actuator (last_value : Int)
deriving DecidableEq

/-- The values that the providers of `templateExpand` return, and what the
call `deviceReadSensor(dev)` for the device named by a token does to the state
of the I2C subsystem (bus log, cache, calibration records). -/
structure TokenProviders where
  ip : List Char
  heap : Nat
  millis : Nat
  cfg_device_name : List Char
  deviceFind : List Char → DeviceLookup
  deviceReadSensor : List Char → I2cState → I2cState

/-- The text printed by `"%u"` and `"%lu"`. -/
def fmtUnsigned (n : Nat) : List Char := Nat.toDigits 10 n

/-- The text printed by `"%02lu"`. -/
def fmtTwoDigits (n : Nat) : List Char :=
  if n < 10 then '0' :: Nat.toDigits 10 n else Nat.toDigits 10 n

/-- The text printed by `"%d"`. -/
def fmtSigned (v : Int) : List Char :=
  if v < 0 then '-' :: Nat.toDigits 10 v.natAbs else Nat.toDigits 10 v.natAbs

/-- The text that `templateExpand` hands to `snprintf` for the token `token`. -/
def tokenText (env : TokenProviders) (token : List Char) : List Char :=
  if token = "ip".toList then env.ip
  else if token = "heap".toList then fmtUnsigned env.heap
  else if token = "uptime".toList then
    let secs := env.millis / 1000
    let h := secs / 3600
    let m := (secs % 3600) / 60
    fmtUnsigned h ++ ['h'] ++ fmtTwoDigits m ++ ['m']
  else if token = "name".toList then env.cfg_device_name
  else
    match env.deviceFind token with
    | DeviceLookup.sensor first more => first :: more
    | DeviceLookup.actuator last_value => fmtSigned last_value
    | DeviceLookup.absent => '?' :: token

/-- The loop of `templateExpand` with the pointer at `p`, the characters `out`
stored so far and the index `w`; the first argument bounds the number of
passes. A call `snprintf(out + w, out_len - w, ...)` stores at most
`out_len - w - 1` characters of its text and returns the length of the whole
text, which is added to `w`. The result is the text stored and the final `w`,
the index at which the terminator is written. -/
def expandLoop (env : TokenProviders) (out_len : Nat) :
    Nat → List Char → List Char → Nat → List Char × Nat
  | 0, _, out, w => (out, w)
  | fuel + 1, p, out, w =>
    match p with
    | [] => (out, w)
    | c :: rest =>
      if w + 1 < out_len then
        if c = '{' then
          match rest.findIdx? (fun x => x == '}') with
          | none => expandLoop env out_len fuel rest (out ++ [c]) (w + 1)
          | some tlen =>
            if tlen = 0 ∨ tlen ≥ 32 then
              expandLoop env out_len fuel rest (out ++ [c]) (w + 1)
            else
              expandLoop env out_len fuel (rest.drop (tlen + 1))
                (out ++ (tokenText env (rest.take tlen)).take (out_len - w - 1))
                (w + (tokenText env (rest.take tlen)).length)
        else expandLoop env out_len fuel rest (out ++ [c]) (w + 1)
      else (out, w)

/-- The loop of `templateExpand` continued from the pointer `p`; every pass
moves the pointer forward, so `p.length` passes are enough. -/
def expandFrom (env : TokenProviders) (out_len : Nat) (p out : List Char) (w : Nat) :
    List Char × Nat :=
  expandLoop env out_len p.length p out w

/-- The function `templateExpand`: the text left in `out` and the index `w`
of the final `out[w] = 0`. -/
def templateExpand (env : TokenProviders) (tmpl : List Char) (out_len : Nat) :
    List Char × Nat :=
  expandFrom env out_len tmpl [] 0

/-- Whether `templateExpand` calls `deviceReadSensor` for the token: it is
none of the four special tokens and names a sensor. -/
def readsSensor (env : TokenProviders) (token : List Char) : Bool :=
  if token = "ip".toList then false
  else if token = "heap".toList then false
  else if token = "uptime".toList then false
  else if token = "name".toList then false
  else
    match env.deviceFind token with
    | DeviceLookup.sensor _ _ => true
    | _ => false

/-- The calls `deviceReadSensor(dev)` made by the loop of `templateExpand`
with the pointer at `p` and the index `w`, each given by the token that names
the device, in order. The passes are those of `expandLoop`. -/
def sensorReadsLoop (env : TokenProviders) (out_len : Nat) :
    Nat → List Char → Nat → List (List Char)
  | 0, _, _ => []
  | fuel + 1, p, w =>
    match p with
    | [] => []
    | c :: rest =>
      if w + 1 < out_len then
        if c = '{' then
          match rest.findIdx? (fun x => x == '}') with
          | none => sensorReadsLoop env out_len fuel rest (w + 1)
          | some tlen =>
            if tlen = 0 ∨ tlen ≥ 32 then
              sensorReadsLoop env out_len fuel rest (w + 1)
            else
              (if readsSensor env (rest.take tlen) then [rest.take tlen] else [])
                ++ sensorReadsLoop env out_len fuel (rest.drop (tlen + 1))
                    (w + (tokenText env (rest.take tlen)).length)
        else sensorReadsLoop env out_len fuel rest (w + 1)
      else []

/-- The calls `deviceReadSensor(dev)` made by `templateExpand`, in order. -/
def sensorReads (env : TokenProviders) (tmpl : List Char) (out_len : Nat) :
    List (List Char) :=
  sensorReadsLoop env out_len tmpl.length tmpl 0

/-- The state of the I2C subsystem after `templateExpand`: the sensor reads
of the expansion have been made, in order. -/
def expandEffect (env : TokenProviders) (s : I2cState) (tmpl : List Char) (out_len : Nat) :
    I2cState :=
  (sensorReads env tmpl out_len).foldl (fun st token => env.deviceReadSensor token st) s

/-- The second loop of `ssd1306RenderTemplate`: the calls that blank the
lines from `line_num` on, `k` of them being left. -/
def blankLines : Nat → Nat → List (Nat × List Char)
  | 0, _ => []
  | k + 1, line_num => (line_num, []) :: blankLines k (line_num + 1)

/-- The two loops of `ssd1306RenderTemplate` with `k = max_lines - line_num`
lines left: the calls `ssd1306WriteText(addr, line, text)` made, in order. -/
def renderLines : Nat → List Char → Nat → List (Nat × List Char)
  | 0, _, _ => []
  | k + 1, line_start, line_num =>
    match line_start with
    | [] => blankLines (k + 1) line_num
    | _ :: _ =>
      match line_start.dropWhile (fun x => x != '\n') with
      | [] => (line_num, line_start.takeWhile (fun x => x != '\n')) :: blankLines k (line_num + 1)
      | _ :: rest =>
        (line_num, line_start.takeWhile (fun x => x != '\n')) :: renderLines k rest (line_num + 1)

/-- The calls of `ssd1306WriteText` that `ssd1306RenderTemplate` makes once
past its guard. When `templateExpand` returns with `w` beyond 255 the final
`out[w] = 0` is a write outside `expanded[256]`: the behaviour of the program
is undefined from there on and the result is `none`. -/
def renderCalls (env : TokenProviders) (tmpl : List Char) (height : Nat) :
    Option (List (Nat × List Char)) :=
  let r := templateExpand env tmpl 256
  if r.2 < 256 then
    let expanded := r.1
    let max_lines := if height = 32 then 4 else 8
    some (renderLines max_lines expanded 0)
  else none

/-- The function `ssd1306RenderTemplate` for a template that is not a null
pointer: the sensor reads of the expansion, then the calls of
`ssd1306WriteText`; `none` when the expansion writes outside its buffer. -/
def ssd1306RenderTemplate (env : TokenProviders) (s : I2cState) (addr : Nat)
    (tmpl : List Char) (height : Nat) : Option I2cState :=
  if !i2cActive s || tmpl.isEmpty then some s
  else
    match renderCalls env tmpl height with
    | none => none
    | some calls =>
      some (calls.foldl (fun st c => ssd1306WriteText st addr c.1 c.2)
        (expandEffect env s tmpl 256))

/-- The segments of a text between its line breaks. -/
def segments : List Char → List (List Char)
  | [] => [[]]
  | c :: rest =>
    if c = '\n' then [] :: segments rest
    else
      match segments rest with
      | [] => [[c]]
      | seg :: more => (c :: seg) :: more

/-- The five font bytes of a character as the specification describes them:
the row of the 96-entry table for the character code, and the row of the
space for a code outside 32 .. 127. -/
def specGlyph (ch : Char) : List Nat :=
  let code := ch.toNat % 256
  let shown := if 32 ≤ code ∧ code ≤ 127 then code else 32
  (FONT_5X7.drop (5 * (shown - 32))).take 5

/-- The fill transfers after `shown` characters as the specification
describes them: `(21 - shown) * 6` zero bytes, 16 to a transfer and the rest
in a last one. -/
def specFill (addr shown : Nat) : List HwOp :=
  List.replicate ((21 - shown) * 6 / 16) (HwOp.transmit addr (0x40 :: List.replicate 16 0) true)
    ++ (if (21 - shown) * 6 % 16 = 0 then []
        else [HwOp.transmit addr (0x40 :: List.replicate ((21 - shown) * 6 % 16) 0) true])

/-- The transfers of one call `ssd1306WriteText(addr, line, text)` on an
active bus as the specification describes them: the column and page window,
the first 21 characters, the fill. -/
def textTransfers (addr line : Nat) (text : List Char) : List HwOp :=
  [HwOp.transmit addr [0x00, 0x21] true, HwOp.transmit addr [0x00, 0] true,
    HwOp.transmit addr [0x00, 127] true, HwOp.transmit addr [0x00, 0x22] true,
    HwOp.transmit addr [0x00, line] true, HwOp.transmit addr [0x00, line] true]
    ++ (text.take 21).map (fun ch => HwOp.transmit addr (0x40 :: (specGlyph ch ++ [0x00])) true)
    ++ specFill addr (min text.length 21)

/-- A template has no well-formed token: every `{` in it is followed by no
`}` at all, or at once by `}`, or by 32 or more other characters before the
next `}`. -/
def noToken : List Char → Bool
  | [] => true
  | c :: rest =>
    (if c = '{' then
      match rest.findIdx? (fun x => x == '}') with
      | none => true
      | some tlen => decide (tlen = 0 ∨ tlen ≥ 32)
    else true) && noToken rest

/-- Providers of a node at 192.168.100.100 named `node`, up for 3723 s, with
one sensor `temp` reading 21.5 and one actuator `relay` holding 1; a sensor
read sends one command to the address 0x44. -/
def exampleProviders : TokenProviders :=
  { ip := "192.168.100.100".toList
    heap := 123456
    millis := 3723000
    cfg_device_name := "node".toList
    deviceFind := fun token =>
      if token = "temp".toList then DeviceLookup.sensor '2' "1.5".toList
      else if token = "relay".toList then DeviceLookup.actuator 1
      else DeviceLookup.absent
    deviceReadSensor := fun _ st =>
      { st with hw := st.hw ++ [HwOp.transmit 0x44 [0x24, 0x00] true] } }

/-- Providers of a node whose device name is empty. -/
def unnamedProviders : TokenProviders :=
  { exampleProviders with cfg_device_name := [] }

/-- A template whose first `{` is followed by 32 letters and then by the
token `{y}`. -/
def nestedTemplate : List Char := '{' :: (List.replicate 32 'x' ++ "{y}".toList)

/-- A template that fills the buffer of 256 bytes before its tail is reached:
one letter, 16 times the token `{ip}`, 14 letters, and the tail. With an
address of 15 characters the tail is reached with `w = 255`. -/
def fullTemplate (tail : List Char) : List Char :=
  'x' :: ((List.replicate 16 "{ip}".toList).flatten ++ List.replicate 14 'a' ++ tail)

/-- A template of 69 characters: one letter and 17 times the token `{ip}`. -/
def overflowTemplate : List Char := 'x' :: (List.replicate 17 "{ip}".toList).flatten

/-! ## Theorems: slot selection of `i2cCacheSet` -/

theorem modify_append_cons (f : I2cCache → I2cCache) (p : List I2cCache) (o : I2cCache)
    (q : List I2cCache) : List.modify f p.length (p ++ o :: q) = p ++ f o :: q := by
  induction p with
  | nil => simp
  | cons x p ih => simpa using ih

theorem findSlot_spec (addr : Nat) (rest : List I2cCache) :
    ∀ (done : List I2cCache) (slot : Int),
      (∀ x ∈ done, x.addr ≠ addr) →
      (slot < 0 → slot = -1 ∧ ∀ x ∈ done, x.valid = true) →
      (0 ≤ slot → ∃ p o q, done = p ++ o :: q ∧ slot = (p.length : Int) ∧ o.valid = false ∧
          ∀ x ∈ p, x.valid = true) →
      (∃ p o q, done ++ rest = p ++ o :: q ∧
          findSlot addr rest done.length slot = (p.length : Int) ∧ o.addr = addr ∧
          ∀ x ∈ p, x.addr ≠ addr) ∨
      ((∀ x ∈ done ++ rest, x.addr ≠ addr) ∧
        ∃ p o q, done ++ rest = p ++ o :: q ∧
          findSlot addr rest done.length slot = (p.length : Int) ∧ o.valid = false ∧
          ∀ x ∈ p, x.valid = true) ∨
      ((∀ x ∈ done ++ rest, x.addr ≠ addr ∧ x.valid = true) ∧
        findSlot addr rest done.length slot = -1) := by
  induction rest with
  | nil =>
    intro done slot hA hneg hpos
    simp only [findSlot, List.append_nil]
    by_cases hs : slot < 0
    · obtain ⟨h1, h2⟩ := hneg hs
      exact Or.inr (Or.inr ⟨fun x hx => ⟨hA x hx, h2 x hx⟩, h1⟩)
    · obtain ⟨p, o, q, h1, h2, h3, h4⟩ := hpos (not_lt.mp hs)
      exact Or.inr (Or.inl ⟨hA, p, o, q, h1, h2, h3, h4⟩)
  | cons e rest ih =>
    intro done slot hA hneg hpos
    have hlen : (done ++ [e]).length = done.length + 1 := by simp
    have happ : (done ++ [e]) ++ rest = done ++ e :: rest := by simp
    by_cases he : e.addr = addr
    · refine Or.inl ⟨done, e, rest, rfl, ?_, he, hA⟩
      simp [findSlot, he]
    · have hA2 : ∀ x ∈ done ++ [e], x.addr ≠ addr := by
        intro x hx
        rcases List.mem_append.mp hx with h | h
        · exact hA x h
        · rw [List.mem_singleton.mp h]; exact he
      by_cases hc : e.valid = false ∧ slot < 0
      · have hstep : findSlot addr (e :: rest) done.length slot =
            findSlot addr rest (done ++ [e]).length (done.length : Int) := by
          rw [hlen]; simp [findSlot, he, hc.1, hc.2]
        have := ih (done ++ [e]) (done.length : Int) hA2
          (fun h => absurd h (by omega))
          (fun _ => ⟨done, e, [], rfl, rfl, hc.1, (hneg hc.2).2⟩)
        rw [happ] at this
        rw [hstep]; exact this
      · have hstep : findSlot addr (e :: rest) done.length slot =
            findSlot addr rest (done ++ [e]).length slot := by
          rw [hlen]; simp only [findSlot, he, if_false, hc]
        have := ih (done ++ [e]) slot hA2
          (fun h => by
            obtain ⟨h1, h2⟩ := hneg h
            refine ⟨h1, ?_⟩
            intro x hx
            rcases List.mem_append.mp hx with h3 | h3
            · exact h2 x h3
            · rw [List.mem_singleton.mp h3]
              cases hv : e.valid with
              | true => rfl
              | false => exact absurd ⟨hv, h⟩ hc)
          (fun h => by
            obtain ⟨p, o, q, h1, h2, h3, h4⟩ := hpos h
            exact ⟨p, o, q ++ [e], by simp [h1], h2, h3, h4⟩)
        rw [happ] at this
        rw [hstep]; exact this

theorem evictScan_spec (rest : List I2cCache) :
    ∀ (done : List I2cCache) (oldest : Nat) (slot : Int),
      (slot < 0 → slot = -1 ∧ oldest = UINT32_MAX ∧ ∀ x ∈ done, UINT32_MAX ≤ x.last_read_ms) →
      (0 ≤ slot → ∃ p o q, done = p ++ o :: q ∧ slot = (p.length : Int) ∧
          o.last_read_ms = oldest ∧ (∀ x ∈ p, oldest < x.last_read_ms) ∧
          ∀ x ∈ q, oldest ≤ x.last_read_ms) →
      (evictScan rest done.length oldest slot = -1 ∧
          ∀ x ∈ done ++ rest, UINT32_MAX ≤ x.last_read_ms) ∨
      (∃ p o q, done ++ rest = p ++ o :: q ∧
          evictScan rest done.length oldest slot = (p.length : Int) ∧
          (∀ x ∈ p, o.last_read_ms < x.last_read_ms) ∧
          ∀ x ∈ q, o.last_read_ms ≤ x.last_read_ms) := by
  induction rest with
  | nil =>
    intro done oldest slot hneg hpos
    simp only [evictScan, List.append_nil]
    by_cases hs : slot < 0
    · obtain ⟨h1, _, h3⟩ := hneg hs
      exact Or.inl ⟨h1, h3⟩
    · obtain ⟨p, o, q, h1, h2, h3, h4, h5⟩ := hpos (not_lt.mp hs)
      exact Or.inr ⟨p, o, q, h1, h2, by rw [h3]; exact h4, by rw [h3]; exact h5⟩
  | cons e rest ih =>
    intro done oldest slot hneg hpos
    have hlen : (done ++ [e]).length = done.length + 1 := by simp
    have happ : (done ++ [e]) ++ rest = done ++ e :: rest := by simp
    by_cases hc : e.last_read_ms < oldest
    · have hstep : evictScan (e :: rest) done.length oldest slot =
          evictScan rest (done ++ [e]).length e.last_read_ms (done.length : Int) := by
        rw [hlen]; simp [evictScan, hc]
      have hall : ∀ x ∈ done, e.last_read_ms < x.last_read_ms := by
        intro x hx
        by_cases hs : slot < 0
        · obtain ⟨_, h2, h3⟩ := hneg hs
          have := h3 x hx
          omega
        · obtain ⟨p, o, q, h1, _, h3, h4, h5⟩ := hpos (not_lt.mp hs)
          rw [h1] at hx
          rcases List.mem_append.mp hx with h | h
          · have := h4 x h; omega
          · rcases List.mem_cons.mp h with h | h
            · rw [h, h3]; exact hc
            · have := h5 x h; omega
      have := ih (done ++ [e]) e.last_read_ms (done.length : Int)
        (fun h => absurd h (by omega))
        (fun _ => ⟨done, e, [], rfl, rfl, rfl, hall, by simp⟩)
      rw [happ] at this
      rw [hstep]; exact this
    · have hstep : evictScan (e :: rest) done.length oldest slot =
          evictScan rest (done ++ [e]).length oldest slot := by
        rw [hlen]; simp [evictScan, hc]
      have := ih (done ++ [e]) oldest slot
        (fun h => by
          obtain ⟨h1, h2, h3⟩ := hneg h
          refine ⟨h1, h2, ?_⟩
          intro x hx
          rcases List.mem_append.mp hx with h4 | h4
          · exact h3 x h4
          · rw [List.mem_singleton.mp h4]; omega)
        (fun h => by
          obtain ⟨p, o, q, h1, h2, h3, h4, h5⟩ := hpos h
          refine ⟨p, o, q ++ [e], by simp [h1], h2, h3, h4, ?_⟩
          intro x hx
          rcases List.mem_append.mp hx with h6 | h6
          · exact h5 x h6
          · rw [List.mem_singleton.mp h6]; omega)
      rw [happ] at this
      rw [hstep]; exact this

theorem chooseSlot_of_found (cache : List I2cCache) (addr k : Nat)
    (h : findSlot addr cache 0 (-1) = (k : Int)) : chooseSlot cache addr = k := by
  have h0 : ¬ ((k : Int) < 0) := by omega
  simp [chooseSlot, h, h0]

theorem chooseSlot_of_evicted (cache : List I2cCache) (addr k : Nat)
    (h : findSlot addr cache 0 (-1) = -1)
    (h2 : evictScan cache 0 UINT32_MAX (-1) = (k : Int)) : chooseSlot cache addr = k := by
  have h0 : ¬ ((k : Int) < 0) := by omega
  simp [chooseSlot, h, h2, h0]

theorem chooseSlot_of_none (cache : List I2cCache) (addr : Nat)
    (h : findSlot addr cache 0 (-1) = -1)
    (h2 : evictScan cache 0 UINT32_MAX (-1) = -1) : chooseSlot cache addr = 0 := by
  simp [chooseSlot, h, h2]

/-- Where `i2cCacheSet` writes: the table splits as `p ++ o :: q`, slot `o` is
replaced by the filled slot, no slot of `p` holds the address, and `o` is the
first slot holding the address, or else the first invalid slot, or else the
first slot with the smallest `last_read_ms`. -/
theorem i2cCacheSet_spec (cache : List I2cCache) (now addr : Nat) (v : Nat → CFloat) (n : Nat)
    (hne : cache ≠ []) :
    ∃ p o q, cache = p ++ o :: q ∧
      i2cCacheSet cache now addr v n = p ++ fillSlot now addr v n o :: q ∧
      (∀ x ∈ p, x.addr ≠ addr) ∧
      (o.addr = addr ∨
        ((∀ x ∈ cache, x.addr ≠ addr) ∧ o.valid = false ∧ ∀ x ∈ p, x.valid = true) ∨
        ((∀ x ∈ cache, x.addr ≠ addr ∧ x.valid = true) ∧
          (∀ x ∈ p, o.last_read_ms < x.last_read_ms) ∧
          ∀ x ∈ q, min o.last_read_ms UINT32_MAX ≤ x.last_read_ms)) := by
  have hf := findSlot_spec addr cache [] (-1) (by simp) (by simp) (by intro h; omega)
  simp only [List.nil_append, List.length_nil] at hf
  rcases hf with ⟨p, o, q, h1, h2, h3, h4⟩ | ⟨hA, p, o, q, h1, h2, h3, h4⟩ | ⟨hA, h2⟩
  · refine ⟨p, o, q, h1, ?_, h4, Or.inl h3⟩
    have hs := chooseSlot_of_found cache addr p.length h2
    unfold i2cCacheSet
    rw [hs, h1, modify_append_cons]
  · refine ⟨p, o, q, h1, ?_, ?_, Or.inr (Or.inl ⟨hA, h3, h4⟩)⟩
    · have hs := chooseSlot_of_found cache addr p.length h2
      unfold i2cCacheSet
      rw [hs, h1, modify_append_cons]
    · intro x hx
      exact hA x (by rw [h1]; exact List.mem_append_left _ hx)
  · have he := evictScan_spec cache [] UINT32_MAX (-1) (by simp) (by intro h; omega)
    simp only [List.nil_append, List.length_nil] at he
    rcases he with ⟨h3, h4⟩ | ⟨p, o, q, h1, h3, h4, h5⟩
    · obtain ⟨o, q, rfl⟩ := List.exists_cons_of_ne_nil hne
      refine ⟨[], o, q, rfl, ?_, by simp, Or.inr (Or.inr ⟨hA, by simp, ?_⟩)⟩
      · have hs := chooseSlot_of_none (o :: q) addr h2 h3
        unfold i2cCacheSet
        rw [hs]; simp
      · intro x hx
        have := h4 x (List.mem_cons_of_mem _ hx)
        exact le_trans (min_le_right _ _) this
    · refine ⟨p, o, q, h1, ?_, ?_, Or.inr (Or.inr ⟨hA, h4, ?_⟩)⟩
      · have hs := chooseSlot_of_evicted cache addr p.length h2 h3
        unfold i2cCacheSet
        rw [hs, h1, modify_append_cons]
      · intro x hx
        exact (hA x (by rw [h1]; exact List.mem_append_left _ hx)).1
      · intro x hx
        exact le_trans (min_le_left _ _) (h5 x hx)

/-! ## Theorems: table invariant -/

theorem firstHolderOnly_init : FirstHolderOnly g_i2c_cache_init := by
  unfold FirstHolderOnly g_i2c_cache_init
  rw [List.pairwise_replicate]
  right; intro _; rfl

theorem firstHolderOnly_set (cache : List I2cCache) (now addr : Nat) (v : Nat → CFloat) (n : Nat)
    (h : FirstHolderOnly cache) : FirstHolderOnly (i2cCacheSet cache now addr v n) := by
  by_cases hne : cache = []
  · subst hne; simpa [i2cCacheSet] using h
  obtain ⟨p, o, q, h1, h2, h3, h4⟩ := i2cCacheSet_spec cache now addr v n hne
  rw [h2]
  unfold FirstHolderOnly at h ⊢
  rw [h1] at h
  rw [List.pairwise_append] at h ⊢
  obtain ⟨hp, hoq, hpq⟩ := h
  rw [List.pairwise_cons] at hoq ⊢
  refine ⟨hp, ⟨?_, hoq.2⟩, ?_⟩
  · intro y hy hay
    have hya : y.addr = addr := by simpa [fillSlot] using hay.symm
    rcases h4 with h5 | ⟨h5, _⟩ | ⟨h5, _⟩
    · exact hoq.1 y hy (by rw [h5, hya])
    · exact absurd hya (h5 y (by rw [h1]; simp [hy]))
    · exact absurd hya (h5 y (by rw [h1]; simp [hy])).1
  · intro x hx y hy hxy
    rcases List.mem_cons.mp hy with rfl | hy
    · exact absurd (by simpa [fillSlot] using hxy) (h3 x hx)
    · exact hpq x hx y (List.mem_cons_of_mem _ hy) hxy

theorem firstHolderOnly_invalidate (cache : List I2cCache) (addr : Nat)
    (h : FirstHolderOnly cache) : FirstHolderOnly (i2cCacheInvalidate cache addr) := by
  unfold FirstHolderOnly i2cCacheInvalidate at *
  rw [List.pairwise_map]
  refine h.imp ?_
  have hfa : ∀ e : I2cCache,
      (if e.addr = addr then { e with valid := false } else e).addr = e.addr := by
    intro e; split <;> rfl
  intro x y hxy hab
  rw [hfa, hfa] at hab
  have := hxy hab
  split
  · rfl
  · exact this

theorem firstHolderOnly_run (cache : List I2cCache) (call : CacheCall)
    (h : FirstHolderOnly cache) : FirstHolderOnly (call.run cache) := by
  cases call with
  | set now addr v n => exact firstHolderOnly_set cache now addr v n h
  | invalidate addr => exact firstHolderOnly_invalidate cache addr h
  | get now addr c => exact h

theorem firstHolderOnly_runCalls (calls : List CacheCall) :
    ∀ cache, FirstHolderOnly cache → FirstHolderOnly (runCalls cache calls) := by
  induction calls with
  | nil => intro cache h; exact h
  | cons call calls ih =>
    intro cache h
    exact ih _ (firstHolderOnly_run cache call h)

theorem length_run (cache : List I2cCache) (call : CacheCall) :
    (call.run cache).length = cache.length := by
  cases call <;> simp [CacheCall.run, i2cCacheSet, i2cCacheInvalidate]

theorem length_runCalls (calls : List CacheCall) :
    ∀ cache, (runCalls cache calls).length = cache.length := by
  induction calls with
  | nil => intro cache; rfl
  | cons call calls ih =>
    intro cache
    exact (ih _).trans (length_run cache call)

theorem runCalls_init_ne_nil (calls : List CacheCall) : runCalls g_i2c_cache_init calls ≠ [] := by
  intro h
  have := length_runCalls calls g_i2c_cache_init
  rw [h] at this
  simp [g_i2c_cache_init, I2C_CACHE_MAX] at this

theorem countP_le_one_of_firstHolderOnly (a : Nat) (cache : List I2cCache)
    (h : FirstHolderOnly cache) :
    cache.countP (fun e => e.valid && e.addr == a) ≤ 1 := by
  unfold FirstHolderOnly at h
  induction cache with
  | nil => simp
  | cons x t ih =>
    rw [List.pairwise_cons] at h
    by_cases hx : (x.valid && x.addr == a) = true
    · have hz : t.countP (fun e => e.valid && e.addr == a) = 0 := by
        rw [List.countP_eq_zero]
        intro y hy
        simp only [Bool.and_eq_true, beq_iff_eq] at hx ⊢
        intro hc
        have := h.1 y hy (by rw [hx.2, hc.2])
        rw [this] at hc
        exact absurd hc.1 (by simp)
      rw [List.countP_cons, hz, if_pos hx]
    · rw [List.countP_cons, if_neg hx]
      exact ih h.2

/-! ## Theorems: lookups -/

theorem i2cCacheGet_miss (cache : List I2cCache) (now addr c : Nat)
    (h : ∀ x ∈ cache, cacheHit now addr c x = false) : i2cCacheGet cache now addr c = CFloat.nan := by
  have : cache.find? (cacheHit now addr c) = none := by
    rw [List.find?_eq_none]
    intro x hx
    simp [h x hx]
  simp [i2cCacheGet, this]

theorem find_skips_front (p l : List I2cCache) (now addr c : Nat)
    (h : ∀ x ∈ p, x.addr ≠ addr) :
    (p ++ l).find? (cacheHit now addr c) = l.find? (cacheHit now addr c) := by
  have : p.find? (cacheHit now addr c) = none := by
    rw [List.find?_eq_none]
    intro x hx
    simp [cacheHit, h x hx]
  simp [List.find?_append, this]

theorem sub32_self (now : Nat) : sub32 now now = 0 := by
  unfold sub32 UINT32_MOD
  omega

theorem storeValues_getD (old : List CFloat) (v : Nat → CFloat) (n c : Nat) (hc : c < n)
    (hn : n ≤ 4) : (storeValues old v n).getD c CFloat.nan = v c := by
  have h4 : c < 4 := by omega
  interval_cases c <;> simp [storeValues, List.range, List.range.loop, hc]

/-- C1. For every reachable table, address `A`, value array `v` and count
`1 ≤ n ≤ 4`: `i2cCacheSet(A, v, n)` followed by `i2cCacheGet(A, c)` at the same
`millis()` value returns `v[c]` for every `c < n` and `NAN` for every `c ≥ n`. -/
theorem set_then_get (calls : List CacheCall) (A : Nat) (v : Nat → CFloat) (n now c : Nat)
    (h1 : 1 ≤ n) (h4 : n ≤ 4) :
    (c < n → i2cCacheGet (i2cCacheSet (runCalls g_i2c_cache_init calls) now A v n) now A c = v c) ∧
    (n ≤ c → i2cCacheGet (i2cCacheSet (runCalls g_i2c_cache_init calls) now A v n) now A c
      = CFloat.nan) := by
  have hinv := firstHolderOnly_set _ now A v n
    (firstHolderOnly_runCalls calls _ firstHolderOnly_init)
  obtain ⟨p, o, q, _, hset, hp, _⟩ :=
    i2cCacheSet_spec _ now A v n (runCalls_init_ne_nil calls)
  rw [hset] at hinv ⊢
  have hnum : (if n > 4 then 4 else n) = n := by
    rw [if_neg]; omega
  constructor
  · intro hc
    have hhit : cacheHit now A c (fillSlot now A v n o) = true := by
      simp [cacheHit, fillSlot, sub32_self, I2C_CACHE_TTL_MS, hnum, hc]
    unfold i2cCacheGet
    rw [find_skips_front p _ now A c hp, List.find?_cons_of_pos _ hhit]
    simp only [fillSlot, hnum]
    exact storeValues_getD _ v n c hc h4
  · intro hc
    apply i2cCacheGet_miss
    intro x hx
    rcases List.mem_append.mp hx with hx | hx
    · simp [cacheHit, hp x hx]
    · rcases List.mem_cons.mp hx with rfl | hx
      · have : ¬ c < n := by omega
        simp [cacheHit, fillSlot, hnum, this]
      · unfold FirstHolderOnly at hinv
        rw [List.pairwise_append, List.pairwise_cons] at hinv
        by_cases hxa : x.addr = A
        · have := hinv.2.1.1 x hx (by simp [fillSlot, hxa])
          simp [cacheHit, this]
        · simp [cacheHit, hxa]

/-- Witness of C1: a three-channel write at address 0x76 on the table at
program start. -/
theorem set_then_get_witness :
    (1 ≤ 3 ∧ 3 ≤ 4) ∧
    ((1 < 3 → i2cCacheGet (i2cCacheSet (runCalls g_i2c_cache_init []) 5 0x76
        (fun i => CFloat.num i) 3) 5 0x76 1 = CFloat.num 1) ∧
     (3 ≤ 1 → i2cCacheGet (i2cCacheSet (runCalls g_i2c_cache_init []) 5 0x76
        (fun i => CFloat.num i) 3) 5 0x76 1 = CFloat.nan)) :=
  ⟨by decide, by simpa using set_then_get [] 0x76 (fun i => CFloat.num i) 3 5 1 (by decide) (by decide)⟩

/-- C4. In every table reachable from the zero-initialised table by
`i2cCacheSet`, `i2cCacheInvalidate` and `i2cCacheGet` calls, at most one slot is
valid and holds a given address. -/
theorem at_most_one_valid_slot_per_address (calls : List CacheCall) (a : Nat) :
    (runCalls g_i2c_cache_init calls).countP (fun e => e.valid && e.addr == a) ≤ 1 :=
  countP_le_one_of_firstHolderOnly a _ (firstHolderOnly_runCalls calls _ firstHolderOnly_init)

theorem stampedAt_run (A t : Nat) (cache : List I2cCache) (call : CacheCall)
    (hc : call.isSetFor A = false) (h : StampedAt A t cache) : StampedAt A t (call.run cache) := by
  cases call with
  | get now addr c => exact h
  | invalidate addr =>
    intro x hx hv ha
    simp only [CacheCall.run, i2cCacheInvalidate, List.mem_map] at hx
    obtain ⟨e, he, rfl⟩ := hx
    by_cases hea : e.addr = addr
    · simp [hea] at hv
    · simp only [hea, if_false] at hv ha ⊢
      exact h e he hv ha
  | set now addr v n =>
    have hB : addr ≠ A := by simpa [CacheCall.isSetFor] using hc
    by_cases hne : cache = []
    · subst hne; simpa [CacheCall.run, i2cCacheSet] using h
    obtain ⟨p, o, q, h1, h2, _, _⟩ := i2cCacheSet_spec cache now addr v n hne
    intro x hx hv ha
    simp only [CacheCall.run, h2] at hx
    rcases List.mem_append.mp hx with hx | hx
    · exact h x (by rw [h1]; exact List.mem_append_left _ hx) hv ha
    · rcases List.mem_cons.mp hx with rfl | hx
      · exact absurd (by simpa [fillSlot] using ha) hB
      · exact h x (by rw [h1]; simp [hx]) hv ha

theorem stampedAt_runCalls (A t : Nat) (calls : List CacheCall) :
    ∀ cache, (∀ call ∈ calls, call.isSetFor A = false) → StampedAt A t cache →
      StampedAt A t (runCalls cache calls) := by
  induction calls with
  | nil => intro cache _ h; exact h
  | cons call calls ih =>
    intro cache hc h
    exact ih _ (fun c hcm => hc c (List.mem_cons_of_mem _ hcm))
      (stampedAt_run A t cache call (hc call (List.mem_cons_self _ _)) h)

theorem stampedAt_set (cache : List I2cCache) (t A : Nat) (v : Nat → CFloat) (n : Nat)
    (hne : cache ≠ []) (h : FirstHolderOnly cache) :
    StampedAt A t (i2cCacheSet cache t A v n) := by
  have hinv := firstHolderOnly_set cache t A v n h
  obtain ⟨p, o, q, _, h2, h3, _⟩ := i2cCacheSet_spec cache t A v n hne
  rw [h2] at hinv ⊢
  unfold FirstHolderOnly at hinv
  rw [List.pairwise_append, List.pairwise_cons] at hinv
  intro x hx hv ha
  rcases List.mem_append.mp hx with hx | hx
  · exact absurd ha (h3 x hx)
  · rcases List.mem_cons.mp hx with rfl | hx
    · rfl
    · have := hinv.2.1.1 x hx (by simp [fillSlot, ha])
      rw [this] at hv
      exact absurd hv (by simp)

theorem sub32_add (t d : Nat) : sub32 ((t + d) % UINT32_MOD) t = d % UINT32_MOD := by
  unfold sub32 UINT32_MOD
  omega

/-- C2 (amended). After `i2cCacheSet(A, ..)` at clock value `t` on a reachable
table, and any later calls none of which is a set for `A`, a lookup made `d`
milliseconds after the set, at the clock value `(t + d) mod 2^32`, is a miss
for every channel whenever `d mod 2^32 ≥ 1000`; this covers every elapsed time
`1000 ≤ d < 2^32`. -/
theorem stale_after_ttl (before after : List CacheCall) (A : Nat) (v : Nat → CFloat)
    (n t d c : Nat) (hd : I2C_CACHE_TTL_MS ≤ d % UINT32_MOD)
    (hno : ∀ call ∈ after, call.isSetFor A = false) :
    i2cCacheGet (runCalls (i2cCacheSet (runCalls g_i2c_cache_init before) t A v n) after)
      ((t + d) % UINT32_MOD) A c = CFloat.nan := by
  have hst := stampedAt_runCalls A t after _ hno
    (stampedAt_set _ t A v n (runCalls_init_ne_nil before)
      (firstHolderOnly_runCalls before _ firstHolderOnly_init))
  apply i2cCacheGet_miss
  intro x hx
  by_cases hv : x.valid = true
  · by_cases ha : x.addr = A
    · have hl := hst x hx hv ha
      have : ¬ (d % UINT32_MOD < I2C_CACHE_TTL_MS) := by omega
      simp [cacheHit, hl, sub32_add, this]
    · simp [cacheHit, ha]
  · simp [cacheHit, hv]

/-- Witness of C2 (amended): a lookup 1000 ms after a write at clock value 5,
with a write to another address and an invalidate in between. -/
theorem stale_after_ttl_witness :
    I2C_CACHE_TTL_MS ≤ 1000 % UINT32_MOD ∧
    (∀ call ∈ [CacheCall.set 7 0x44 (fun _ => CFloat.num 2) 2, CacheCall.invalidate 0x44],
      call.isSetFor 0x76 = false) ∧
    i2cCacheGet (runCalls (i2cCacheSet (runCalls g_i2c_cache_init []) 5 0x76
        (fun _ => CFloat.num 1) 3)
        [CacheCall.set 7 0x44 (fun _ => CFloat.num 2) 2, CacheCall.invalidate 0x44])
      ((5 + 1000) % UINT32_MOD) 0x76 0 = CFloat.nan :=
  ⟨by decide, by simp [CacheCall.isSetFor],
    stale_after_ttl [] _ 0x76 _ 3 5 1000 0 (by decide) (by simp [CacheCall.isSetFor])⟩

/-- C2, counterexample: a slot written at clock value 0 and looked up
2^32 ms later, when the 32-bit counter reads 0 again, is served as fresh. -/
theorem stale_entry_fresh_after_wrap :
    I2C_CACHE_TTL_MS ≤ 4294967296 ∧
    i2cCacheGet (runCalls (i2cCacheSet (runCalls g_i2c_cache_init []) 0 0x76
        (fun _ => CFloat.num 1) 1) [])
      ((0 + 4294967296) % UINT32_MOD) 0x76 0 = CFloat.num 1 ∧
    CFloat.num 1 ≠ CFloat.nan := by
  decide

/-- C3. When no slot holds address `A` and every slot is valid, `i2cCacheSet`
overwrites exactly one slot `o` (the table `p ++ o :: q` becomes
`p ++ new :: q`): `o` has the smallest `last_read_ms`, and every slot before
it has a strictly larger one, so the lowest index wins among ties. -/
theorem evicts_first_oldest (cache : List I2cCache) (now A : Nat) (v : Nat → CFloat) (n : Nat)
    (hlen : cache.length = I2C_CACHE_MAX)
    (hvalid : ∀ x ∈ cache, x.valid = true)
    (hnoA : ∀ x ∈ cache, x.addr ≠ A)
    (hty : ∀ x ∈ cache, x.last_read_ms ≤ UINT32_MAX) :
    ∃ p o q, cache = p ++ o :: q ∧
      i2cCacheSet cache now A v n = p ++ fillSlot now A v n o :: q ∧
      (∀ x ∈ p, o.last_read_ms < x.last_read_ms) ∧
      (∀ x ∈ q, o.last_read_ms ≤ x.last_read_ms) := by
  have hne : cache ≠ [] := by
    intro h; rw [h] at hlen; simp [I2C_CACHE_MAX] at hlen
  obtain ⟨p, o, q, h1, h2, _, h4⟩ := i2cCacheSet_spec cache now A v n hne
  have ho : o ∈ cache := by rw [h1]; simp
  rcases h4 with h5 | ⟨_, h5, _⟩ | ⟨_, h5, h6⟩
  · exact absurd h5 (hnoA o ho)
  · rw [hvalid o ho] at h5; exact absurd h5 (by simp)
  · refine ⟨p, o, q, h1, h2, h5, ?_⟩
    intro x hx
    have := h6 x hx
    rwa [min_eq_left (hty o ho)] at this

set_option maxRecDepth 100000 in
/-- Witness of C3: on the table filled by eight writes to 0x10 .. 0x17 at the
clock values 10 .. 80, a ninth write (address 0x18, clock value 90) evicts a
slot by the rule above; looked up at clock value 100, the first address
written is a miss and the other eight are hits. -/
theorem evicts_first_oldest_witness :
    (fullTable.length = I2C_CACHE_MAX ∧ (∀ x ∈ fullTable, x.valid = true) ∧
      (∀ x ∈ fullTable, x.addr ≠ 0x18) ∧ (∀ x ∈ fullTable, x.last_read_ms ≤ UINT32_MAX)) ∧
    (∃ p o q, fullTable = p ++ o :: q ∧
      i2cCacheSet fullTable 90 0x18 (fun _ => CFloat.num 8) 1
        = p ++ fillSlot 90 0x18 (fun _ => CFloat.num 8) 1 o :: q ∧
      (∀ x ∈ p, o.last_read_ms < x.last_read_ms) ∧
      (∀ x ∈ q, o.last_read_ms ≤ x.last_read_ms)) ∧
    i2cCacheGet (i2cCacheSet fullTable 90 0x18 (fun _ => CFloat.num 8) 1) 100 0x10 0
      = CFloat.nan ∧
    (List.range 8).map (fun i =>
        i2cCacheGet (i2cCacheSet fullTable 90 0x18 (fun _ => CFloat.num 8) 1) 100 (0x11 + i) 0)
      = [CFloat.num 1, CFloat.num 2, CFloat.num 3, CFloat.num 4, CFloat.num 5, CFloat.num 6,
          CFloat.num 7, CFloat.num 8] :=
  ⟨by decide,
    evicts_first_oldest fullTable 90 0x18 (fun _ => CFloat.num 8) 1
      (by decide) (by decide) (by decide) (by decide),
    by decide, by decide⟩

theorem noValidSlot_run (A : Nat) (cache : List I2cCache) (call : CacheCall)
    (hc : call.isSetFor A = false) (h : NoValidSlot A cache) : NoValidSlot A (call.run cache) := by
  cases call with
  | get now addr c => exact h
  | invalidate addr =>
    intro x hx ha
    simp only [CacheCall.run, i2cCacheInvalidate, List.mem_map] at hx
    obtain ⟨e, he, rfl⟩ := hx
    by_cases hea : e.addr = addr
    · simp [hea]
    · simp only [hea, if_false] at ha ⊢
      exact h e he ha
  | set now addr v n =>
    have hB : addr ≠ A := by simpa [CacheCall.isSetFor] using hc
    by_cases hne : cache = []
    · subst hne; simpa [CacheCall.run, i2cCacheSet] using h
    obtain ⟨p, o, q, h1, h2, _, _⟩ := i2cCacheSet_spec cache now addr v n hne
    intro x hx ha
    simp only [CacheCall.run, h2] at hx
    rcases List.mem_append.mp hx with hx | hx
    · exact h x (by rw [h1]; exact List.mem_append_left _ hx) ha
    · rcases List.mem_cons.mp hx with rfl | hx
      · exact absurd (by simpa [fillSlot] using ha) hB
      · exact h x (by rw [h1]; simp [hx]) ha

theorem noValidSlot_runCalls (A : Nat) (calls : List CacheCall) :
    ∀ cache, (∀ call ∈ calls, call.isSetFor A = false) → NoValidSlot A cache →
      NoValidSlot A (runCalls cache calls) := by
  induction calls with
  | nil => intro cache _ h; exact h
  | cons call calls ih =>
    intro cache hc h
    exact ih _ (fun c hcm => hc c (List.mem_cons_of_mem _ hcm))
      (noValidSlot_run A cache call (hc call (List.mem_cons_self _ _)) h)

theorem noValidSlot_invalidate (A : Nat) (cache : List I2cCache) :
    NoValidSlot A (i2cCacheInvalidate cache A) := by
  intro x hx ha
  simp only [i2cCacheInvalidate, List.mem_map] at hx
  obtain ⟨e, _, rfl⟩ := hx
  by_cases hea : e.addr = A
  · simp [hea]
  · simp only [hea, if_false] at ha

theorem get_invalidate_other (cache : List I2cCache) (A B now c : Nat) (hB : B ≠ A) :
    i2cCacheGet (i2cCacheInvalidate cache A) now B c = i2cCacheGet cache now B c := by
  unfold i2cCacheGet i2cCacheInvalidate
  induction cache with
  | nil => rfl
  | cons e t ih =>
    by_cases hea : e.addr = A
    · have h1 : cacheHit now B c e = false := by simp [cacheHit, hea, hB.symm]
      have h2 : cacheHit now B c { e with valid := false } = false := by simp [cacheHit]
      simp only [List.map_cons, hea, if_true, List.find?_cons, h1, h2]
      exact ih
    · simp only [List.map_cons, hea, if_false, List.find?_cons]
      cases cacheHit now B c e with
      | true => rfl
      | false => exact ih

/-- C5. After `i2cCacheInvalidate(A)`, and any later calls none of which is a
set for `A`, `i2cCacheGet(A, c)` is a miss for every channel and clock value;
for every other address `B` the lookup result is the one from before the
invalidate, and the slots holding other addresses are unchanged. -/
theorem invalidate_frame (cache : List I2cCache) (A B : Nat) (after : List CacheCall)
    (now c : Nat) (hB : B ≠ A) (hno : ∀ call ∈ after, call.isSetFor A = false) :
    i2cCacheGet (runCalls (i2cCacheInvalidate cache A) after) now A c = CFloat.nan ∧
    i2cCacheGet (i2cCacheInvalidate cache A) now B c = i2cCacheGet cache now B c ∧
    (i2cCacheInvalidate cache A).filter (fun e => e.addr != A)
      = cache.filter (fun e => e.addr != A) := by
  refine ⟨?_, get_invalidate_other cache A B now c hB, ?_⟩
  · apply i2cCacheGet_miss
    intro x hx
    by_cases ha : x.addr = A
    · have := noValidSlot_runCalls A after _ hno (noValidSlot_invalidate A cache) x hx ha
      simp [cacheHit, this]
    · simp [cacheHit, ha]
  · unfold i2cCacheInvalidate
    induction cache with
    | nil => rfl
    | cons e t ih =>
      by_cases hea : e.addr = A
      · simp only [List.map_cons, hea, if_true, List.filter_cons, bne_self_eq_false]
        exact ih
      · have : (e.addr != A) = true := by simp [hea]
        simp only [List.map_cons, hea, if_false, List.filter_cons, this, if_true]
        rw [ih]

/-- Witness of C5: addresses 0x76 and 0x44 are cached, 0x76 is invalidated,
then 0x44 is written again. -/
theorem invalidate_frame_witness :
    ((0x44 : Nat) ≠ 0x76 ∧
      ∀ call ∈ [CacheCall.set 9 0x44 (fun _ => CFloat.num 3) 2], call.isSetFor 0x76 = false) ∧
    i2cCacheGet (runCalls (i2cCacheInvalidate
        (runCalls g_i2c_cache_init [CacheCall.set 5 0x76 (fun _ => CFloat.num 1) 3,
          CacheCall.set 6 0x44 (fun _ => CFloat.num 2) 2]) 0x76)
        [CacheCall.set 9 0x44 (fun _ => CFloat.num 3) 2]) 10 0x76 0 = CFloat.nan ∧
    i2cCacheGet (i2cCacheInvalidate
        (runCalls g_i2c_cache_init [CacheCall.set 5 0x76 (fun _ => CFloat.num 1) 3,
          CacheCall.set 6 0x44 (fun _ => CFloat.num 2) 2]) 0x76) 10 0x44 0
      = i2cCacheGet (runCalls g_i2c_cache_init [CacheCall.set 5 0x76 (fun _ => CFloat.num 1) 3,
          CacheCall.set 6 0x44 (fun _ => CFloat.num 2) 2]) 10 0x44 0 :=
  ⟨⟨by decide, by simp [CacheCall.isSetFor]⟩,
    (invalidate_frame _ 0x76 0x44 _ 10 0 (by decide) (by simp [CacheCall.isSetFor])).1,
    (invalidate_frame _ 0x76 0x44 [CacheCall.set 9 0x44 (fun _ => CFloat.num 3) 2] 10 0
      (by decide) (by simp [CacheCall.isSetFor])).2.1⟩

/-! ## Theorems: bus lifecycle -/

/-- The lifecycle invariant: the counter is positive exactly when the bus is
initialized, and it is never negative. -/
theorem run_keeps_refcount (s : I2cState) (call : BusCall)
    (h : (0 < s.g_i2c_ref_count ↔ s.g_i2c_initialized = true) ∧ 0 ≤ s.g_i2c_ref_count) :
    (0 < (call.run s).g_i2c_ref_count ↔ (call.run s).g_i2c_initialized = true) ∧
      0 ≤ (call.run s).g_i2c_ref_count ∧
      (call.run s).g_i2c_ref_count ≤ s.g_i2c_ref_count + 1 := by
  obtain ⟨h1, h2⟩ := h
  cases call with
  | init =>
    cases hi : s.g_i2c_initialized with
    | true =>
      have := h1.mpr hi
      simp only [BusCall.run, i2cInit, hi, if_true]
      refine ⟨⟨fun _ => trivial, fun _ => by omega⟩, by omega, by omega⟩
    | false =>
      simp only [BusCall.run, i2cInit, hi]
      refine ⟨by simp, by simp, by simp; omega⟩
  | deinit =>
    cases hi : s.g_i2c_initialized with
    | true =>
      have := h1.mpr hi
      by_cases hle : s.g_i2c_ref_count - 1 ≤ 0
      · simp [BusCall.run, i2cDeinit, hi, hle]; omega
      · have hr : (BusCall.deinit.run s) = { s with g_i2c_ref_count := s.g_i2c_ref_count - 1 } := by
          simp [BusCall.run, i2cDeinit, hi, hle]
        rw [hr]
        refine ⟨⟨fun _ => hi, fun _ => ?_⟩, ?_, ?_⟩ <;> simp only <;> omega
    | false =>
      have hn : ¬ 0 < s.g_i2c_ref_count := fun hp => by
        have := h1.mp hp
        rw [hi] at this
        exact absurd this (by simp)
      simp only [BusCall.run, i2cDeinit, hi, Bool.not_false, if_true]
      refine ⟨⟨fun hp => absurd hp hn, fun hp => absurd hp (by simp)⟩, h2, by omega⟩
  | recover =>
    simp only [BusCall.run, i2cRecover]
    exact ⟨h1, h2, by omega⟩

theorem runBus_snoc (s : I2cState) (calls : List BusCall) (call : BusCall) :
    runBus s (calls ++ [call]) = call.run (runBus s calls) := by
  simp [runBus, List.foldl_append]

theorem runBus_refcount (calls : List BusCall) :
    (0 < (runBus I2cState.init calls).g_i2c_ref_count ↔
        (runBus I2cState.init calls).g_i2c_initialized = true) ∧
      0 ≤ (runBus I2cState.init calls).g_i2c_ref_count ∧
      (runBus I2cState.init calls).g_i2c_ref_count ≤ (calls.length : Int) := by
  induction calls using List.reverseRecOn with
  | nil => simp [runBus, I2cState.init]
  | append_singleton calls call ih =>
    rw [runBus_snoc]
    have := run_keeps_refcount (runBus I2cState.init calls) call ⟨ih.1, ih.2.1⟩
    refine ⟨this.1, this.2.1, ?_⟩
    have h3 := this.2.2
    have h4 := ih.2.2
    simp only [List.length_append, List.length_singleton, Nat.cast_add, Nat.cast_one]
    omega

/-- C6. In every state reached from the initial state by `i2cInit`,
`i2cDeinit` and `i2cRecover` calls, the counter is positive exactly when the
bus is initialized and is never negative (it is at most the number of calls
made); `i2cRecover` changes neither field, and `i2cDeinit` on an inactive bus
changes nothing. -/
theorem refcount_positive_iff_initialized (calls : List BusCall) :
    (0 < (runBus I2cState.init calls).g_i2c_ref_count ↔
        (runBus I2cState.init calls).g_i2c_initialized = true) ∧
    0 ≤ (runBus I2cState.init calls).g_i2c_ref_count ∧
    (runBus I2cState.init calls).g_i2c_ref_count ≤ (calls.length : Int) ∧
    (i2cRecover (runBus I2cState.init calls)).g_i2c_ref_count
      = (runBus I2cState.init calls).g_i2c_ref_count ∧
    (i2cRecover (runBus I2cState.init calls)).g_i2c_initialized
      = (runBus I2cState.init calls).g_i2c_initialized ∧
    ((runBus I2cState.init calls).g_i2c_initialized = false →
      i2cDeinit (runBus I2cState.init calls) = runBus I2cState.init calls) := by
  obtain ⟨h1, h2, h3⟩ := runBus_refcount calls
  refine ⟨h1, h2, h3, rfl, rfl, ?_⟩
  intro h
  simp [i2cDeinit, h]

/-- Witness of C6: after init, init, recover, deinit, deinit, deinit the bus
is inactive, and the last call was a no-op. -/
theorem refcount_positive_iff_initialized_witness :
    (runBus I2cState.init [BusCall.init, BusCall.init, BusCall.recover, BusCall.deinit,
        BusCall.deinit]).g_i2c_initialized = false ∧
    i2cDeinit (runBus I2cState.init [BusCall.init, BusCall.init, BusCall.recover, BusCall.deinit,
        BusCall.deinit])
      = runBus I2cState.init [BusCall.init, BusCall.init, BusCall.recover, BusCall.deinit,
        BusCall.deinit] :=
  ⟨by decide,
    (refcount_positive_iff_initialized [BusCall.init, BusCall.init, BusCall.recover,
      BusCall.deinit, BusCall.deinit]).2.2.2.2.2 (by decide)⟩

theorem runBus_cons (s : I2cState) (call : BusCall) (calls : List BusCall) :
    runBus s (call :: calls) = runBus (call.run s) calls := rfl

theorem runBus_append (s : I2cState) (xs ys : List BusCall) :
    runBus s (xs ++ ys) = runBus (runBus s xs) ys := by
  simp [runBus, List.foldl_append]

theorem bus_after_inits (n : Nat) :
    (runBus I2cState.init (List.replicate n BusCall.init)).g_i2c_ref_count = (n : Int) ∧
    ((runBus I2cState.init (List.replicate n BusCall.init)).g_i2c_initialized = true ↔ 0 < n) := by
  induction n with
  | zero => simp [runBus, I2cState.init]
  | succ n ih =>
    have hrep : List.replicate (n + 1) BusCall.init = List.replicate n BusCall.init ++ [BusCall.init] := by
      rw [← List.replicate_succ']
    rw [hrep, runBus_snoc]
    obtain ⟨h1, h2⟩ := ih
    cases hi : (runBus I2cState.init (List.replicate n BusCall.init)).g_i2c_initialized with
    | true =>
      simp only [BusCall.run, i2cInit, hi, if_true, h1]
      refine ⟨by push_cast; ring, by simp⟩
    | false =>
      have hn : n = 0 := by
        by_contra hne
        have := h2.mpr (Nat.pos_of_ne_zero hne)
        rw [hi] at this
        exact absurd this (by simp)
      subst hn
      simp [BusCall.run, i2cInit, runBus, I2cState.init]

theorem bus_after_deinits (m : Nat) :
    ∀ s : I2cState, (0 < s.g_i2c_ref_count ↔ s.g_i2c_initialized = true) →
      (m : Int) ≤ s.g_i2c_ref_count →
      (runBus s (List.replicate m BusCall.deinit)).g_i2c_ref_count = s.g_i2c_ref_count - m ∧
      (0 < (runBus s (List.replicate m BusCall.deinit)).g_i2c_ref_count ↔
        (runBus s (List.replicate m BusCall.deinit)).g_i2c_initialized = true) := by
  induction m with
  | zero => intro s h _; simpa [runBus] using h
  | succ m ih =>
    intro s h hm
    rw [List.replicate_succ, runBus_cons]
    have hpos : 0 < s.g_i2c_ref_count := by push_cast at hm; omega
    have hi := h.mp hpos
    have hstep := run_keeps_refcount s BusCall.deinit ⟨h, le_of_lt hpos⟩
    have href : (BusCall.deinit.run s).g_i2c_ref_count = s.g_i2c_ref_count - 1 := by
      by_cases hle : s.g_i2c_ref_count - 1 ≤ 0
      · simp [BusCall.run, i2cDeinit, hi, hle]; omega
      · simp [BusCall.run, i2cDeinit, hi, hle]
    have := ih (BusCall.deinit.run s) hstep.1 (by rw [href]; push_cast at hm; omega)
    rw [href] at this
    refine ⟨?_, this.2⟩
    rw [this.1]; push_cast; ring

/-- C7 (amended). In every state reached by lifecycle calls: `i2cInit` performs
the bus setup (`Wire.begin`, 50 ms timeout) exactly when the counter was 0 and
otherwise only increments the counter; `i2cDeinit` performs the teardown
(`Wire.end`) exactly when the counter was 1, only decrements the counter when
it was greater than 1, and changes nothing when it was 0. After `n` inits
followed by `m ≤ n` deinits the bus is active iff `m < n`. -/
theorem setup_and_teardown_on_edges (calls : List BusCall) :
    ((runBus I2cState.init calls).g_i2c_ref_count = 0 →
      i2cInit (runBus I2cState.init calls) =
        { runBus I2cState.init calls with
          hw := (runBus I2cState.init calls).hw ++
            [HwOp.wireBegin I2C_SDA I2C_SCL, HwOp.wireSetTimeOut 50]
          g_i2c_initialized := true
          g_i2c_ref_count := 1 }) ∧
    ((runBus I2cState.init calls).g_i2c_ref_count ≠ 0 →
      i2cInit (runBus I2cState.init calls) =
        { runBus I2cState.init calls with
          g_i2c_ref_count := (runBus I2cState.init calls).g_i2c_ref_count + 1 }) ∧
    ((runBus I2cState.init calls).g_i2c_ref_count = 1 →
      i2cDeinit (runBus I2cState.init calls) =
        { runBus I2cState.init calls with
          hw := (runBus I2cState.init calls).hw ++ [HwOp.wireEnd]
          g_i2c_initialized := false
          g_i2c_ref_count := 0 }) ∧
    (1 < (runBus I2cState.init calls).g_i2c_ref_count →
      i2cDeinit (runBus I2cState.init calls) =
        { runBus I2cState.init calls with
          g_i2c_ref_count := (runBus I2cState.init calls).g_i2c_ref_count - 1 }) ∧
    ((runBus I2cState.init calls).g_i2c_ref_count = 0 →
      i2cDeinit (runBus I2cState.init calls) = runBus I2cState.init calls) ∧
    (∀ n m : Nat, m ≤ n →
      ((runBus I2cState.init
          (List.replicate n BusCall.init ++ List.replicate m BusCall.deinit)).g_i2c_initialized
        = true ↔ m < n)) := by
  obtain ⟨h1, h2, _⟩ := runBus_refcount calls
  generalize runBus I2cState.init calls = s at h1 h2
  have hoff : s.g_i2c_ref_count = 0 → s.g_i2c_initialized = false := by
    intro h0
    cases hi : s.g_i2c_initialized with
    | false => rfl
    | true => have := h1.mpr hi; omega
  have hon : s.g_i2c_ref_count ≠ 0 → s.g_i2c_initialized = true := by
    intro h0
    exact h1.mp (by omega)
  refine ⟨?_, ?_, ?_, ?_, ?_, ?_⟩
  · intro h0
    simp [i2cInit, hoff h0]
  · intro h0
    simp [i2cInit, hon h0]
  · intro h0
    have hi := hon (by omega)
    simp [i2cDeinit, hi, h0]
  · intro h0
    have hi := hon (by omega)
    have hle : ¬ (s.g_i2c_ref_count - 1 ≤ 0) := by omega
    simp [i2cDeinit, hi, hle]
  · intro h0
    simp [i2cDeinit, hoff h0]
  · intro n m hmn
    rw [runBus_append]
    obtain ⟨ha, hb⟩ := bus_after_inits n
    have hinv : 0 < (runBus I2cState.init (List.replicate n BusCall.init)).g_i2c_ref_count ↔
        (runBus I2cState.init (List.replicate n BusCall.init)).g_i2c_initialized = true := by
      rw [ha, hb]; exact Int.natCast_pos
    obtain ⟨hc, hd⟩ := bus_after_deinits m _ hinv (by rw [ha]; exact_mod_cast hmn)
    rw [← hd, hc, ha]
    omega

/-- Witness of C7 (amended): three inits followed by two deinits leave the bus
active. -/
theorem setup_and_teardown_on_edges_witness :
    2 ≤ 3 ∧
    ((runBus I2cState.init
        (List.replicate 3 BusCall.init ++ List.replicate 2 BusCall.deinit)).g_i2c_initialized
      = true ↔ 2 < 3) :=
  ⟨by decide, (setup_and_teardown_on_edges []).2.2.2.2.2 3 2 (by decide)⟩

/-- C7, counterexample: at program start the counter is 0, not 1, and
`i2cDeinit` does not decrement it. -/
theorem deinit_inactive_keeps_counter :
    I2cState.init.g_i2c_ref_count ≠ 1 ∧
    (i2cDeinit I2cState.init).g_i2c_ref_count ≠ I2cState.init.g_i2c_ref_count - 1 ∧
    (i2cDeinit I2cState.init).g_i2c_ref_count = 0 := by
  decide

/-! ## Theorems: operations on an inactive bus, bus scan -/

/-- C8. When the bus is not active, each of these operations returns its
failure value and leaves the whole state as it was (no action on the hardware,
same cache, calibration and BH1750 tables): `i2cScan` returns 0 and fills
nothing, `i2cDetect`, `i2cReadReg`, `i2cWriteReg` return false, the five sensor
reads return NaN, `ssd1306Init` returns false. -/
theorem inactive_bus_fails (w : Wire) (s : I2cState) (max_addrs : Int)
    (addr reg len reg_len channel height now_get now_set : Nat) (data : List Nat) (scale : CFloat)
    (h : s.g_i2c_initialized = false) :
    i2cScan w s max_addrs = (s, [], 0) ∧
    i2cDetect w s addr = (s, false) ∧
    i2cReadReg w s addr reg len = (s, none) ∧
    i2cWriteReg w s addr reg data = (s, false) ∧
    i2cGenericRead w s addr reg reg_len scale = (s, CFloat.nan) ∧
    i2cBme280Read w s now_get now_set addr channel = (s, CFloat.nan) ∧
    i2cBh1750Read w s addr = (s, CFloat.nan) ∧
    i2cSht31Read w s now_get now_set addr channel = (s, CFloat.nan) ∧
    i2cAds1115Read w s addr channel = (s, CFloat.nan) ∧
    ssd1306Init w s addr height = (s, false) := by
  refine ⟨?_, ?_, ?_, ?_, ?_, ?_, ?_, ?_, ?_, ?_⟩
  · simp [i2cScan, h]
  · simp [i2cDetect, h]
  · simp [i2cReadReg, h]
  · simp [i2cWriteReg, h]
  · simp [i2cGenericRead, h]
  · simp [i2cBme280Read, h]
  · simp [i2cBh1750Read, h]
  · simp [i2cSht31Read, h]
  · simp [i2cAds1115Read, h]
  · simp [ssd1306Init, i2cActive, h]

/-- Witness of C8: the state at program start, on a bus with three devices. -/
theorem inactive_bus_fails_witness :
    I2cState.init.g_i2c_initialized = false ∧
    i2cScan threeDeviceBus I2cState.init 32 = (I2cState.init, [], 0) ∧
    i2cBme280Read threeDeviceBus I2cState.init 5 6 0x76 0 = (I2cState.init, CFloat.nan) ∧
    ssd1306Init threeDeviceBus I2cState.init 0x3C 64 = (I2cState.init, false) :=
  ⟨rfl,
    (inactive_bus_fails threeDeviceBus I2cState.init 32 0x76 0 0 0 0 64 5 6 [] CFloat.nan rfl).1,
    (inactive_bus_fails threeDeviceBus I2cState.init 32 0x76 0 0 0 0 64 5 6 [] CFloat.nan
      rfl).2.2.2.2.2.1,
    (inactive_bus_fails threeDeviceBus I2cState.init 32 0x3C 0 0 0 0 64 5 6 [] CFloat.nan
      rfl).2.2.2.2.2.2.2.2.2⟩

theorem i2cScanLoop_spec (w : Wire) (ack : Nat → Bool) (max_addrs : Int)
    (hack : ∀ hw a, w.endTransmission hw a [] true = 0 ↔ ack a = true) (l : List Nat) :
    ∀ (hw : List HwOp) (addrs : List Nat) (count : Int), count = (addrs.length : Int) →
      (i2cScanLoop w max_addrs l hw addrs count).2.1
        = addrs ++ (l.filter ack).take (max_addrs.toNat - addrs.length) ∧
      (i2cScanLoop w max_addrs l hw addrs count).2.2
        = (((i2cScanLoop w max_addrs l hw addrs count).2.1).length : Int) := by
  induction l with
  | nil =>
    intro hw addrs count hc
    simp [i2cScanLoop, hc]
  | cons a rest ih =>
    intro hw addrs count hc
    subst hc
    by_cases hlt : (addrs.length : Int) < max_addrs
    · have hk : max_addrs.toNat - addrs.length = (max_addrs.toNat - (addrs.length + 1)) + 1 := by
        omega
      by_cases ha : ack a = true
      · have hst := (hack hw a).mpr ha
        have hstep : i2cScanLoop w max_addrs (a :: rest) hw addrs (addrs.length : Int)
            = i2cScanLoop w max_addrs rest (hw ++ [HwOp.transmit a [] true]) (addrs ++ [a])
                ((addrs.length : Int) + 1) := by
          simp only [i2cScanLoop, hlt, if_true, hst]
        obtain ⟨t1, t2⟩ := ih (hw ++ [HwOp.transmit a [] true]) (addrs ++ [a])
          ((addrs.length : Int) + 1) (by simp)
        rw [hstep]
        refine ⟨?_, t2⟩
        rw [t1, List.filter_cons_of_pos ha, hk, List.take_succ_cons]
        simp
      · have hst : ¬ w.endTransmission hw a [] true = 0 := fun h0 => ha ((hack hw a).mp h0)
        have hstep : i2cScanLoop w max_addrs (a :: rest) hw addrs (addrs.length : Int)
            = i2cScanLoop w max_addrs rest (hw ++ [HwOp.transmit a [] true]) addrs
                (addrs.length : Int) := by
          simp only [i2cScanLoop, hlt, if_true, hst, if_false]
        rw [hstep, List.filter_cons_of_neg ha]
        exact ih (hw ++ [HwOp.transmit a [] true]) addrs (addrs.length : Int) rfl
    · have hk : max_addrs.toNat - addrs.length = 0 := by omega
      simp [i2cScanLoop, hlt, hk]

/-- C9. On an active bus whose devices acknowledge exactly the addresses with
`ack a`, `i2cScan` returns the acknowledging addresses among 1 .. 126 in
ascending order, cut to the first `max_addrs` of them, and the returned count
is their number; when `max_addrs` is at least the number of acknowledging
addresses the result is all of them, each once. -/
theorem scan_returns_acknowledging (w : Wire) (s : I2cState) (ack : Nat → Bool)
    (max_addrs : Int) (hact : s.g_i2c_initialized = true)
    (hack : ∀ hw a, w.endTransmission hw a [] true = 0 ↔ ack a = true) :
    (i2cScan w s max_addrs).2.1 = ((List.range' 1 126).filter ack).take max_addrs.toNat ∧
    (i2cScan w s max_addrs).2.2 = (((i2cScan w s max_addrs).2.1).length : Int) ∧
    ((i2cScan w s max_addrs).2.1).Pairwise (fun a b => a < b) ∧
    ((((List.range' 1 126).filter ack).length : Int) ≤ max_addrs →
      (i2cScan w s max_addrs).2.1 = (List.range' 1 126).filter ack ∧
      (i2cScan w s max_addrs).2.2 = (((List.range' 1 126).filter ack).length : Int) ∧
      ∀ a, a ∈ (i2cScan w s max_addrs).2.1 ↔ (1 ≤ a ∧ a ≤ 126 ∧ ack a = true)) := by
  have hloop := i2cScanLoop_spec w ack max_addrs hack (List.range' 1 126) s.hw [] 0 rfl
  have h1 : (i2cScan w s max_addrs).2.1
      = ((List.range' 1 126).filter ack).take max_addrs.toNat := by
    simpa [i2cScan, hact] using hloop.1
  have h2 : (i2cScan w s max_addrs).2.2 = (((i2cScan w s max_addrs).2.1).length : Int) := by
    simpa [i2cScan, hact] using hloop.2
  have hsorted : ((List.range' 1 126).filter ack).Pairwise (fun a b => a < b) :=
    (List.pairwise_lt_range' 1 126).sublist (List.filter_sublist _)
  refine ⟨h1, h2, ?_, ?_⟩
  · rw [h1]
    exact hsorted.sublist (List.take_sublist _ _)
  · intro hmax
    have hall : (i2cScan w s max_addrs).2.1 = (List.range' 1 126).filter ack := by
      rw [h1]
      apply List.take_of_length_le
      omega
    refine ⟨hall, by rw [h2, hall], ?_⟩
    intro a
    rw [hall, List.mem_filter, List.mem_range']
    constructor
    · rintro ⟨⟨i, hi, rfl⟩, ha⟩
      exact ⟨by omega, by omega, ha⟩
    · rintro ⟨h1a, h2a, ha⟩
      exact ⟨⟨a - 1, by omega, by omega⟩, ha⟩

/-- Witness of C9: on a bus where 0x23, 0x48 and 0x76 acknowledge, a scan for
up to 32 addresses returns exactly these three, and a scan for up to 2 the
first two. -/
theorem scan_returns_acknowledging_witness :
    ((i2cInit I2cState.init).g_i2c_initialized = true ∧
      ∀ hw a, threeDeviceBus.endTransmission hw a [] true = 0 ↔
        (decide (a = 0x23 ∨ a = 0x48 ∨ a = 0x76)) = true) ∧
    (i2cScan threeDeviceBus (i2cInit I2cState.init) 32).2.1
      = ((List.range' 1 126).filter fun a => decide (a = 0x23 ∨ a = 0x48 ∨ a = 0x76)).take 32 ∧
    (i2cScan threeDeviceBus (i2cInit I2cState.init) 32).2.1 = [0x23, 0x48, 0x76] ∧
    (i2cScan threeDeviceBus (i2cInit I2cState.init) 32).2.2 = 3 ∧
    (i2cScan threeDeviceBus (i2cInit I2cState.init) 2).2.1 = [0x23, 0x48] :=
  ⟨⟨rfl, fun hw a => by
      by_cases h : a = 0x23 ∨ a = 0x48 ∨ a = 0x76 <;> simp only [threeDeviceBus, h] <;> simp⟩,
    (scan_returns_acknowledging threeDeviceBus (i2cInit I2cState.init)
      (fun a => decide (a = 0x23 ∨ a = 0x48 ∨ a = 0x76)) 32 rfl
      (fun hw a => by
        by_cases h : a = 0x23 ∨ a = 0x48 ∨ a = 0x76 <;> simp only [threeDeviceBus, h] <;>
          simp)).1,
    by decide, by decide, by decide⟩

/-! ## Theorems: BME280 temperature -/

theorem wrap32_of_range (x : Int) (h1 : -2147483648 ≤ x) (h2 : x ≤ 2147483647) :
    wrap32 x = x := by
  unfold wrap32
  omega

theorem byteAt_lt (buf : List Nat) (h : ∀ b ∈ buf, b < 256) (i : Nat) : byteAt buf i < 256 := by
  unfold byteAt
  rw [List.getD_eq_getElem?_getD]
  cases hi : buf[i]? with
  | none => simp
  | some b => exact h b (List.getElem?_mem hi)

theorem adc20_lt (b3 b4 b5 : Nat) (h3 : b3 < 256) (h4 : b4 < 256) (h5 : b5 < 256) :
    (b3 <<< 12) ||| (b4 <<< 4) ||| (b5 >>> 4) < 1048576 := by
  have h20 : 1048576 = 2 ^ 20 := by norm_num
  rw [h20]
  refine Nat.or_lt_two_pow (Nat.or_lt_two_pow ?_ ?_) ?_
  · rw [Nat.shiftLeft_eq]; omega
  · rw [Nat.shiftLeft_eq]; omega
  · rw [Nat.shiftRight_eq_div_pow]; omega

theorem bme280AdcT_range (buf : List Nat) (h : ∀ b ∈ buf, b < 256) :
    0 ≤ bme280AdcT buf ∧ bme280AdcT buf < 1048576 := by
  unfold bme280AdcT
  have := adc20_lt _ _ _ (byteAt_lt buf h 3) (byteAt_lt buf h 4) (byteAt_lt buf h 5)
  exact ⟨Int.natCast_nonneg _, by exact_mod_cast this⟩

/-- C10 (amended). For every calibration with a 16-bit `dig_T1` and every burst
read of bytes, provided the two products and the square of the formula stay
inside `int32_t`: `bme280DoRead` computes `t_fine` as the specification's
formula, and the temperature as `((t_fine * 5 + 128) >> 8) / 100`. -/
theorem temperature_formula (c : Bme280Calib) (buf : List Nat)
    (hbuf : ∀ b ∈ buf, b < 256) (hT1 : c.dig_T1 < 65536)
    (h1 : (-2147483648 : Int) ≤ (sar (bme280AdcT buf) 3 - (c.dig_T1 : Int) * 2) * c.dig_T2 ∧
      (sar (bme280AdcT buf) 3 - (c.dig_T1 : Int) * 2) * c.dig_T2 ≤ 2147483647)
    (h2 : (sar (bme280AdcT buf) 4 - (c.dig_T1 : Int)) ^ 2 ≤ 2147483647)
    (h3 : (-2147483648 : Int) ≤ sar ((sar (bme280AdcT buf) 4 - (c.dig_T1 : Int)) ^ 2) 12 * c.dig_T3 ∧
      sar ((sar (bme280AdcT buf) 4 - (c.dig_T1 : Int)) ^ 2) 12 * c.dig_T3 ≤ 2147483647) :
    bme280TFine c (bme280AdcT buf) = specTFine c.dig_T1 c.dig_T2 c.dig_T3 (bme280AdcT buf) ∧
    (bme280Compensate c buf).1 =
      CFloat.num
        ((specTempCenti (specTFine c.dig_T1 c.dig_T2 c.dig_T3 (bme280AdcT buf)) : ℚ) / 100) := by
  obtain ⟨hA0, hA1⟩ := bme280AdcT_range buf hbuf
  have hT0 : (0 : Int) ≤ (c.dig_T1 : Int) := Int.natCast_nonneg _
  have hT : (c.dig_T1 : Int) < 65536 := by exact_mod_cast hT1
  have hfine : bme280TFine c (bme280AdcT buf)
        = specTFine c.dig_T1 c.dig_T2 c.dig_T3 (bme280AdcT buf) ∧
      -1200000 ≤ specTFine c.dig_T1 c.dig_T2 c.dig_T3 (bme280AdcT buf) ∧
      specTFine c.dig_T1 c.dig_T2 c.dig_T3 (bme280AdcT buf) ≤ 1200000 := by
    unfold bme280TFine specTFine
    generalize bme280AdcT buf = A at *
    generalize (c.dig_T1 : Int) = T at *
    have e3 : sar A 3 = A / 8 := by unfold sar; rw [Int.shiftRight_eq_div_pow]; norm_num
    have e4 : sar A 4 = A / 16 := by unfold sar; rw [Int.shiftRight_eq_div_pow]; norm_num
    rw [e3] at h1 ⊢
    rw [e4] at h2 h3 ⊢
    have hsq : 0 ≤ (A / 16 - T) ^ 2 := sq_nonneg _
    have s1 : i32shl T 1 = T * 2 := by
      unfold i32shl; rw [wrap32_of_range] <;> omega
    have s2 : i32sub (A / 8) (T * 2) = A / 8 - T * 2 := by
      unfold i32sub; rw [wrap32_of_range] <;> omega
    have s3 : i32sub (A / 16) T = A / 16 - T := by
      unfold i32sub; rw [wrap32_of_range] <;> omega
    have s4 : i32mul (A / 8 - T * 2) c.dig_T2 = (A / 8 - T * 2) * c.dig_T2 := by
      unfold i32mul; exact wrap32_of_range _ h1.1 h1.2
    have s5 : i32mul (A / 16 - T) (A / 16 - T) = (A / 16 - T) ^ 2 := by
      unfold i32mul; rw [← pow_two]; exact wrap32_of_range _ (by omega) h2
    have s6 : i32mul (sar ((A / 16 - T) ^ 2) 12) c.dig_T3
        = sar ((A / 16 - T) ^ 2) 12 * c.dig_T3 := by
      unfold i32mul; exact wrap32_of_range _ h3.1 h3.2
    rw [s1, s2, s3, s4, s5, s6]
    generalize (A / 8 - T * 2) * c.dig_T2 = P at *
    generalize sar ((A / 16 - T) ^ 2) 12 * c.dig_T3 = Q at *
    have eP : sar P 11 = P / 2048 := by unfold sar; rw [Int.shiftRight_eq_div_pow]; norm_num
    have eQ : sar Q 14 = Q / 16384 := by unfold sar; rw [Int.shiftRight_eq_div_pow]; norm_num
    rw [eP, eQ]
    unfold i32add
    refine ⟨?_, ?_, ?_⟩
    · rw [wrap32_of_range] <;> omega
    · omega
    · omega
  obtain ⟨hfine, hlo, hhi⟩ := hfine
  refine ⟨hfine, ?_⟩
  show bme280Temp (bme280TFine c (bme280AdcT buf)) = _
  rw [hfine]
  generalize specTFine c.dig_T1 c.dig_T2 c.dig_T3 (bme280AdcT buf) = t at *
  have hc : bme280TempCenti t = specTempCenti t := by
    unfold bme280TempCenti specTempCenti i32add i32mul
    rw [wrap32_of_range (t * 5) (by omega) (by omega),
      wrap32_of_range (t * 5 + 128) (by omega) (by omega)]
  simp [bme280Temp, CFloat.div, CFloat.ofInt, hc]

/-- Witness of C10 (amended): the data sheet's worked example (`dig_T1 = 27504`,
`dig_T2 = 26435`, `dig_T3 = -1000`, `adc_T = 519888`) gives `t_fine = 128422`
and 25.08 degrees. -/
theorem temperature_formula_witness :
    ((∀ b ∈ exampleBurst, b < 256) ∧ exampleCalib.dig_T1 < 65536 ∧
      bme280AdcT exampleBurst = 519888) ∧
    (bme280TFine exampleCalib (bme280AdcT exampleBurst)
        = specTFine exampleCalib.dig_T1 exampleCalib.dig_T2 exampleCalib.dig_T3
            (bme280AdcT exampleBurst) ∧
      (bme280Compensate exampleCalib exampleBurst).1 =
        CFloat.num ((specTempCenti (specTFine exampleCalib.dig_T1 exampleCalib.dig_T2
          exampleCalib.dig_T3 (bme280AdcT exampleBurst)) : ℚ) / 100)) ∧
    bme280TFine exampleCalib (bme280AdcT exampleBurst) = 128422 ∧
    specTempCenti 128422 = 2508 ∧
    (bme280Compensate exampleCalib exampleBurst).1 = CFloat.num (2508 / 100) ∧
    ((2508 : ℚ) / 100 = 25.08) :=
  ⟨⟨by decide, by decide, by decide⟩,
    temperature_formula exampleCalib exampleBurst (by decide) (by decide)
      (by decide) (by decide) (by decide),
    by decide, by decide, by
      have h : bme280TFine exampleCalib (bme280AdcT exampleBurst) = 128422 := by decide
      have h2 : bme280TempCenti 128422 = 2508 := by decide
      simp [bme280Compensate, bme280Temp, CFloat.div, CFloat.ofInt, h, h2],
    by norm_num⟩

/-- C10, counterexample: with `dig_T1 = 0`, `dig_T2 = 32767`, `dig_T3 = 0` and
`adc_T = 0xFFFFF` the product `131071 * 32767` leaves `int32_t`; the code's
`t_fine` is -80, the formula over the integers gives 2097072. -/
theorem temperature_overflow :
    (extremeCalib.dig_T1 = 0 ∧ extremeCalib.dig_T2 = 32767 ∧ extremeCalib.dig_T3 = 0 ∧
      bme280AdcT extremeBurst = 1048575) ∧
    bme280TFine extremeCalib (bme280AdcT extremeBurst) = -80 ∧
    specTFine extremeCalib.dig_T1 extremeCalib.dig_T2 extremeCalib.dig_T3
      (bme280AdcT extremeBurst) = 2097072 ∧
    bme280TFine extremeCalib (bme280AdcT extremeBurst)
      ≠ specTFine extremeCalib.dig_T1 extremeCalib.dig_T2 extremeCalib.dig_T3
          (bme280AdcT extremeBurst) := by
  decide

/-! ## Theorems: BME280 pressure and humidity -/

/-- C11. For the data sheet's worked example (`dig_P1 .. dig_P9`, `t_fine =
128422`, `adc_P = 415148`) the 64-bit compensation of `bme280DoRead` gives the
Q24.8 value 25767233: `p / 256` is within 1 Pa of 100653.27 Pa, and the
reported pressure `p / 25600` is 1006.53 hPa to two decimals. -/
theorem pressure_worked_example :
    bme280AdcP exampleBurst = 415148 ∧
    bme280TFine exampleCalib (bme280AdcT exampleBurst) = 128422 ∧
    bme280PressDivisor exampleCalib 128422 ≠ 0 ∧
    bme280PressQ exampleCalib 128422 415148 = 25767233 ∧
    |(((bme280PressQ exampleCalib 128422 415148 : Int) : ℚ) / 256) - 100653.27| < 1 ∧
    (bme280Compensate exampleCalib exampleBurst).2.2 = CFloat.num (25767233 / 25600) ∧
    ((1006.525 : ℚ) ≤ 25767233 / 25600 ∧ (25767233 : ℚ) / 25600 < 1006.535) := by
  have hP : bme280AdcP exampleBurst = 415148 := by decide
  have hT : bme280TFine exampleCalib (bme280AdcT exampleBurst) = 128422 := by decide
  have hD : bme280PressDivisor exampleCalib 128422 ≠ 0 := by decide
  have hQ : bme280PressQ exampleCalib 128422 415148 = 25767233 := by decide
  refine ⟨hP, hT, hD, hQ, ?_, ?_, ?_⟩
  · rw [hQ]; norm_num [abs_lt]
  · simp [bme280Compensate, bme280Pres, hP, hT, hD, hQ, CFloat.div, CFloat.ofInt]
  · norm_num

theorem sar_nonneg (x : Int) (k : Nat) (h : 0 ≤ x) : 0 ≤ sar x k := by
  unfold sar
  rw [Int.shiftRight_eq_div_pow]
  exact Int.ediv_nonneg h (by positivity)

theorem sar_twelve (x : Int) : sar x 12 = x / 4096 := by
  unfold sar
  rw [Int.shiftRight_eq_div_pow]
  norm_num

/-- C12. For every calibration record, `t_fine` and `adc_H`, the integer
`v_x1_u32r` of `bme280DoRead` lies in `[0, 419430400]` after the two clamps,
its shift by 12 (humidity in Q22.10) lies in `[0, 102400]`, and the reported
relative humidity lies in `[0, 100]`. -/
theorem humidity_clamped (c : Bme280Calib) (t_fine adc_H : Int) :
    (0 ≤ bme280HumQ c t_fine adc_H ∧ bme280HumQ c t_fine adc_H ≤ 419430400) ∧
    (0 ≤ sar (bme280HumQ c t_fine adc_H) 12 ∧ sar (bme280HumQ c t_fine adc_H) 12 ≤ 102400) ∧
    ∃ q : ℚ, bme280Humi c t_fine adc_H = CFloat.num q ∧ 0 ≤ q ∧ q ≤ 100 ∧
      q = ((sar (bme280HumQ c t_fine adc_H) 12 : Int) : ℚ) / 1024 := by
  have hq : 0 ≤ bme280HumQ c t_fine adc_H ∧ bme280HumQ c t_fine adc_H ≤ 419430400 := by
    unfold bme280HumQ
    simp only
    split_ifs <;> omega
  have hs : 0 ≤ sar (bme280HumQ c t_fine adc_H) 12 ∧
      sar (bme280HumQ c t_fine adc_H) 12 ≤ 102400 := by
    rw [sar_twelve]
    omega
  refine ⟨hq, hs, _, rfl, ?_, ?_, rfl⟩
  · have : (0 : ℚ) ≤ ((sar (bme280HumQ c t_fine adc_H) 12 : Int) : ℚ) := by exact_mod_cast hs.1
    positivity
  · have : ((sar (bme280HumQ c t_fine adc_H) 12 : Int) : ℚ) ≤ 102400 := by exact_mod_cast hs.2
    rw [div_le_iff₀ (by norm_num)]
    linarith

/-! ## Theorems: BME280 capacity and identity check -/

theorem state_eta (s : I2cState) : { s with hw := s.hw ++ [] } = s := by
  cases s; simp

theorem i2cReadReg_state (w : Wire) (s : I2cState) (addr reg len : Nat) :
    ∃ ops, (i2cReadReg w s addr reg len).1 = { s with hw := s.hw ++ ops } ∧
      ∀ op ∈ ops, op = HwOp.transmit addr [reg] false ∨ op = HwOp.requestFrom addr len := by
  by_cases h1 : s.g_i2c_initialized = true
  · by_cases h2 : w.endTransmission s.hw addr [reg] false = 0
    · refine ⟨[HwOp.transmit addr [reg] false, HwOp.requestFrom addr len], ?_, by simp⟩
      by_cases h3 : (w.requestFrom (s.hw ++ [HwOp.transmit addr [reg] false]) addr len).length
          = len <;> simp [i2cReadReg, h1, h2, h3]
    · exact ⟨[HwOp.transmit addr [reg] false], by simp [i2cReadReg, h1, h2], by simp⟩
  · refine ⟨[], ?_, by simp⟩
    rw [state_eta]
    simp [i2cReadReg, h1]

theorem i2cWriteReg_state (w : Wire) (s : I2cState) (addr reg : Nat) (data : List Nat) :
    (i2cWriteReg w s addr reg data).1 = s ∨
    (i2cWriteReg w s addr reg data).1
      = { s with hw := s.hw ++ [HwOp.transmit addr (reg :: data) true] } := by
  by_cases h1 : s.g_i2c_initialized = true
  · right; simp [i2cWriteReg, h1]
  · left; simp [i2cWriteReg, h1]

theorem bme280LoadCalib_full (w : Wire) (s : I2cState) (addr : Nat)
    (h : ∀ c ∈ s.g_bme_calib, c.valid = true) : bme280LoadCalib w s addr = (s, false) := by
  have : s.g_bme_calib.findIdx? (fun c => !c.valid) = none := by
    rw [List.findIdx?_eq_none_iff]
    intro c hc
    simp [h c hc]
  simp [bme280LoadCalib, this]

theorem bme280GetCalib_none_of_ne (s : I2cState) (addr : Nat)
    (h : ∀ c ∈ s.g_bme_calib, c.addr ≠ addr) : bme280GetCalib s addr = none := by
  unfold bme280GetCalib
  rw [List.find?_eq_none]
  intro c hc
  simp [h c hc]

theorem bme280Init_bad_id (w : Wire) (s : I2cState) (addr : Nat)
    (hid : (i2cReadReg w s addr 0xD0 1).2 = none ∨
      ∃ buf, (i2cReadReg w s addr 0xD0 1).2 = some buf ∧ byteAt buf 0 ≠ 0x60) :
    bme280Init w s addr = ((i2cReadReg w s addr 0xD0 1).1, false) := by
  unfold bme280Init
  rcases hid with h | ⟨buf, h, hb⟩
  · simp [h]
  · simp [h, hb]

theorem i2cReadReg_some_active (w : Wire) (s : I2cState) (addr reg len : Nat) (buf : List Nat)
    (h : (i2cReadReg w s addr reg len).2 = some buf) :
    (i2cReadReg w s addr reg len).1.g_i2c_initialized = true := by
  by_cases h1 : s.g_i2c_initialized = true
  · obtain ⟨ops, ho, _⟩ := i2cReadReg_state w s addr reg len
    rw [ho]; exact h1
  · simp [i2cReadReg, h1] at h

theorem bme280Init_full (w : Wire) (s : I2cState) (addr : Nat)
    (hfull : ∀ c ∈ s.g_bme_calib, c.valid = true) :
    (bme280Init w s addr).2 = false ∧
    (bme280Init w s addr).1.g_bme_calib = s.g_bme_calib ∧
    (bme280Init w s addr).1.g_i2c_cache = s.g_i2c_cache ∧
    (∀ buf, (i2cReadReg w s addr 0xD0 1).2 = some buf → byteAt buf 0 = 0x60 →
      (bme280Init w s addr).1.hw = (i2cReadReg w s addr 0xD0 1).1.hw ++
        [HwOp.transmit addr [0xE0, 0xB6] true, HwOp.delay 10]) := by
  obtain ⟨ops, ho, _⟩ := i2cReadReg_state w s addr 0xD0 1
  by_cases hid : (i2cReadReg w s addr 0xD0 1).2 = none ∨
      ∃ buf, (i2cReadReg w s addr 0xD0 1).2 = some buf ∧ byteAt buf 0 ≠ 0x60
  · rw [bme280Init_bad_id w s addr hid, ho]
    refine ⟨rfl, rfl, rfl, ?_⟩
    intro buf hb h60
    rcases hid with h | ⟨b2, h, hne⟩
    · rw [h] at hb; exact absurd hb (by simp)
    · rw [h] at hb
      cases hb
      exact absurd h60 hne
  · push_neg at hid
    obtain ⟨hsome, h60⟩ := hid
    obtain ⟨buf, hbuf⟩ := Option.ne_none_iff_exists'.mp hsome
    have hb60 := h60 buf hbuf
    have hact := i2cReadReg_some_active w s addr 0xD0 1 buf hbuf
    have hcal : (i2cReadReg w s addr 0xD0 1).1.g_bme_calib = s.g_bme_calib := by rw [ho]
    have hcache : (i2cReadReg w s addr 0xD0 1).1.g_i2c_cache = s.g_i2c_cache := by rw [ho]
    have hfull2 : ∀ c ∈ ({ (i2cWriteReg w (i2cReadReg w s addr 0xD0 1).1 addr 0xE0 [0xB6]).1 with
        hw := (i2cWriteReg w (i2cReadReg w s addr 0xD0 1).1 addr 0xE0 [0xB6]).1.hw ++
          [HwOp.delay 10] } : I2cState).g_bme_calib, c.valid = true := by
      simp only [i2cWriteReg, hact]
      simpa [hcal] using hfull
    have hload := bme280LoadCalib_full w _ addr hfull2
    have hinit : bme280Init w s addr =
        ({ (i2cWriteReg w (i2cReadReg w s addr 0xD0 1).1 addr 0xE0 [0xB6]).1 with
          hw := (i2cWriteReg w (i2cReadReg w s addr 0xD0 1).1 addr 0xE0 [0xB6]).1.hw ++
            [HwOp.delay 10] }, false) := by
      unfold bme280Init
      simp only [hbuf, hb60, Option.isNone_some, ne_eq, not_true_eq_false, decide_False,
        Bool.or_self, Bool.false_eq_true, if_false]
      rw [hload]
    rw [hinit]
    refine ⟨rfl, ?_, ?_, ?_⟩
    · simp [i2cWriteReg, hact, hcal]
    · simp [i2cWriteReg, hact, hcache]
    · intro _ _ _
      simp [i2cWriteReg, hact]

theorem bme280DoRead_init_fails (w : Wire) (s : I2cState) (addr : Nat)
    (hnone : bme280GetCalib s addr = none) (hfail : (bme280Init w s addr).2 = false) :
    bme280DoRead w s addr = ((bme280Init w s addr).1, none) := by
  unfold bme280DoRead
  rw [hnone]
  cases hi : bme280Init w s addr with
  | mk s1 b =>
    rw [hi] at hfail
    simp only at hfail
    subst hfail
    rfl

theorem i2cBme280Read_of_failed (w : Wire) (s s1 : I2cState) (now_get now_set addr channel : Nat)
    (hmiss : i2cCacheGet s.g_i2c_cache now_get addr channel = CFloat.nan)
    (hread : bme280DoRead w s addr = (s1, none)) :
    (i2cBme280Read w s now_get now_set addr channel = (s, CFloat.nan) ∧
      ¬ (s.g_i2c_initialized = true ∧ channel ≤ 2)) ∨
    (i2cBme280Read w s now_get now_set addr channel = (s1, CFloat.nan) ∧
      s.g_i2c_initialized = true ∧ channel ≤ 2) := by
  by_cases hg : s.g_i2c_initialized = true ∧ channel ≤ 2
  · right
    refine ⟨?_, hg⟩
    have h2 : ¬ channel > 2 := by omega
    simp [i2cBme280Read, hg.1, h2, hmiss, CFloat.isnan, hread]
  · left
    refine ⟨?_, hg⟩
    by_cases h1 : s.g_i2c_initialized = true
    · have h2 : channel > 2 := by
        by_contra hc
        exact hg ⟨h1, by omega⟩
      simp [i2cBme280Read, h2]
    · simp [i2cBme280Read, h1]

/-- C13. When both calibration slots hold valid records (for `A` and `B`), a
read of any channel from a third address `C` that is not served from the cache
returns NaN and leaves the two records and the cache as they were. When the
chip-ID register of `C` reads 0x60 the device has by then been sent the reset
command. -/
theorem third_bme280_rejected (w : Wire) (s : I2cState) (ra rb : Bme280Calib)
    (A B C channel now_get now_set : Nat)
    (htab : s.g_bme_calib = [ra, rb])
    (hra : ra.valid = true ∧ ra.addr = A) (hrb : rb.valid = true ∧ rb.addr = B)
    (hCA : C ≠ A) (hCB : C ≠ B)
    (hmiss : i2cCacheGet s.g_i2c_cache now_get C channel = CFloat.nan) :
    (i2cBme280Read w s now_get now_set C channel).2 = CFloat.nan ∧
    (i2cBme280Read w s now_get now_set C channel).1.g_bme_calib = [ra, rb] ∧
    (i2cBme280Read w s now_get now_set C channel).1.g_i2c_cache = s.g_i2c_cache ∧
    (s.g_i2c_initialized = true → channel ≤ 2 →
      ∀ buf, (i2cReadReg w s C 0xD0 1).2 = some buf → byteAt buf 0 = 0x60 →
        (i2cBme280Read w s now_get now_set C channel).1.hw =
          (i2cReadReg w s C 0xD0 1).1.hw ++
            [HwOp.transmit C [0xE0, 0xB6] true, HwOp.delay 10]) := by
  have hfull : ∀ c ∈ s.g_bme_calib, c.valid = true := by
    rw [htab]
    intro c hc
    simp only [List.mem_cons, List.mem_singleton, List.not_mem_nil, or_false] at hc
    rcases hc with rfl | rfl
    · exact hra.1
    · exact hrb.1
  have hnone : bme280GetCalib s C = none := by
    apply bme280GetCalib_none_of_ne
    rw [htab]
    intro c hc
    simp only [List.mem_cons, List.mem_singleton, List.not_mem_nil, or_false] at hc
    rcases hc with rfl | rfl
    · rw [hra.2]; exact fun h => hCA h.symm
    · rw [hrb.2]; exact fun h => hCB h.symm
  obtain ⟨hf, hcal, hcache, hhw⟩ := bme280Init_full w s C hfull
  have hread := bme280DoRead_init_fails w s C hnone hf
  rcases i2cBme280Read_of_failed w s _ now_get now_set C channel hmiss hread with
    ⟨hr, hg⟩ | ⟨hr, _⟩
  · rw [hr]
    exact ⟨rfl, htab, rfl, fun h1 h2 => absurd ⟨h1, h2⟩ hg⟩
  · rw [hr]
    exact ⟨rfl, by rw [hcal, htab], hcache, fun _ _ buf hb h60 => hhw buf hb h60⟩

/-- Witness of C13: records for 0x76 and 0x77 are present and a BME280
(chip ID 0x60) at 0x40 is read. -/
theorem third_bme280_rejected_witness :
    (twoSensorsState.g_bme_calib = [exampleCalib, { exampleCalib with addr := 0x77 }] ∧
      (exampleCalib.valid = true ∧ exampleCalib.addr = 0x76) ∧
      (({ exampleCalib with addr := 0x77 } : Bme280Calib).valid = true ∧
        ({ exampleCalib with addr := 0x77 } : Bme280Calib).addr = 0x77) ∧
      (0x40 : Nat) ≠ 0x76 ∧ (0x40 : Nat) ≠ 0x77 ∧
      i2cCacheGet twoSensorsState.g_i2c_cache 5 0x40 0 = CFloat.nan ∧
      (i2cReadReg bme280Device twoSensorsState 0x40 0xD0 1).2 = some [0x60]) ∧
    (i2cBme280Read bme280Device twoSensorsState 5 6 0x40 0).2 = CFloat.nan ∧
    (i2cBme280Read bme280Device twoSensorsState 5 6 0x40 0).1.g_bme_calib
      = [exampleCalib, { exampleCalib with addr := 0x77 }] ∧
    (i2cBme280Read bme280Device twoSensorsState 5 6 0x40 0).1.g_i2c_cache
      = twoSensorsState.g_i2c_cache :=
  ⟨⟨rfl, by decide, by decide, by decide, by decide, by decide, by decide⟩,
    (third_bme280_rejected bme280Device twoSensorsState exampleCalib
      { exampleCalib with addr := 0x77 } 0x76 0x77 0x40 0 5 6 rfl (by decide) (by decide)
      (by decide) (by decide) (by decide)).1,
    (third_bme280_rejected bme280Device twoSensorsState exampleCalib
      { exampleCalib with addr := 0x77 } 0x76 0x77 0x40 0 5 6 rfl (by decide) (by decide)
      (by decide) (by decide) (by decide)).2.1,
    (third_bme280_rejected bme280Device twoSensorsState exampleCalib
      { exampleCalib with addr := 0x77 } 0x76 0x77 0x40 0 5 6 rfl (by decide) (by decide)
      (by decide) (by decide) (by decide)).2.2.1⟩

/-- C14. When an address has no calibration record, the lookup is not served
from the cache, and the chip-ID read (register 0xD0) fails or returns a byte
other than 0x60: `i2cBme280Read` returns NaN, the address still has no valid
record, the calibration table and the cache are unchanged, and nothing was put
on the bus except the chip-ID read itself (no reset, no configuration write). -/
theorem chip_id_mismatch (w : Wire) (s : I2cState) (A channel now_get now_set : Nat)
    (hmiss : i2cCacheGet s.g_i2c_cache now_get A channel = CFloat.nan)
    (hnone : bme280GetCalib s A = none)
    (hid : (i2cReadReg w s A 0xD0 1).2 = none ∨
      ∃ buf, (i2cReadReg w s A 0xD0 1).2 = some buf ∧ byteAt buf 0 ≠ 0x60) :
    (i2cBme280Read w s now_get now_set A channel).2 = CFloat.nan ∧
    bme280GetCalib (i2cBme280Read w s now_get now_set A channel).1 A = none ∧
    (i2cBme280Read w s now_get now_set A channel).1.g_bme_calib = s.g_bme_calib ∧
    (i2cBme280Read w s now_get now_set A channel).1.g_i2c_cache = s.g_i2c_cache ∧
    ∃ ops, (i2cBme280Read w s now_get now_set A channel).1.hw = s.hw ++ ops ∧
      ∀ op ∈ ops, op = HwOp.transmit A [0xD0] false ∨ op = HwOp.requestFrom A 1 := by
  have hinit := bme280Init_bad_id w s A hid
  have hread := bme280DoRead_init_fails w s A hnone (by rw [hinit])
  rw [hinit] at hread
  obtain ⟨ops, ho, hops⟩ := i2cReadReg_state w s A 0xD0 1
  rcases i2cBme280Read_of_failed w s _ now_get now_set A channel hmiss hread with
    ⟨hr, _⟩ | ⟨hr, _⟩
  · rw [hr]
    exact ⟨rfl, hnone, rfl, rfl, [], by simp, by simp⟩
  · rw [hr, ho]
    exact ⟨rfl, hnone, rfl, rfl, ops, rfl, hops⟩

/-- Witness of C14: on a bus where 0x76 acknowledges but returns no data the
chip-ID read fails. -/
theorem chip_id_mismatch_witness :
    (i2cCacheGet (i2cInit I2cState.init).g_i2c_cache 5 0x76 0 = CFloat.nan ∧
      bme280GetCalib (i2cInit I2cState.init) 0x76 = none ∧
      (i2cReadReg threeDeviceBus (i2cInit I2cState.init) 0x76 0xD0 1).2 = none) ∧
    (i2cBme280Read threeDeviceBus (i2cInit I2cState.init) 5 6 0x76 0).2 = CFloat.nan ∧
    (i2cBme280Read threeDeviceBus (i2cInit I2cState.init) 5 6 0x76 0).1.g_bme_calib
      = (i2cInit I2cState.init).g_bme_calib :=
  ⟨⟨by decide, by decide, by decide⟩,
    (chip_id_mismatch threeDeviceBus (i2cInit I2cState.init) 0x76 0 5 6 (by decide) (by decide)
      (Or.inl (by decide))).1,
    (chip_id_mismatch threeDeviceBus (i2cInit I2cState.init) 0x76 0 5 6 (by decide) (by decide)
      (Or.inl (by decide))).2.2.1⟩

/-! ## Theorems: ADS1115, generic sensor, SHT31 -/

theorem shl8_or (hi lo : Nat) (h : lo < 256) : (hi <<< 8) ||| lo = hi * 256 + lo := by
  have h8 : lo < 2 ^ 8 := by norm_num; exact h
  have := @Nat.mul_add_lt_is_or 8 lo h8 hi
  rw [Nat.shiftLeft_eq, Nat.mul_comm hi, ← this]

theorem i2cReadReg_bytes (w : Wire) (s s1 : I2cState) (addr reg len : Nat) (buf : List Nat)
    (h : i2cReadReg w s addr reg len = (s1, some buf)) :
    buf.length = len ∧ ∀ b ∈ buf, b < 256 := by
  by_cases h1 : s.g_i2c_initialized = true
  · by_cases h2 : w.endTransmission s.hw addr [reg] false = 0
    · by_cases h3 : (w.requestFrom (s.hw ++ [HwOp.transmit addr [reg] false]) addr len).length
          = len
      · simp only [i2cReadReg, h1, h2, h3] at h
        simp only [Bool.not_true, Bool.false_eq_true, if_false, ne_eq, not_true_eq_false,
          Prod.mk.injEq, Option.some.injEq] at h
        obtain ⟨_, rfl⟩ := h
        refine ⟨by simpa using h3, ?_⟩
        intro b hb
        simp only [List.mem_map] at hb
        obtain ⟨x, _, rfl⟩ := hb
        exact Nat.mod_lt _ (by norm_num)
      · simp [i2cReadReg, h1, h2, h3] at h
    · simp [i2cReadReg, h1, h2] at h
  · simp [i2cReadReg, h1] at h

theorem i2cWriteReg_active (w : Wire) (s : I2cState) (addr reg : Nat) (data : List Nat)
    (hact : s.g_i2c_initialized = true) :
    i2cWriteReg w s addr reg data =
      ({ s with hw := s.hw ++ [HwOp.transmit addr (reg :: data) true] },
        w.endTransmission s.hw addr (reg :: data) true == 0) := by
  unfold i2cWriteReg
  rw [hact]
  rfl

theorem ads1115_guard (s : I2cState) (channel : Nat) (hact : s.g_i2c_initialized = true)
    (hch : channel ≤ 3) : (!s.g_i2c_initialized || decide (channel > 3)) = false := by
  have h3 : ¬ channel > 3 := by omega
  simp [hact, h3]

theorem ads1115_first_write (w : Wire) (s : I2cState) (addr channel : Nat)
    (hact : s.g_i2c_initialized = true) (hch : channel ≤ 3) :
    ∃ rest, (i2cAds1115Read w s addr channel).1.hw = s.hw ++
      HwOp.transmit addr [0x01, (ads1115Config channel >>> 8) % 256,
        (ads1115Config channel &&& 0xFF) % 256] true :: rest := by
  unfold i2cAds1115Read
  rw [ads1115_guard s channel hact hch]
  simp only [Bool.false_eq_true, if_false]
  rw [i2cWriteReg_active w s addr 0x01 _ hact]
  cases hst : (w.endTransmission s.hw addr [0x01, (ads1115Config channel >>> 8) % 256,
      (ads1115Config channel &&& 0xFF) % 256] true == 0) with
  | false => exact ⟨[], by simp⟩
  | true =>
    simp only
    obtain ⟨ops, ho, _⟩ := i2cReadReg_state w
      { s with hw := s.hw ++ [HwOp.transmit addr [0x01, (ads1115Config channel >>> 8) % 256,
          (ads1115Config channel &&& 0xFF) % 256] true] ++ [HwOp.delay 10] } addr 0x00 2
    refine ⟨HwOp.delay 10 :: ops, ?_⟩
    generalize i2cReadReg w _ addr 0x00 2 = r at ho ⊢
    rcases r with ⟨s3, _ | buf⟩ <;> simp only at ho ⊢ <;> rw [ho] <;> simp

/-- C15. On an active bus, for every channel 0 .. 3, `i2cAds1115Read` first
writes to register 0x01 the word `0x8380 | ((4 + channel) << 12)` (0xC380,
0xD380, 0xE380, 0xF380), high byte first; the word has OS = 1, MUX = 4 +
channel, PGA = 001, MODE = 1, DR = 100. For every channel above 3 it returns
NaN and does nothing. -/
theorem ads1115_config_word (w : Wire) (s : I2cState) (addr channel : Nat)
    (hact : s.g_i2c_initialized = true) :
    (channel ≤ 3 →
      ads1115Config channel = 0x8380 ||| ((4 + channel) <<< 12) ∧
      ads1115Config channel = [0xC380, 0xD380, 0xE380, 0xF380].getD channel 0 ∧
      (ads1115Config channel >>> 15 = 1 ∧ (ads1115Config channel >>> 12) &&& 7 = 4 + channel ∧
        (ads1115Config channel >>> 9) &&& 7 = 1 ∧ (ads1115Config channel >>> 8) &&& 1 = 1 ∧
        (ads1115Config channel >>> 5) &&& 7 = 4) ∧
      ∃ rest, (i2cAds1115Read w s addr channel).1.hw = s.hw ++
        HwOp.transmit addr [0x01, ads1115Config channel / 256, ads1115Config channel % 256] true
          :: rest) ∧
    (3 < channel → i2cAds1115Read w s addr channel = (s, CFloat.nan)) := by
  constructor
  · intro hch
    obtain ⟨rest, hrest⟩ := ads1115_first_write w s addr channel hact hch
    have hb : (ads1115Config channel >>> 8) % 256 = ads1115Config channel / 256 ∧
        (ads1115Config channel &&& 0xFF) % 256 = ads1115Config channel % 256 := by
      interval_cases channel <;> decide
    rw [hb.1, hb.2] at hrest
    refine ⟨?_, ?_, ?_, rest, hrest⟩
    · interval_cases channel <;> decide
    · interval_cases channel <;> decide
    · interval_cases channel <;> decide
  · intro hch
    simp [i2cAds1115Read, hch]

/-- Witness of C15: channel 2 at address 0x48 on an active bus writes the
bytes 0x01, 0xE3, 0x80. -/
theorem ads1115_config_word_witness :
    (i2cInit I2cState.init).g_i2c_initialized = true ∧
    ((2 : Nat) ≤ 3 →
      ads1115Config 2 = 0x8380 ||| ((4 + 2) <<< 12) ∧
      ads1115Config 2 = [0xC380, 0xD380, 0xE380, 0xF380].getD 2 0 ∧
      (ads1115Config 2 >>> 15 = 1 ∧ (ads1115Config 2 >>> 12) &&& 7 = 4 + 2 ∧
        (ads1115Config 2 >>> 9) &&& 7 = 1 ∧ (ads1115Config 2 >>> 8) &&& 1 = 1 ∧
        (ads1115Config 2 >>> 5) &&& 7 = 4) ∧
      ∃ rest, (i2cAds1115Read threeDeviceBus (i2cInit I2cState.init) 0x48 2).1.hw =
        (i2cInit I2cState.init).hw ++
          HwOp.transmit 0x48 [0x01, ads1115Config 2 / 256, ads1115Config 2 % 256] true :: rest) ∧
    [0x01, ads1115Config 2 / 256, ads1115Config 2 % 256] = [0x01, 0xE3, 0x80] :=
  ⟨rfl, (ads1115_config_word threeDeviceBus (i2cInit I2cState.init) 0x48 2 rfl).1, by decide⟩

theorem toInt16_bytes (hi lo : Nat) (hhi : hi < 256) (hlo : lo < 256) :
    toInt16 ((hi <<< 8) ||| lo) = signed16 (hi * 256 + lo) ∧
    -32768 ≤ signed16 (hi * 256 + lo) ∧ signed16 (hi * 256 + lo) ≤ 32767 := by
  rw [shl8_or hi lo hlo]
  unfold toInt16 signed16
  have hm : (hi * 256 + lo) % 65536 = hi * 256 + lo := Nat.mod_eq_of_lt (by omega)
  rw [hm]
  refine ⟨rfl, ?_, ?_⟩ <;> split_ifs <;> omega

/-- C16. When the configuration write is acknowledged and the conversion
register read returns the bytes `hi`, `lo`, `i2cAds1115Read` returns
`raw * 0.125` with `raw` the word `hi * 256 + lo` read as a signed 16-bit
number: the result in units of 1/8 mV is an integer in `[-32768, 32767]`. -/
theorem ads1115_millivolts (w : Wire) (s s1 s3 : I2cState) (addr channel hi lo : Nat)
    (hact : s.g_i2c_initialized = true) (hch : channel ≤ 3)
    (hW : i2cWriteReg w s addr 0x01
      [(ads1115Config channel >>> 8) % 256, (ads1115Config channel &&& 0xFF) % 256] = (s1, true))
    (hR : i2cReadReg w { s1 with hw := s1.hw ++ [HwOp.delay 10] } addr 0x00 2
      = (s3, some [hi, lo])) :
    i2cAds1115Read w s addr channel
      = (s3, CFloat.num ((signed16 (hi * 256 + lo) : ℚ) * 0.125)) ∧
    -32768 ≤ signed16 (hi * 256 + lo) ∧ signed16 (hi * 256 + lo) ≤ 32767 ∧
    ((signed16 (hi * 256 + lo) : ℚ) * 0.125) * 8 = (signed16 (hi * 256 + lo) : ℚ) := by
  obtain ⟨_, hb⟩ := i2cReadReg_bytes w _ s3 addr 0x00 2 [hi, lo] hR
  have hhi : hi < 256 := hb hi (by simp)
  have hlo : lo < 256 := hb lo (by simp)
  obtain ⟨h16, hlo16, hhi16⟩ := toInt16_bytes hi lo hhi hlo
  refine ⟨?_, hlo16, hhi16, by ring⟩
  unfold i2cAds1115Read
  rw [ads1115_guard s channel hact hch]
  simp only [Bool.false_eq_true, if_false]
  rw [hW]
  simp only
  rw [hR]
  simp only [byteAt, List.getD_cons_zero, List.getD_cons_succ, h16, CFloat.mul, CFloat.ofInt]
  congr 2
  norm_num

/-- Witness of C16: the conversion bytes 0x20, 0x00 (`raw = 8192`) give
1024.0 mV and the bytes 0xFF, 0xFF (`raw = -1`) give -0.125 mV. -/
theorem ads1115_millivolts_witness :
    ((i2cInit I2cState.init).g_i2c_initialized = true ∧ (0 : Nat) ≤ 3) ∧
    (i2cAds1115Read (echoDevice [0x20, 0x00]) (i2cInit I2cState.init) 0x48 0).2
      = CFloat.num ((signed16 (0x20 * 256 + 0x00) : ℚ) * 0.125) ∧
    (i2cAds1115Read (echoDevice [0xFF, 0xFF]) (i2cInit I2cState.init) 0x48 0).2
      = CFloat.num ((signed16 (0xFF * 256 + 0xFF) : ℚ) * 0.125) ∧
    (signed16 (0x20 * 256 + 0x00) = 8192 ∧ ((8192 : ℚ) * 0.125 = 1024.0)) ∧
    (signed16 (0xFF * 256 + 0xFF) = -1 ∧ (((-1 : Int) : ℚ) * 0.125 = -0.125)) :=
  ⟨⟨rfl, by decide⟩,
    congrArg Prod.snd (ads1115_millivolts (echoDevice [0x20, 0x00]) (i2cInit I2cState.init)
      _ _ 0x48 0 0x20 0x00 rfl (by decide) rfl rfl).1,
    congrArg Prod.snd (ads1115_millivolts (echoDevice [0xFF, 0xFF]) (i2cInit I2cState.init)
      _ _ 0x48 0 0xFF 0xFF rfl (by decide) rfl rfl).1,
    ⟨by decide, by norm_num⟩, ⟨by decide, by norm_num⟩⟩

theorem genericLen_cases (reg_len : Nat) :
    (genericLen reg_len = 1 ∨ genericLen reg_len = 2) ∧
    (reg_len = 0 → genericLen reg_len = 1) ∧ (2 < reg_len → genericLen reg_len = 2) ∧
    (1 ≤ reg_len → reg_len ≤ 2 → genericLen reg_len = reg_len) := by
  unfold genericLen
  omega

theorem generic_clamp (reg_len : Nat) :
    (if (if reg_len < 1 then 1 else reg_len) > 2 then 2 else (if reg_len < 1 then 1 else reg_len))
      = genericLen reg_len := by
  unfold genericLen
  split_ifs <;> omega

/-- C17. `i2cGenericRead` reads `reg_len` clamped to 1 .. 2 bytes (0 becomes 1,
anything above 2 becomes 2). When the register read fails the result is NaN;
when it succeeds the result is `raw * scale` with `raw` the byte read, or for
two bytes the big-endian word `b0 * 256 + b1` (0 .. 65535). -/
theorem generic_read_result (w : Wire) (s : I2cState) (addr reg reg_len : Nat) (scale : CFloat) :
    ((genericLen reg_len = 1 ∨ genericLen reg_len = 2) ∧
      (reg_len = 0 → genericLen reg_len = 1) ∧ (2 < reg_len → genericLen reg_len = 2) ∧
      (1 ≤ reg_len → reg_len ≤ 2 → genericLen reg_len = reg_len)) ∧
    (∀ s1, i2cReadReg w s addr reg (genericLen reg_len) = (s1, none) →
      i2cGenericRead w s addr reg reg_len scale = (s1, CFloat.nan)) ∧
    (∀ s1 buf, i2cReadReg w s addr reg (genericLen reg_len) = (s1, some buf) →
      buf.length = genericLen reg_len ∧
      genericRaw (genericLen reg_len) buf ≤ 65535 ∧
      i2cGenericRead w s addr reg reg_len scale =
        (s1, CFloat.mul (CFloat.ofInt (genericRaw (genericLen reg_len) buf)) scale)) := by
  refine ⟨genericLen_cases reg_len, ?_, ?_⟩
  · intro s1 h
    by_cases hact : s.g_i2c_initialized = true
    · unfold i2cGenericRead
      simp only [hact, Bool.not_true, Bool.false_eq_true, if_false]
      rw [generic_clamp, h]
    · simp only [i2cReadReg, hact, Bool.not_false, if_true, Prod.mk.injEq, and_true] at h
      subst h
      simp [i2cGenericRead, hact]
  · intro s1 buf h
    obtain ⟨hlen, hbytes⟩ := i2cReadReg_bytes w s s1 addr reg _ buf h
    have hb0 := byteAt_lt buf hbytes 0
    have hb1 := byteAt_lt buf hbytes 1
    have hact : s.g_i2c_initialized = true := by
      by_contra hn
      simp [i2cReadReg, hn] at h
    refine ⟨hlen, ?_, ?_⟩
    · unfold genericRaw
      split_ifs <;> omega
    · unfold i2cGenericRead
      simp only [hact, Bool.not_true, Bool.false_eq_true, if_false]
      rw [generic_clamp, h]
      simp only
      rcases (genericLen_cases reg_len).1 with h1 | h2
      · simp [h1, genericRaw, byteAt]
      · have e : ((byteAt buf 0 <<< 8) ||| byteAt buf 1) % 65536
            = byteAt buf 0 * 256 + byteAt buf 1 := by
          rw [shl8_or _ _ hb1]
          exact Nat.mod_eq_of_lt (by omega)
        unfold byteAt at e
        have hn : ¬ ((2 : Nat) = 1) := by decide
        simp only [h2, genericRaw, byteAt, hn, if_true, if_false]
        rw [e]

/-- Witness of C17: a request for 7 bytes reads the two bytes 0x12, 0x34 and
returns `0x1234 * scale`; a request for 0 bytes reads one byte. -/
theorem generic_read_result_witness :
    genericLen 7 = 2 ∧ genericLen 0 = 1 ∧
    i2cReadReg (echoDevice [0x12, 0x34]) (i2cInit I2cState.init) 0x40 0x05 (genericLen 7)
      = ({ i2cInit I2cState.init with
            hw := (i2cInit I2cState.init).hw ++
              [HwOp.transmit 0x40 [0x05] false, HwOp.requestFrom 0x40 2] }, some [0x12, 0x34]) ∧
    (i2cGenericRead (echoDevice [0x12, 0x34]) (i2cInit I2cState.init) 0x40 0x05 7
        (CFloat.num (1 / 2))).2
      = CFloat.mul (CFloat.ofInt (genericRaw (genericLen 7) [0x12, 0x34])) (CFloat.num (1 / 2)) ∧
    genericRaw (genericLen 7) [0x12, 0x34] = 0x1234 :=
  ⟨by decide, by decide, rfl,
    congrArg Prod.snd ((generic_read_result (echoDevice [0x12, 0x34]) (i2cInit I2cState.init)
      0x40 0x05 7 (CFloat.num (1 / 2))).2.2 _ [0x12, 0x34] rfl).2.2,
    by decide⟩

theorem sht31_of_response (w : Wire) (s : I2cState) (addr b0 b1 b2 b3 b4 b5 : Nat)
    (h0 : b0 < 256) (h1 : b1 < 256) (h3 : b3 < 256) (h4 : b4 < 256)
    (hack : w.endTransmission s.hw addr [0x2C, 0x06] true = 0)
    (hrx : w.requestFrom (s.hw ++ [HwOp.transmit addr [0x2C, 0x06] true] ++ [HwOp.delay 16])
      addr 6 = [b0, b1, b2, b3, b4, b5]) :
    (sht31DoRead w s addr).2 =
      some (CFloat.num (-45 + 175 * ((b0 * 256 + b1 : Nat) : ℚ) / 65535),
        CFloat.num (100 * ((b3 * 256 + b4 : Nat) : ℚ) / 65535)) := by
  have e0 : b0 % 256 = b0 := Nat.mod_eq_of_lt h0
  have e1 : b1 % 256 = b1 := Nat.mod_eq_of_lt h1
  have e3 : b3 % 256 = b3 := Nat.mod_eq_of_lt h3
  have e4 : b4 % 256 = b4 := Nat.mod_eq_of_lt h4
  have et : ((b0 <<< 8) ||| b1) % 65536 = b0 * 256 + b1 := by
    rw [shl8_or _ _ h1]; exact Nat.mod_eq_of_lt (by omega)
  have eh : ((b3 <<< 8) ||| b4) % 65536 = b3 * 256 + b4 := by
    rw [shl8_or _ _ h4]; exact Nat.mod_eq_of_lt (by omega)
  unfold sht31DoRead
  simp only [hack, ne_eq, not_true_eq_false, if_false, hrx, List.length_cons, List.length_nil,
    List.map_cons, List.map_nil, byteAt, List.getD_cons_zero, List.getD_cons_succ,
    e0, e1, e3, e4, et, eh, CFloat.add, CFloat.mul, CFloat.div, CFloat.ofInt]
  simp

/-- C18. When the measurement command is acknowledged and the sensor answers
with the six bytes `b0 .. b5`, `sht31DoRead` yields `T = -45 + 175 * raw_t /
65535` with `raw_t = b0 * 256 + b1` and `RH = 100 * raw_h / 65535` with `raw_h =
b3 * 256 + b4`; `T` lies in `[-45, 130]` and `RH` in `[0, 100]`; a response that
differs only in the CRC bytes `b2`, `b5` gives the same two results. -/
theorem sht31_conversion (w w2 : Wire) (s : I2cState) (addr b0 b1 b2 b3 b4 b5 c2 c5 : Nat)
    (h0 : b0 < 256) (h1 : b1 < 256) (h3 : b3 < 256) (h4 : b4 < 256)
    (hack : w.endTransmission s.hw addr [0x2C, 0x06] true = 0)
    (hrx : w.requestFrom (s.hw ++ [HwOp.transmit addr [0x2C, 0x06] true] ++ [HwOp.delay 16])
      addr 6 = [b0, b1, b2, b3, b4, b5])
    (hack2 : w2.endTransmission s.hw addr [0x2C, 0x06] true = 0)
    (hrx2 : w2.requestFrom (s.hw ++ [HwOp.transmit addr [0x2C, 0x06] true] ++ [HwOp.delay 16])
      addr 6 = [b0, b1, c2, b3, b4, c5]) :
    (sht31DoRead w s addr).2 =
      some (CFloat.num (-45 + 175 * ((b0 * 256 + b1 : Nat) : ℚ) / 65535),
        CFloat.num (100 * ((b3 * 256 + b4 : Nat) : ℚ) / 65535)) ∧
    ((-45 : ℚ) ≤ -45 + 175 * ((b0 * 256 + b1 : Nat) : ℚ) / 65535 ∧
      -45 + 175 * ((b0 * 256 + b1 : Nat) : ℚ) / 65535 ≤ 130) ∧
    ((0 : ℚ) ≤ 100 * ((b3 * 256 + b4 : Nat) : ℚ) / 65535 ∧
      100 * ((b3 * 256 + b4 : Nat) : ℚ) / 65535 ≤ 100) ∧
    (sht31DoRead w2 s addr).2 = (sht31DoRead w s addr).2 := by
  have ht : ((b0 * 256 + b1 : Nat) : ℚ) ≤ 65535 := by
    have : b0 * 256 + b1 ≤ 65535 := by omega
    exact_mod_cast this
  have hh : ((b3 * 256 + b4 : Nat) : ℚ) ≤ 65535 := by
    have : b3 * 256 + b4 ≤ 65535 := by omega
    exact_mod_cast this
  have ht0 : (0 : ℚ) ≤ ((b0 * 256 + b1 : Nat) : ℚ) := Nat.cast_nonneg _
  have hh0 : (0 : ℚ) ≤ ((b3 * 256 + b4 : Nat) : ℚ) := Nat.cast_nonneg _
  refine ⟨sht31_of_response w s addr b0 b1 b2 b3 b4 b5 h0 h1 h3 h4 hack hrx, ⟨?_, ?_⟩, ⟨?_, ?_⟩, ?_⟩
  · have : (0 : ℚ) ≤ 175 * ((b0 * 256 + b1 : Nat) : ℚ) / 65535 :=
      div_nonneg (mul_nonneg (by norm_num) ht0) (by norm_num)
    linarith
  · have : 175 * ((b0 * 256 + b1 : Nat) : ℚ) / 65535 ≤ 175 := by
      rw [div_le_iff₀ (by norm_num)]; linarith
    linarith
  · exact div_nonneg (mul_nonneg (by norm_num) hh0) (by norm_num)
  · rw [div_le_iff₀ (by norm_num)]; linarith
  · rw [sht31_of_response w s addr b0 b1 b2 b3 b4 b5 h0 h1 h3 h4 hack hrx,
      sht31_of_response w2 s addr b0 b1 c2 b3 b4 c5 h0 h1 h3 h4 hack2 hrx2]

/-- Witness of C18: the responses 0x66 0x66 0xAA 0x80 0x00 0xBB and
0x66 0x66 0x00 0x80 0x00 0x00 give the same temperature and humidity. -/
theorem sht31_conversion_witness :
    ((0x66 : Nat) < 256 ∧ (0x80 : Nat) < 256 ∧ (0x00 : Nat) < 256) ∧
    (sht31DoRead (echoDevice [0x66, 0x66, 0xAA, 0x80, 0x00, 0xBB]) (i2cInit I2cState.init) 0x44).2 =
      some (CFloat.num (-45 + 175 * ((0x66 * 256 + 0x66 : Nat) : ℚ) / 65535),
        CFloat.num (100 * ((0x80 * 256 + 0x00 : Nat) : ℚ) / 65535)) ∧
    (sht31DoRead (echoDevice [0x66, 0x66, 0x00, 0x80, 0x00, 0x00]) (i2cInit I2cState.init) 0x44).2
      = (sht31DoRead (echoDevice [0x66, 0x66, 0xAA, 0x80, 0x00, 0xBB])
          (i2cInit I2cState.init) 0x44).2 :=
  ⟨by decide,
    (sht31_conversion (echoDevice [0x66, 0x66, 0xAA, 0x80, 0x00, 0xBB])
      (echoDevice [0x66, 0x66, 0x00, 0x80, 0x00, 0x00]) (i2cInit I2cState.init) 0x44
      0x66 0x66 0xAA 0x80 0x00 0xBB 0x00 0x00 (by decide) (by decide) (by decide) (by decide)
      rfl rfl rfl rfl).1,
    (sht31_conversion (echoDevice [0x66, 0x66, 0xAA, 0x80, 0x00, 0xBB])
      (echoDevice [0x66, 0x66, 0x00, 0x80, 0x00, 0x00]) (i2cInit I2cState.init) 0x44
      0x66 0x66 0xAA 0x80 0x00 0xBB 0x00 0x00 (by decide) (by decide) (by decide) (by decide)
      rfl rfl rfl rfl).2.2.2⟩

/-! ## Theorems: read-through caching -/

theorem sameCache_trans {s t u : I2cState} (h1 : SameCache s t) (h2 : SameCache t u) :
    SameCache s u :=
  ⟨h2.1.trans h1.1, h2.2.trans h1.2⟩

theorem i2cReadReg_sameCache (w : Wire) (s : I2cState) (addr reg len : Nat) :
    SameCache s (i2cReadReg w s addr reg len).1 := by
  obtain ⟨ops, ho, _⟩ := i2cReadReg_state w s addr reg len
  rw [ho]
  exact ⟨rfl, rfl⟩

theorem i2cWriteReg_sameCache (w : Wire) (s : I2cState) (addr reg : Nat) (data : List Nat) :
    SameCache s (i2cWriteReg w s addr reg data).1 := by
  rcases i2cWriteReg_state w s addr reg data with h | h <;> rw [h] <;> exact ⟨rfl, rfl⟩

theorem bme280LoadCalib_sameCache (w : Wire) (s : I2cState) (addr : Nat) :
    SameCache s (bme280LoadCalib w s addr).1 := by
  unfold bme280LoadCalib
  split
  · exact ⟨rfl, rfl⟩
  · rename_i slot _
    have h1 := i2cReadReg_sameCache w s addr 0x88 26
    split
    · rename_i s1 heq
      rw [heq] at h1
      exact h1
    · rename_i s1 buf heq
      rw [heq] at h1
      have h2 := i2cReadReg_sameCache w
        { s1 with g_bme_calib := List.modify (calibBank1 buf) slot s1.g_bme_calib } addr 0xE1 7
      dsimp only
      split
      · rename_i s3 heq2
        rw [heq2] at h2
        exact ⟨h2.1.trans h1.1, h2.2.trans h1.2⟩
      · rename_i s3 buf2 heq2
        rw [heq2] at h2
        exact ⟨h2.1.trans h1.1, h2.2.trans h1.2⟩

theorem bme280Init_sameCache (w : Wire) (s : I2cState) (addr : Nat) :
    SameCache s (bme280Init w s addr).1 := by
  have hr := i2cReadReg_sameCache w s addr 0xD0 1
  unfold bme280Init
  simp only
  split
  · exact hr
  · have hw1 := i2cWriteReg_sameCache w (i2cReadReg w s addr 0xD0 1).1 addr 0xE0 [0xB6]
    have h2 : SameCache s { (i2cWriteReg w (i2cReadReg w s addr 0xD0 1).1 addr 0xE0 [0xB6]).1 with
        hw := (i2cWriteReg w (i2cReadReg w s addr 0xD0 1).1 addr 0xE0 [0xB6]).1.hw ++
          [HwOp.delay 10] } := ⟨hw1.1.trans hr.1, hw1.2.trans hr.2⟩
    have hl := bme280LoadCalib_sameCache w
      { (i2cWriteReg w (i2cReadReg w s addr 0xD0 1).1 addr 0xE0 [0xB6]).1 with
        hw := (i2cWriteReg w (i2cReadReg w s addr 0xD0 1).1 addr 0xE0 [0xB6]).1.hw ++
          [HwOp.delay 10] } addr
    split
    · rename_i s3 heq
      rw [heq] at hl
      exact sameCache_trans h2 hl
    · rename_i s3 heq
      rw [heq] at hl
      have h3 := sameCache_trans h2 hl
      exact sameCache_trans h3 (sameCache_trans (i2cWriteReg_sameCache w s3 addr 0xF2 [0x01])
        (sameCache_trans (i2cWriteReg_sameCache w _ addr 0xF4 [0x27])
          (i2cWriteReg_sameCache w _ addr 0xF5 [0xA0])))

theorem bme280DoRead_sameCache (w : Wire) (s : I2cState) (addr : Nat) :
    SameCache s (bme280DoRead w s addr).1 := by
  have hi := bme280Init_sameCache w s addr
  unfold bme280DoRead
  simp only
  have key : ∀ (r : I2cState × Option Bme280Calib), SameCache s r.1 →
      SameCache s (match r with
        | (s1, none) => (s1, none)
        | (s1, some c) =>
          match i2cReadReg w s1 addr 0xF7 8 with
          | (s2, none) => (s2, none)
          | (s2, some buf) => (s2, some (bme280Compensate c buf))).1 := by
    rintro ⟨s1, _ | c⟩ h
    · exact h
    · have h2 := i2cReadReg_sameCache w s1 addr 0xF7 8
      simp only
      split
      · rename_i s2 heq
        rw [heq] at h2
        exact sameCache_trans h h2
      · rename_i s2 buf heq
        rw [heq] at h2
        exact sameCache_trans h h2
  apply key
  split
  · exact ⟨rfl, rfl⟩
  · split
    · rename_i s1 heq
      rw [heq] at hi
      exact hi
    · rename_i s1 heq
      rw [heq] at hi
      exact hi

theorem sht31DoRead_sameCache (w : Wire) (s : I2cState) (addr : Nat) :
    SameCache s (sht31DoRead w s addr).1 := by
  unfold sht31DoRead
  simp only
  split
  · exact ⟨rfl, rfl⟩
  · split <;> exact ⟨rfl, rfl⟩

theorem bme280Compensate_num (c : Bme280Calib) (buf : List Nat) :
    ∃ t h p : ℚ, bme280Compensate c buf = (CFloat.num t, CFloat.num h, CFloat.num p) := by
  unfold bme280Compensate bme280Pres
  simp only
  split
  · exact ⟨_, _, _, rfl⟩
  · exact ⟨_, _, _, rfl⟩

theorem get_after_set_fresh (cache : List I2cCache) (hne : cache ≠ []) (now now2 A : Nat)
    (v : Nat → CFloat) (n c : Nat) (hfresh : sub32 now2 now < I2C_CACHE_TTL_MS)
    (hc : c < n) (hn : n ≤ 4) :
    i2cCacheGet (i2cCacheSet cache now A v n) now2 A c = v c := by
  obtain ⟨p, o, q, _, hset, hp, _⟩ := i2cCacheSet_spec cache now A v n hne
  rw [hset]
  have hnum : (if n > 4 then 4 else n) = n := by
    rw [if_neg]; omega
  have hhit : cacheHit now2 A c (fillSlot now A v n o) = true := by
    simp [cacheHit, fillSlot, hfresh, hnum, hc]
  unfold i2cCacheGet
  rw [find_skips_front p _ now2 A c hp, List.find?_cons_of_pos _ hhit]
  simp only [fillSlot, hnum]
  exact storeValues_getD _ v n c hc hn

theorem bme280DoRead_some_num (w : Wire) (s s1 : I2cState) (addr : Nat)
    (x : CFloat × CFloat × CFloat) (h : bme280DoRead w s addr = (s1, some x)) :
    ∃ t h p : ℚ, x = (CFloat.num t, CFloat.num h, CFloat.num p) := by
  have key : ∀ (r : I2cState × Option Bme280Calib),
      (match r with
        | (s1, none) => ((s1, none) : I2cState × Option (CFloat × CFloat × CFloat))
        | (s1, some c) =>
          match i2cReadReg w s1 addr 0xF7 8 with
          | (s2, none) => (s2, none)
          | (s2, some buf) => (s2, some (bme280Compensate c buf))) = (s1, some x) →
      ∃ t h p : ℚ, x = (CFloat.num t, CFloat.num h, CFloat.num p) := by
    rintro ⟨s0, _ | c⟩ hr
    · simp at hr
    · simp only at hr
      split at hr
      · simp at hr
      · rename_i s2 buf _
        simp only [Prod.mk.injEq, Option.some.injEq] at hr
        rw [← hr.2]
        exact bme280Compensate_num c buf
  unfold bme280DoRead at h
  exact key _ h

theorem i2cBme280Read_hit (w : Wire) (s : I2cState) (now_get now_set A c : Nat) (v : ℚ)
    (hact : s.g_i2c_initialized = true) (hc : c ≤ 2)
    (hhit : i2cCacheGet s.g_i2c_cache now_get A c = CFloat.num v) :
    i2cBme280Read w s now_get now_set A c = (s, CFloat.num v) := by
  have h2 : ¬ c > 2 := by omega
  simp [i2cBme280Read, hact, h2, hhit, CFloat.isnan]

theorem i2cBme280Read_burst (w : Wire) (s : I2cState) (now_get now_set A c : Nat)
    (hmiss : i2cCacheGet s.g_i2c_cache now_get A c = CFloat.nan)
    (hok : (i2cBme280Read w s now_get now_set A c).2 ≠ CFloat.nan) :
    s.g_i2c_initialized = true ∧ c ≤ 2 ∧
    ∃ t h p : ℚ, (bme280DoRead w s A).2 = some (CFloat.num t, CFloat.num h, CFloat.num p) ∧
      i2cBme280Read w s now_get now_set A c =
        ({ (bme280DoRead w s A).1 with
            g_i2c_cache := i2cCacheSet (bme280DoRead w s A).1.g_i2c_cache now_set A
              (fun i => [CFloat.num t, CFloat.num h, CFloat.num p].getD i CFloat.nan) 3 },
          [CFloat.num t, CFloat.num h, CFloat.num p].getD c CFloat.nan) := by
  by_cases hact : s.g_i2c_initialized = true
  · by_cases hc : c ≤ 2
    · refine ⟨hact, hc, ?_⟩
      have h2 : ¬ c > 2 := by omega
      rcases hr : bme280DoRead w s A with ⟨s1, _ | x⟩
      · exfalso
        apply hok
        simp [i2cBme280Read, hact, h2, hmiss, CFloat.isnan, hr]
      · obtain ⟨t, h, p, rfl⟩ := bme280DoRead_some_num w s s1 A x hr
        refine ⟨t, h, p, rfl, ?_⟩
        simp [i2cBme280Read, hact, h2, hmiss, CFloat.isnan, hr]
    · exfalso
      apply hok
      have h2 : c > 2 := by omega
      simp [i2cBme280Read, h2]
  · exfalso
    apply hok
    simp [i2cBme280Read, hact]

theorem sht31DoRead_some_num (w : Wire) (s s1 : I2cState) (addr : Nat) (x : CFloat × CFloat)
    (h : sht31DoRead w s addr = (s1, some x)) :
    ∃ t h : ℚ, x = (CFloat.num t, CFloat.num h) := by
  unfold sht31DoRead at h
  simp only at h
  split at h
  · simp at h
  · split at h
    · simp at h
    · simp only [Prod.mk.injEq, Option.some.injEq] at h
      exact ⟨_, _, h.2.symm⟩

theorem i2cSht31Read_hit (w : Wire) (s : I2cState) (now_get now_set A c : Nat) (v : ℚ)
    (hact : s.g_i2c_initialized = true) (hc : c ≤ 1)
    (hhit : i2cCacheGet s.g_i2c_cache now_get A c = CFloat.num v) :
    i2cSht31Read w s now_get now_set A c = (s, CFloat.num v) := by
  have h2 : ¬ c > 1 := by omega
  simp [i2cSht31Read, hact, h2, hhit, CFloat.isnan]

theorem i2cSht31Read_burst (w : Wire) (s : I2cState) (now_get now_set A c : Nat)
    (hmiss : i2cCacheGet s.g_i2c_cache now_get A c = CFloat.nan)
    (hok : (i2cSht31Read w s now_get now_set A c).2 ≠ CFloat.nan) :
    s.g_i2c_initialized = true ∧ c ≤ 1 ∧
    ∃ t h : ℚ, (sht31DoRead w s A).2 = some (CFloat.num t, CFloat.num h) ∧
      i2cSht31Read w s now_get now_set A c =
        ({ (sht31DoRead w s A).1 with
            g_i2c_cache := i2cCacheSet (sht31DoRead w s A).1.g_i2c_cache now_set A
              (fun i => [CFloat.num t, CFloat.num h].getD i CFloat.nan) 2 },
          [CFloat.num t, CFloat.num h].getD c CFloat.nan) := by
  by_cases hact : s.g_i2c_initialized = true
  · by_cases hc : c ≤ 1
    · refine ⟨hact, hc, ?_⟩
      have h2 : ¬ c > 1 := by omega
      rcases hr : sht31DoRead w s A with ⟨s1, _ | x⟩
      · exfalso
        apply hok
        simp [i2cSht31Read, hact, h2, hmiss, CFloat.isnan, hr]
      · obtain ⟨t, h, rfl⟩ := sht31DoRead_some_num w s s1 A x hr
        refine ⟨t, h, rfl, ?_⟩
        simp [i2cSht31Read, hact, h2, hmiss, CFloat.isnan, hr]
    · exfalso
      apply hok
      have h2 : c > 1 := by omega
      simp [i2cSht31Read, h2]
  · exfalso
    apply hok
    simp [i2cSht31Read, hact]

theorem getD_three (a b c : ℚ) (i : Nat) (hi : i ≤ 2) :
    ∃ v : ℚ, [CFloat.num a, CFloat.num b, CFloat.num c].getD i CFloat.nan = CFloat.num v := by
  interval_cases i <;> exact ⟨_, rfl⟩

theorem getD_two (a b : ℚ) (i : Nat) (hi : i ≤ 1) :
    ∃ v : ℚ, [CFloat.num a, CFloat.num b].getD i CFloat.nan = CFloat.num v := by
  interval_cases i <;> exact ⟨_, rfl⟩

/-- C19 (amended). After an `i2cBme280Read(A, c)` that was not served from the
cache and returned a number, so that its burst read was cached at the clock
value `now_set`, a call `i2cBme280Read(A, c2)` for any channel `c2 ≤ 2` at a
clock value less than 1000 ms after `now_set` (32-bit difference) leaves the
state as it is (no bus transaction) and returns channel `c2` of that burst read
(0 temperature, 1 humidity, 2 pressure). The same holds for `i2cSht31Read` with
channels `c2 ≤ 1`. -/
theorem read_through_cache (w : Wire) (s : I2cState)
    (A c c2 now_get now_set now_get2 now_set2 : Nat)
    (hlen : s.g_i2c_cache.length = I2C_CACHE_MAX)
    (hmiss : i2cCacheGet s.g_i2c_cache now_get A c = CFloat.nan)
    (hfresh : sub32 now_get2 now_set < I2C_CACHE_TTL_MS) :
    ((i2cBme280Read w s now_get now_set A c).2 ≠ CFloat.nan → c2 ≤ 2 →
      ∃ temp humi pres : ℚ,
        (bme280DoRead w s A).2 = some (CFloat.num temp, CFloat.num humi, CFloat.num pres) ∧
        (i2cBme280Read w s now_get now_set A c).2
          = [CFloat.num temp, CFloat.num humi, CFloat.num pres].getD c CFloat.nan ∧
        i2cBme280Read w (i2cBme280Read w s now_get now_set A c).1 now_get2 now_set2 A c2
          = ((i2cBme280Read w s now_get now_set A c).1,
              [CFloat.num temp, CFloat.num humi, CFloat.num pres].getD c2 CFloat.nan)) ∧
    ((i2cSht31Read w s now_get now_set A c).2 ≠ CFloat.nan → c2 ≤ 1 →
      ∃ temp humi : ℚ,
        (sht31DoRead w s A).2 = some (CFloat.num temp, CFloat.num humi) ∧
        (i2cSht31Read w s now_get now_set A c).2
          = [CFloat.num temp, CFloat.num humi].getD c CFloat.nan ∧
        i2cSht31Read w (i2cSht31Read w s now_get now_set A c).1 now_get2 now_set2 A c2
          = ((i2cSht31Read w s now_get now_set A c).1,
              [CFloat.num temp, CFloat.num humi].getD c2 CFloat.nan)) := by
  have hne : s.g_i2c_cache ≠ [] := by
    intro h; rw [h] at hlen; simp [I2C_CACHE_MAX] at hlen
  constructor
  · intro hok hc2
    obtain ⟨hact, _, t, h, p, hread, hres⟩ := i2cBme280Read_burst w s now_get now_set A c hmiss hok
    obtain ⟨hcache, hinit⟩ := bme280DoRead_sameCache w s A
    refine ⟨t, h, p, hread, by rw [hres], ?_⟩
    obtain ⟨v, hv⟩ := getD_three t h p c2 hc2
    rw [hres, hv]
    apply i2cBme280Read_hit
    · exact hinit.trans hact
    · exact hc2
    · simp only
      rw [get_after_set_fresh _ (by rw [hcache]; exact hne) now_set now_get2 A _ 3 c2 hfresh
        (by omega) (by omega)]
      exact hv
  · intro hok hc2
    obtain ⟨hact, _, t, h, hread, hres⟩ := i2cSht31Read_burst w s now_get now_set A c hmiss hok
    obtain ⟨hcache, hinit⟩ := sht31DoRead_sameCache w s A
    refine ⟨t, h, hread, by rw [hres], ?_⟩
    obtain ⟨v, hv⟩ := getD_two t h c2 hc2
    rw [hres, hv]
    apply i2cSht31Read_hit
    · exact hinit.trans hact
    · exact hc2
    · simp only
      rw [get_after_set_fresh _ (by rw [hcache]; exact hne) now_set now_get2 A _ 2 c2 hfresh
        (by omega) (by omega)]
      exact hv

set_option maxRecDepth 100000 in
/-- Witness of C19 (amended): a BME280 at 0x76 is read at clock value 0 on an
empty cache; a read of channel 2 at clock value 900 is served from the cache.
The same for an SHT31 at 0x44 and channel 1. -/
theorem read_through_cache_witness :
    ((i2cInit I2cState.init).g_i2c_cache.length = I2C_CACHE_MAX ∧
      i2cCacheGet (i2cInit I2cState.init).g_i2c_cache 0 0x76 0 = CFloat.nan ∧
      sub32 900 0 < I2C_CACHE_TTL_MS ∧
      (i2cBme280Read bme280Device (i2cInit I2cState.init) 0 0 0x76 0).2 ≠ CFloat.nan ∧
      (2 : Nat) ≤ 2) ∧
    (∃ temp humi pres : ℚ,
      (bme280DoRead bme280Device (i2cInit I2cState.init) 0x76).2
        = some (CFloat.num temp, CFloat.num humi, CFloat.num pres) ∧
      (i2cBme280Read bme280Device (i2cInit I2cState.init) 0 0 0x76 0).2
        = [CFloat.num temp, CFloat.num humi, CFloat.num pres].getD 0 CFloat.nan ∧
      i2cBme280Read bme280Device
          (i2cBme280Read bme280Device (i2cInit I2cState.init) 0 0 0x76 0).1 900 901 0x76 2
        = ((i2cBme280Read bme280Device (i2cInit I2cState.init) 0 0 0x76 0).1,
            [CFloat.num temp, CFloat.num humi, CFloat.num pres].getD 2 CFloat.nan)) ∧
    ((i2cCacheGet (i2cInit I2cState.init).g_i2c_cache 0 0x44 0 = CFloat.nan ∧
      (i2cSht31Read (echoDevice [0x66, 0x66, 0xAA, 0x80, 0x00, 0xBB]) (i2cInit I2cState.init)
        0 0 0x44 0).2 ≠ CFloat.nan ∧ (1 : Nat) ≤ 1) ∧
    ∃ temp humi : ℚ,
      (sht31DoRead (echoDevice [0x66, 0x66, 0xAA, 0x80, 0x00, 0xBB]) (i2cInit I2cState.init)
        0x44).2 = some (CFloat.num temp, CFloat.num humi) ∧
      (i2cSht31Read (echoDevice [0x66, 0x66, 0xAA, 0x80, 0x00, 0xBB]) (i2cInit I2cState.init)
        0 0 0x44 0).2 = [CFloat.num temp, CFloat.num humi].getD 0 CFloat.nan ∧
      i2cSht31Read (echoDevice [0x66, 0x66, 0xAA, 0x80, 0x00, 0xBB])
          (i2cSht31Read (echoDevice [0x66, 0x66, 0xAA, 0x80, 0x00, 0xBB])
            (i2cInit I2cState.init) 0 0 0x44 0).1 900 901 0x44 1
        = ((i2cSht31Read (echoDevice [0x66, 0x66, 0xAA, 0x80, 0x00, 0xBB])
            (i2cInit I2cState.init) 0 0 0x44 0).1,
            [CFloat.num temp, CFloat.num humi].getD 1 CFloat.nan)) :=
  ⟨⟨by decide, by decide, by decide, by decide, by decide⟩,
    (read_through_cache bme280Device (i2cInit I2cState.init) 0x76 0 2 0 0 900 901
      (by decide) (by decide) (by decide)).1 (by decide) (by decide),
    ⟨by decide, by decide, by decide⟩,
    (read_through_cache (echoDevice [0x66, 0x66, 0xAA, 0x80, 0x00, 0xBB]) (i2cInit I2cState.init)
      0x44 0 1 0 0 900 901 (by decide) (by decide) (by decide)).2 (by decide) (by decide)⟩

set_option maxRecDepth 100000 in
/-- C19, counterexample: a BME280 at 0x76 is read at clock value 0 (burst
read), read again at 900 (served from the cache, a number), and read at 1500:
only 600 ms after the previous successful read, yet the cached burst is 1500 ms
old and a new burst read goes over the bus. -/
theorem cache_age_counts_from_burst :
    (i2cBme280Read bme280Device
      (i2cBme280Read bme280Device (i2cInit I2cState.init) 0 0 0x76 0).1 900 900 0x76 0).2
        ≠ CFloat.nan ∧
    (i2cBme280Read bme280Device
      (i2cBme280Read bme280Device (i2cInit I2cState.init) 0 0 0x76 0).1 900 900 0x76 0).1.hw
        = (i2cBme280Read bme280Device (i2cInit I2cState.init) 0 0 0x76 0).1.hw ∧
    sub32 1500 900 < I2C_CACHE_TTL_MS ∧
    (i2cBme280Read bme280Device
      (i2cBme280Read bme280Device
        (i2cBme280Read bme280Device (i2cInit I2cState.init) 0 0 0x76 0).1 900 900 0x76 0).1
      1500 1500 0x76 0).1.hw
        = (i2cBme280Read bme280Device (i2cInit I2cState.init) 0 0 0x76 0).1.hw ++
            [HwOp.transmit 0x76 [0xF7] false, HwOp.requestFrom 0x76 8] := by
  decide

/-! ## Theorems: BH1750 slot table -/

/-- C20, the code at the failing input. After a failed read at 0x5C the
responsive BH1750 at 0x23 reads 250 lux. If a read at the non-responding
address 0x5D fails first, both slots hold dead addresses, and the read at 0x23
returns NaN without any bus transaction. -/
theorem bh1750_failed_reads_fill_slots :
    (i2cBh1750Read bh1750Bus (i2cInit I2cState.init) 0x5C).2 = CFloat.nan ∧
    afterOneFailedRead.g_bh1750_addrs = [0x5C, 0] ∧
    (i2cBh1750Read bh1750Bus afterOneFailedRead 0x23).2
      = CFloat.div (CFloat.ofInt 300) (CFloat.num (6 / 5)) ∧
    (i2cBh1750Read bh1750Bus afterOneFailedRead 0x5D).2 = CFloat.nan ∧
    (i2cBh1750Read bh1750Bus afterOneFailedRead 0x5D).1.g_bh1750_addrs = [0x5C, 0x5D] ∧
    (i2cBh1750Read bh1750Bus (i2cBh1750Read bh1750Bus afterOneFailedRead 0x5D).1 0x23).2
      = CFloat.nan ∧
    (i2cBh1750Read bh1750Bus (i2cBh1750Read bh1750Bus afterOneFailedRead 0x5D).1 0x23).1.hw
      = (i2cBh1750Read bh1750Bus afterOneFailedRead 0x5D).1.hw ∧
    CFloat.div (CFloat.ofInt 300) (CFloat.num (6 / 5)) = CFloat.num 250 := by
  refine ⟨by decide, by decide, ?_, by decide, by decide, by decide, by decide, ?_⟩
  · rfl
  · simp only [CFloat.div, CFloat.ofInt]
    norm_num

/-! ## Theorems: text rendering and font -/

set_option maxRecDepth 100000 in
theorem font_length : FONT_5X7.length = 480 := by decide

theorem glyphOffset_le (c : Nat) (hc : c < 256) : glyphOffset c + 4 < 480 := by
  unfold glyphOffset
  dsimp only
  split <;> omega

theorem glyphBytes_length (c : Nat) : (glyphBytes c).length = 5 := by
  simp [glyphBytes]

set_option maxRecDepth 100000 in
theorem glyphBytes_space : glyphBytes 32 = [0, 0, 0, 0, 0] := by decide

theorem glyphOffset_outside (c : Nat) (h : c < 32 ∨ c > 127) :
    glyphOffset c = glyphOffset 32 := by
  simp [glyphOffset, h]

theorem glyphBytes_outside (c : Nat) (h : c < 32 ∨ c > 127) :
    glyphBytes c = [0, 0, 0, 0, 0] := by
  rw [← glyphBytes_space]
  simp only [glyphBytes, glyphOffset_outside c h]

theorem writeChars_spec (addr : Nat) (text : List Char) (col : Nat) :
    (writeChars addr text col).1
        = (text.take (SSD1306_MAX_COLS - col)).map (charTransfer addr)
      ∧ (writeChars addr text col).2
        = col + min text.length (SSD1306_MAX_COLS - col) := by
  induction text generalizing col with
  | nil => simp [writeChars]
  | cons ch rest ih =>
    unfold writeChars
    by_cases h : col < SSD1306_MAX_COLS
    · obtain ⟨h1, h2⟩ := ih (col + 1)
      have e : SSD1306_MAX_COLS - col = (SSD1306_MAX_COLS - (col + 1)) + 1 := by omega
      simp only [h, if_true, h1, h2]
      constructor
      · rw [e, List.take_succ_cons, List.map_cons]
      · simp only [List.length_cons]
        omega
    · have e : SSD1306_MAX_COLS - col = 0 := by omega
      simp [h, e]

theorem blankChunks_data (addr : Nat) (fuel remaining : Nat) (h : remaining ≤ fuel) :
    dataBytes (blankChunks addr fuel remaining) = List.replicate remaining 0 := by
  induction fuel generalizing remaining with
  | zero =>
    have : remaining = 0 := by omega
    subst this
    simp [blankChunks, dataBytes]
  | succ fuel ih =>
    unfold blankChunks
    by_cases h0 : remaining > 0
    · simp only [h0, if_true]
      by_cases h16 : remaining > 16
      · simp only [h16, if_true]
        have := ih (remaining - 16) (by omega)
        simp only [dataBytes] at this ⊢
        simp only [List.map_cons, List.flatten_cons, dataPayload, this]
        rw [← List.replicate_add]
        congr 1
        omega
      · simp only [h16, if_false]
        have := ih (remaining - remaining) (by omega)
        simp only [dataBytes] at this ⊢
        simp only [List.map_cons, List.flatten_cons, dataPayload, this]
        simp
    · have : remaining = 0 := by omega
      subst this
      simp [dataBytes]

theorem blankChunks_chunk (addr : Nat) (fuel remaining : Nat) :
    ∀ op ∈ blankChunks addr fuel remaining,
      ∃ n, 0 < n ∧ n ≤ 16 ∧ op = HwOp.transmit addr (0x40 :: List.replicate n 0) true := by
  induction fuel generalizing remaining with
  | zero => simp [blankChunks]
  | succ fuel ih =>
    unfold blankChunks
    by_cases h0 : remaining > 0
    · simp only [h0, if_true]
      intro op hop
      rcases List.mem_cons.mp hop with h | h
      · by_cases h16 : remaining > 16
        · exact ⟨16, by omega, by omega, by simp [h, h16]⟩
        · exact ⟨remaining, h0, by omega, by simp [h, h16]⟩
      · exact ih _ op h
    · simp [h0]

theorem dataBytes_append (a b : List HwOp) :
    dataBytes (a ++ b) = dataBytes a ++ dataBytes b := by
  simp [dataBytes]

theorem ssd1306Cmds_hw (s : I2cState) (addr : Nat) (cmds : List Nat) :
    (ssd1306Cmds s addr cmds).hw
      = s.hw ++ cmds.map fun cmd => HwOp.transmit addr [0x00, cmd] true := by
  induction cmds generalizing s with
  | nil => simp [ssd1306Cmds]
  | cons c cs ih =>
    have := ih (ssd1306Cmd s addr c)
    simp only [ssd1306Cmds, List.foldl_cons] at this ⊢
    rw [this]
    simp [ssd1306Cmd]

theorem table_rows (l : List Nat) (o : Nat) (h : o + 5 ≤ l.length) :
    ((List.range 5).map fun j => l.getD (o + j) 0) = (l.drop o).take 5 := by
  apply List.ext_getElem?
  intro j
  by_cases hj : j < 5
  · have hlt : o + j < l.length := by omega
    rw [List.getElem?_map, List.getElem?_range hj, List.getElem?_take_of_lt hj,
      List.getElem?_drop, Option.map_some', List.getD_eq_getElem _ _ hlt,
      List.getElem?_eq_getElem hlt]
  · have h1 : ((List.range 5).map fun j => l.getD (o + j) 0).length ≤ j := by
      simp only [List.length_map, List.length_range]; omega
    have h2 : ((l.drop o).take 5).length ≤ j := by
      simp only [List.length_take, List.length_drop]; omega
    rw [List.getElem?_eq_none h1, List.getElem?_eq_none h2]

theorem glyphBytes_spec (ch : Char) : glyphBytes (charByte ch) = specGlyph ch := by
  have ho : glyphOffset (charByte ch)
      = 5 * ((if 32 ≤ ch.toNat % 256 ∧ ch.toNat % 256 ≤ 127 then ch.toNat % 256 else 32) - 32) := by
    unfold glyphOffset charByte
    dsimp only
    split <;> split <;> omega
  have hb : glyphOffset (charByte ch) + 5 ≤ FONT_5X7.length := by
    rw [font_length, ho]
    split <;> omega
  unfold glyphBytes
  rw [table_rows FONT_5X7 _ hb, ho]
  rfl

theorem specGlyph_length (ch : Char) : (specGlyph ch).length = 5 := by
  rw [← glyphBytes_spec, glyphBytes_length]

theorem blankChunks_spec (addr : Nat) (fuel : Nat) :
    ∀ remaining, remaining ≤ fuel →
      blankChunks addr fuel remaining
        = List.replicate (remaining / 16)
            (HwOp.transmit addr (0x40 :: List.replicate 16 0) true)
          ++ (if remaining % 16 = 0 then []
              else [HwOp.transmit addr (0x40 :: List.replicate (remaining % 16) 0) true]) := by
  induction fuel with
  | zero =>
    intro remaining h
    have : remaining = 0 := by omega
    subst this
    simp [blankChunks]
  | succ fuel ih =>
    intro remaining h
    unfold blankChunks
    by_cases h0 : remaining > 0
    · simp only [h0, if_true]
      by_cases h16 : remaining > 16
      · simp only [h16, if_true]
        rw [ih (remaining - 16) (by omega)]
        have e1 : remaining / 16 = (remaining - 16) / 16 + 1 := by omega
        have e2 : remaining % 16 = (remaining - 16) % 16 := by omega
        rw [e1, e2, List.replicate_succ]
        rfl
      · simp only [h16, if_false]
        rw [ih (remaining - remaining) (by omega)]
        by_cases he : remaining = 16
        · subst he
          simp
        · have e1 : remaining / 16 = 0 := by omega
          have e2 : remaining % 16 = remaining := by omega
          have e3 : ¬ remaining = 0 := by omega
          simp [e1, e2, e3]
    · have : remaining = 0 := by omega
      subst this
      simp

theorem specFill_eq (addr shown : Nat) :
    specFill addr shown = blankChunks addr ((21 - shown) * 6) ((21 - shown) * 6) := by
  rw [blankChunks_spec addr _ _ (Nat.le_refl _)]
  rfl

theorem specTransfers_data (addr : Nat) (cs : List Char) :
    dataBytes (cs.map fun ch => HwOp.transmit addr (0x40 :: (specGlyph ch ++ [0x00])) true)
      = (cs.map fun ch => specGlyph ch ++ [0]).flatten := by
  induction cs with
  | nil => simp [dataBytes]
  | cons c cs ih =>
    simp only [dataBytes] at ih ⊢
    simp only [List.map_cons, List.flatten_cons, ih]
    simp [dataPayload]

theorem spec_rows_length (cs : List Char) :
    ((cs.map fun ch => specGlyph ch ++ [0]).flatten).length = cs.length * 6 := by
  induction cs with
  | nil => simp
  | cons c cs ih =>
    simp only [List.map_cons, List.flatten_cons, List.length_append, ih, specGlyph_length,
      List.length_cons, List.length_nil]
    omega

theorem ssd1306WriteText_hw (s : I2cState) (addr line : Nat) (text : List Char)
    (hact : i2cActive s = true) :
    (ssd1306WriteText s addr line text).hw = s.hw ++ textTransfers addr line text := by
  obtain ⟨w1, w2⟩ := writeChars_spec addr text 0
  have hmap : (text.take 21).map (charTransfer addr)
      = (text.take 21).map
          (fun ch => HwOp.transmit addr (0x40 :: (specGlyph ch ++ [0x00])) true) := by
    apply List.map_congr_left
    intro ch _
    simp only [charTransfer, glyphBytes_spec]
  unfold ssd1306WriteText
  rw [hact]
  simp only [Bool.not_true, Bool.false_eq_true, if_false]
  rw [w1, w2, ssd1306Cmds_hw]
  simp only [SSD1306_MAX_COLS, Nat.sub_zero, Nat.zero_add, textTransfers, specFill_eq, hmap,
    List.append_assoc, List.map_cons, List.map_nil, List.cons_append, List.nil_append]

/-- C24. On an active bus `ssd1306WriteText` sends the six commands of the
column and page window, then one transfer for each of the first `min L 21`
characters of the text, in order, holding the control byte 0x40, the five
bytes of the character in the font table (those of the space for a character
code outside 32 .. 127) and one 0x00 byte, then `(21 - min L 21) * 6` zero
bytes in transfers of 1 to 16 bytes; the data bytes are 126 in all, and a
text of 21 or more characters is followed by no fill transfer. -/
theorem write_text_layout (s : I2cState) (addr line : Nat) (text : List Char)
    (hact : i2cActive s = true) :
    (ssd1306WriteText s addr line text).hw
        = s.hw ++ [HwOp.transmit addr [0x00, 0x21] true, HwOp.transmit addr [0x00, 0] true,
              HwOp.transmit addr [0x00, 127] true, HwOp.transmit addr [0x00, 0x22] true,
              HwOp.transmit addr [0x00, line] true, HwOp.transmit addr [0x00, line] true]
            ++ (text.take 21).map
                (fun ch => HwOp.transmit addr (0x40 :: (specGlyph ch ++ [0x00])) true)
            ++ specFill addr (min text.length 21)
      ∧ (text.take 21).length = min text.length 21
      ∧ (∀ ch : Char, (specGlyph ch).length = 5
          ∧ specGlyph ch = (FONT_5X7.drop
              (5 * ((if 32 ≤ ch.toNat % 256 ∧ ch.toNat % 256 ≤ 127
                      then ch.toNat % 256 else 32) - 32))).take 5)
      ∧ dataBytes ((text.take 21).map
            (fun ch => HwOp.transmit addr (0x40 :: (specGlyph ch ++ [0x00])) true))
          = ((text.take 21).map fun ch => specGlyph ch ++ [0]).flatten
      ∧ dataBytes (specFill addr (min text.length 21))
          = List.replicate ((21 - min text.length 21) * 6) 0
      ∧ (∀ op ∈ specFill addr (min text.length 21),
          ∃ n, 0 < n ∧ n ≤ 16 ∧ op = HwOp.transmit addr (0x40 :: List.replicate n 0) true)
      ∧ (dataBytes ((text.take 21).map
            (fun ch => HwOp.transmit addr (0x40 :: (specGlyph ch ++ [0x00])) true)
            ++ specFill addr (min text.length 21))).length = 126
      ∧ (21 ≤ text.length →
          (ssd1306WriteText s addr line text).hw
            = s.hw ++ [HwOp.transmit addr [0x00, 0x21] true, HwOp.transmit addr [0x00, 0] true,
                  HwOp.transmit addr [0x00, 127] true, HwOp.transmit addr [0x00, 0x22] true,
                  HwOp.transmit addr [0x00, line] true, HwOp.transmit addr [0x00, line] true]
                ++ (text.take 21).map
                    (fun ch => HwOp.transmit addr (0x40 :: (specGlyph ch ++ [0x00])) true)) := by
  have hlen : (text.take 21).length = min text.length 21 := by
    rw [List.length_take, Nat.min_comm]
  have hhw : (ssd1306WriteText s addr line text).hw
        = s.hw ++ [HwOp.transmit addr [0x00, 0x21] true, HwOp.transmit addr [0x00, 0] true,
              HwOp.transmit addr [0x00, 127] true, HwOp.transmit addr [0x00, 0x22] true,
              HwOp.transmit addr [0x00, line] true, HwOp.transmit addr [0x00, line] true]
            ++ (text.take 21).map
                (fun ch => HwOp.transmit addr (0x40 :: (specGlyph ch ++ [0x00])) true)
            ++ specFill addr (min text.length 21) := by
    rw [ssd1306WriteText_hw s addr line text hact]
    simp only [textTransfers, List.append_assoc]
  have hblank : dataBytes (specFill addr (min text.length 21))
      = List.replicate ((21 - min text.length 21) * 6) 0 := by
    rw [specFill_eq]
    exact blankChunks_data addr _ _ (Nat.le_refl _)
  refine ⟨hhw, hlen, fun ch => ⟨specGlyph_length ch, rfl⟩, specTransfers_data addr _, hblank,
    ?_, ?_, ?_⟩
  · rw [specFill_eq]
    exact blankChunks_chunk addr _ _
  · rw [dataBytes_append, specTransfers_data, hblank, List.length_append, spec_rows_length,
      hlen, List.length_replicate]
    omega
  · intro h21
    rw [hhw]
    have e : specFill addr (min text.length 21) = [] := by
      rw [Nat.min_eq_right h21]
      rfl
    rw [e, List.append_nil]

set_option maxRecDepth 100000 in
/-- Witness of C24: a text of 30 characters on an active bus is rendered by
the six window commands and the transfers of its first 21 characters; the
transfer of `A` holds the bytes 0x7E 0x11 0x11 0x11 0x7E of the font. -/
theorem write_text_layout_witness :
    i2cActive activeBus = true ∧
    (ssd1306WriteText activeBus 0x3C 0 thirtyChars).hw
      = activeBus.hw ++ [HwOp.transmit 0x3C [0x00, 0x21] true, HwOp.transmit 0x3C [0x00, 0] true,
            HwOp.transmit 0x3C [0x00, 127] true, HwOp.transmit 0x3C [0x00, 0x22] true,
            HwOp.transmit 0x3C [0x00, 0] true, HwOp.transmit 0x3C [0x00, 0] true]
          ++ (thirtyChars.take 21).map
              (fun ch => HwOp.transmit 0x3C (0x40 :: (specGlyph ch ++ [0x00])) true) ∧
    thirtyChars.length = 30 ∧
    thirtyChars.take 21 = "ABCDEFGHIJKLMNOPQRSTU".toList ∧
    specGlyph 'A' = [0x7E, 0x11, 0x11, 0x11, 0x7E] ∧
    specGlyph 'U' = [0x3F, 0x40, 0x40, 0x40, 0x3F] ∧
    specGlyph (Char.ofNat 200) = [0, 0, 0, 0, 0] :=
  ⟨rfl,
    (write_text_layout activeBus 0x3C 0 thirtyChars rfl).2.2.2.2.2.2.2 (by decide),
    by decide, by decide, by decide, by decide, by decide⟩

/-- C29. The table `FONT_5X7` has 480 bytes. For every byte `c` of a text the
offset used by `ssd1306WriteText` is `(c' - 32) * 5` with `c' = 32` when
`c < 32` or `c > 127` and `c' = c` otherwise; the five bytes read are the
entries of the table at the offset and the four after it, all below 480; a
byte outside 32 .. 127 is rendered by five zero bytes. -/
theorem glyph_lookup_in_bounds (c : Nat) :
    FONT_5X7.length = 480
      ∧ glyphOffset c = ((if c < 32 ∨ c > 127 then 32 else c) - 32) * 5
      ∧ (∀ j, j < 5 → glyphOffset c + j < FONT_5X7.length)
      ∧ (∀ j, j < 5 → ∃ b, FONT_5X7[glyphOffset c + j]? = some b
            ∧ (glyphBytes c)[j]? = some b)
      ∧ (glyphBytes c).length = 5
      ∧ ((c < 32 ∨ c > 127) → glyphBytes c = [0, 0, 0, 0, 0])
      ∧ (∀ (addr : Nat) (ch : Char), charByte ch < 256
            ∧ charTransfer addr ch
              = HwOp.transmit addr (0x40 :: (glyphBytes (charByte ch) ++ [0x00])) true) := by
  have hoff : glyphOffset c + 4 < 480 := by
    unfold glyphOffset
    dsimp only
    split <;> omega
  refine ⟨font_length, rfl, ?_, ?_, glyphBytes_length c, glyphBytes_outside c, ?_⟩
  · intro j hj
    rw [font_length]
    omega
  · intro j hj
    have hlt : glyphOffset c + j < FONT_5X7.length := by
      rw [font_length]
      omega
    refine ⟨FONT_5X7[glyphOffset c + j], List.getElem?_eq_getElem hlt, ?_⟩
    unfold glyphBytes
    rw [List.getElem?_map, List.getElem?_range hj]
    simp only [Option.map_some']
    rw [List.getD_eq_getElem _ _ hlt]
  · intro addr ch
    exact ⟨Nat.mod_lt _ (by norm_num), rfl⟩

/-- C27. The pressure compensation of `bme280DoRead` never divides by 0: the
version with a fallible division always returns the value of the total one.
When the divisor `p_var1` is 0 the pressure reported is 0, and the divisor is
0 whenever `dig_P1` is 0. -/
theorem pressure_division_guard (c : Bme280Calib) (t_fine adc_P : Int) :
    bme280PresChecked c t_fine adc_P = some (bme280Pres c t_fine adc_P)
      ∧ (bme280PressDivisor c t_fine = 0 → bme280Pres c t_fine adc_P = CFloat.num 0)
      ∧ (c.dig_P1 = 0 → bme280PressDivisor c t_fine = 0)
      ∧ (c.dig_P1 = 0 → bme280Pres c t_fine adc_P = CFloat.num 0) := by
  have h0 : c.dig_P1 = 0 → bme280PressDivisor c t_fine = 0 := by
    intro h
    unfold bme280PressDivisor
    simp only [h, i64mul, Nat.cast_zero, mul_zero]
    decide
  have h1 : bme280PressDivisor c t_fine = 0 → bme280Pres c t_fine adc_P = CFloat.num 0 := by
    intro h
    simp [bme280Pres, h]
  refine ⟨?_, h1, h0, fun h => h1 (h0 h)⟩
  by_cases hd : bme280PressDivisor c t_fine = 0
  · rw [h1 hd]
    unfold bme280PresChecked
    unfold bme280PressDivisor at hd
    simp only [hd, if_true]
  · have hd2 := hd
    unfold bme280PressDivisor at hd2
    unfold bme280PresChecked bme280Pres bme280PressQ bme280PressOffset bme280PressDivisor
    simp only [hd2, if_false, i64divChecked]

theorem shl4_or (hi lo : Nat) (h : lo < 16) : (hi <<< 4) ||| lo = hi * 16 + lo := by
  have h4 : lo < 2 ^ 4 := by norm_num; exact h
  have := @Nat.mul_add_lt_is_or 4 lo h4 hi
  rw [Nat.shiftLeft_eq, Nat.mul_comm hi, ← this]

theorem and15 (b : Nat) : b &&& 0x0F = b % 16 := by
  have := Nat.and_pow_two_sub_one_eq_mod b 4
  simpa using this

theorem toInt16_small (n : Nat) (h : n < 32768) : toInt16 n = (n : Int) := by
  unfold toInt16
  have hm : n % 65536 = n := Nat.mod_eq_of_lt (by omega)
  rw [hm]
  simp [h]

/-- The words of the first bank and `dig_H2`, `dig_H3`, `dig_H6` are decoded
as little-endian words of the width and sign of their field. -/
theorem calib_words_decoded (addr : Nat) (b e : List Nat) (c : Bme280Calib)
    (hb : ∀ x ∈ b, x < 256) (he : ∀ x ∈ e, x < 256) :
    (calibBank2 addr e (calibBank1 b c)).dig_T1 = byteAt b 1 * 256 + byteAt b 0
      ∧ (calibBank2 addr e (calibBank1 b c)).dig_T2 = signed16 (byteAt b 3 * 256 + byteAt b 2)
      ∧ (calibBank2 addr e (calibBank1 b c)).dig_T3 = signed16 (byteAt b 5 * 256 + byteAt b 4)
      ∧ (calibBank2 addr e (calibBank1 b c)).dig_P1 = byteAt b 7 * 256 + byteAt b 6
      ∧ (calibBank2 addr e (calibBank1 b c)).dig_P2 = signed16 (byteAt b 9 * 256 + byteAt b 8)
      ∧ (calibBank2 addr e (calibBank1 b c)).dig_P3 = signed16 (byteAt b 11 * 256 + byteAt b 10)
      ∧ (calibBank2 addr e (calibBank1 b c)).dig_P4 = signed16 (byteAt b 13 * 256 + byteAt b 12)
      ∧ (calibBank2 addr e (calibBank1 b c)).dig_P5 = signed16 (byteAt b 15 * 256 + byteAt b 14)
      ∧ (calibBank2 addr e (calibBank1 b c)).dig_P6 = signed16 (byteAt b 17 * 256 + byteAt b 16)
      ∧ (calibBank2 addr e (calibBank1 b c)).dig_P7 = signed16 (byteAt b 19 * 256 + byteAt b 18)
      ∧ (calibBank2 addr e (calibBank1 b c)).dig_P8 = signed16 (byteAt b 21 * 256 + byteAt b 20)
      ∧ (calibBank2 addr e (calibBank1 b c)).dig_P9 = signed16 (byteAt b 23 * 256 + byteAt b 22)
      ∧ (calibBank2 addr e (calibBank1 b c)).dig_H1 = byteAt b 25
      ∧ (calibBank2 addr e (calibBank1 b c)).dig_H2 = signed16 (byteAt e 1 * 256 + byteAt e 0)
      ∧ (calibBank2 addr e (calibBank1 b c)).dig_H3 = byteAt e 2
      ∧ (calibBank2 addr e (calibBank1 b c)).dig_H6 = toInt8 (byteAt e 6) := by
  have hB := byteAt_lt b hb
  have hE := byteAt_lt e he
  have u16 : ∀ hi lo : Nat, hi < 256 → lo < 256 → ((hi <<< 8) ||| lo) % 65536 = hi * 256 + lo := by
    intro hi lo h1 h2
    rw [shl8_or hi lo h2]
    exact Nat.mod_eq_of_lt (by omega)
  have s16 : ∀ hi lo : Nat, hi < 256 → lo < 256 →
      toInt16 ((hi <<< 8) ||| lo) = signed16 (hi * 256 + lo) :=
    fun hi lo h1 h2 => (toInt16_bytes hi lo h1 h2).1
  simp only [calibBank1, calibBank2]
  refine ⟨u16 _ _ (hB 1) (hB 0), s16 _ _ (hB 3) (hB 2), s16 _ _ (hB 5) (hB 4),
    u16 _ _ (hB 7) (hB 6), s16 _ _ (hB 9) (hB 8), s16 _ _ (hB 11) (hB 10),
    s16 _ _ (hB 13) (hB 12), s16 _ _ (hB 15) (hB 14), s16 _ _ (hB 17) (hB 16),
    s16 _ _ (hB 19) (hB 18), s16 _ _ (hB 21) (hB 20), s16 _ _ (hB 23) (hB 22), trivial,
    s16 _ _ (hE 1) (hE 0), trivial, trivial⟩

/-- C28, the divergence. For every second bank `e` of bytes the record holds
`dig_H4 = e[3] * 16 + e[4] mod 16` and `dig_H5 = e[5] * 16 + e[4] / 16`, numbers
in 0 .. 4095 that are never negative. With the bytes 0x80 at `e[3]` and `e[5]`
both are 2048, while the 12-bit word 0x800 read as a signed 12-bit quantity
is -2048. -/
theorem humidity_words_not_sign_extended :
    (∀ (addr : Nat) (e : List Nat) (c : Bme280Calib), (∀ x ∈ e, x < 256) →
        (calibBank2 addr e c).dig_H4 = ((byteAt e 3 * 16 + byteAt e 4 % 16 : Nat) : Int)
          ∧ (calibBank2 addr e c).dig_H5 = ((byteAt e 5 * 16 + byteAt e 4 / 16 : Nat) : Int)
          ∧ 0 ≤ (calibBank2 addr e c).dig_H4 ∧ (calibBank2 addr e c).dig_H4 ≤ 4095
          ∧ 0 ≤ (calibBank2 addr e c).dig_H5 ∧ (calibBank2 addr e c).dig_H5 ≤ 4095)
      ∧ (calibBank2 0x76 [0, 0, 0, 0x80, 0, 0x80, 0] Bme280Calib.zero).dig_H4 = 2048
      ∧ (calibBank2 0x76 [0, 0, 0, 0x80, 0, 0x80, 0] Bme280Calib.zero).dig_H5 = 2048
      ∧ specSigned12 (0x80 * 16 + 0 % 16) = -2048
      ∧ specSigned12 (0x80 * 16 + 0 / 16) = -2048 := by
  refine ⟨?_, by decide, by decide, by decide, by decide⟩
  intro addr e c he
  have hE := byteAt_lt e he
  have h3 := hE 3
  have h4 := hE 4
  have h5 := hE 5
  have e4 : (byteAt e 3 <<< 4) ||| (byteAt e 4 &&& 0x0F) = byteAt e 3 * 16 + byteAt e 4 % 16 := by
    rw [and15, shl4_or _ _ (Nat.mod_lt _ (by norm_num))]
  have e5 : (byteAt e 5 <<< 4) ||| ((byteAt e 4 >>> 4) &&& 0x0F)
      = byteAt e 5 * 16 + byteAt e 4 / 16 := by
    rw [and15, shl4_or _ _ (Nat.mod_lt _ (by norm_num)), Nat.shiftRight_eq_div_pow]
    congr 1
    exact Nat.mod_eq_of_lt (by norm_num; omega)
  have d4 : (calibBank2 addr e c).dig_H4 = ((byteAt e 3 * 16 + byteAt e 4 % 16 : Nat) : Int) := by
    simp only [calibBank2]
    rw [e4, toInt16_small _ (by omega)]
  have d5 : (calibBank2 addr e c).dig_H5 = ((byteAt e 5 * 16 + byteAt e 4 / 16 : Nat) : Int) := by
    simp only [calibBank2]
    rw [e5, toInt16_small _ (by omega)]
  refine ⟨d4, d5, ?_, ?_, ?_, ?_⟩
  · rw [d4]; omega
  · rw [d4]; omega
  · rw [d5]; omega
  · rw [d5]; omega

/-! ## Theorems: template engine -/

theorem expandLoop_fuel (env : TokenProviders) (out_len : Nat) (fuel1 : Nat) :
    ∀ (fuel2 : Nat) (p out : List Char) (w : Nat), p.length ≤ fuel1 → p.length ≤ fuel2 →
      expandLoop env out_len fuel1 p out w = expandLoop env out_len fuel2 p out w := by
  induction fuel1 with
  | zero =>
    intro fuel2 p out w h1 _
    have hp : p = [] := List.length_eq_zero.mp (Nat.le_zero.mp h1)
    subst hp
    cases fuel2 <;> simp [expandLoop]
  | succ fuel1 ih =>
    intro fuel2 p out w h1 h2
    cases p with
    | nil => cases fuel2 <;> simp [expandLoop]
    | cons c rest =>
      cases fuel2 with
      | zero => simp at h2
      | succ fuel2 =>
        simp only [List.length_cons, Nat.add_le_add_iff_right] at h1 h2
        have hd : ∀ n, (rest.drop n).length ≤ rest.length := fun n => by
          rw [List.length_drop]; omega
        simp only [expandLoop]
        rw [ih fuel2 rest (out ++ [c]) (w + 1) h1 h2]
        split
        · split
          · split
            · rfl
            · split
              · rfl
              · exact ih fuel2 _ _ _ (Nat.le_trans (hd _) h1) (Nat.le_trans (hd _) h2)
          · rfl
        · rfl

theorem expandFrom_nil (env : TokenProviders) (out_len : Nat) (out : List Char) (w : Nat) :
    expandFrom env out_len [] out w = (out, w) := by
  simp [expandFrom, expandLoop]

theorem expandFrom_full (env : TokenProviders) (out_len : Nat) (p out : List Char) (w : Nat)
    (h : ¬ w + 1 < out_len) : expandFrom env out_len p out w = (out, w) := by
  cases p with
  | nil => exact expandFrom_nil env out_len out w
  | cons c rest => simp [expandFrom, expandLoop, h]

theorem expandFrom_cons (env : TokenProviders) (out_len : Nat) (c : Char)
    (rest out : List Char) (w : Nat) :
    expandFrom env out_len (c :: rest) out w =
      if w + 1 < out_len then
        if c = '{' then
          match rest.findIdx? (fun x => x == '}') with
          | none => expandFrom env out_len rest (out ++ [c]) (w + 1)
          | some tlen =>
            if tlen = 0 ∨ tlen ≥ 32 then
              expandFrom env out_len rest (out ++ [c]) (w + 1)
            else
              expandFrom env out_len (rest.drop (tlen + 1))
                (out ++ (tokenText env (rest.take tlen)).take (out_len - w - 1))
                (w + (tokenText env (rest.take tlen)).length)
        else expandFrom env out_len rest (out ++ [c]) (w + 1)
      else (out, w) := by
  have hd : ∀ n, (rest.drop n).length ≤ rest.length := fun n => by
    rw [List.length_drop]; omega
  simp only [expandFrom, List.length_cons, expandLoop]
  split
  · split
    · split
      · rfl
      · split
        · rfl
        · exact expandLoop_fuel env out_len _ _ _ _ _ (hd _) (Nat.le_refl _)
    · rfl
  · rfl

theorem expandFrom_literal (env : TokenProviders) (out_len : Nat) (c : Char)
    (rest out : List Char) (w : Nat) (hw : w + 1 < out_len) (hc : c ≠ '{') :
    expandFrom env out_len (c :: rest) out w
      = expandFrom env out_len rest (out ++ [c]) (w + 1) := by
  rw [expandFrom_cons]
  simp [hw, hc]

theorem expandFrom_brace (env : TokenProviders) (out_len : Nat)
    (rest out : List Char) (w : Nat) (hw : w + 1 < out_len)
    (h : ∀ tlen, rest.findIdx? (fun x => x == '}') = some tlen → tlen = 0 ∨ 32 ≤ tlen) :
    expandFrom env out_len ('{' :: rest) out w
      = expandFrom env out_len rest (out ++ ['{']) (w + 1) := by
  rw [expandFrom_cons]
  simp only [hw, if_true]
  cases hf : rest.findIdx? (fun x => x == '}') with
  | none => rfl
  | some tlen =>
    have := h tlen hf
    simp only [ge_iff_le, this, if_true]

theorem findIdx_none (rest : List Char) (h : '}' ∉ rest) :
    rest.findIdx? (fun x => x == '}') = none := by
  rw [List.findIdx?_eq_none_iff]
  intro x hx
  simp only [beq_eq_false_iff_ne, ne_eq]
  intro e
  exact h (e ▸ hx)

theorem expandLoop_stored (env : TokenProviders) (out_len : Nat) (fuel : Nat) :
    ∀ (p out : List Char) (w : Nat), out.length = min w (out_len - 1) →
      (expandLoop env out_len fuel p out w).1.length
        = min (expandLoop env out_len fuel p out w).2 (out_len - 1) := by
  induction fuel with
  | zero => intro p out w h; simpa [expandLoop] using h
  | succ fuel ih =>
    intro p out w h
    cases p with
    | nil => simpa [expandLoop] using h
    | cons c rest =>
      simp only [expandLoop]
      have hlit : w + 1 < out_len → (out ++ [c]).length = min (w + 1) (out_len - 1) := by
        intro hw
        rw [List.length_append, h]
        simp only [List.length_cons, List.length_nil]
        omega
      split
      · rename_i hw
        split
        · split
          · exact ih _ _ _ (hlit hw)
          · split
            · exact ih _ _ _ (hlit hw)
            · apply ih
              rw [List.length_append, h, List.length_take]
              omega
        · exact ih _ _ _ (hlit hw)
      · exact h

theorem noToken_of_no_close (p : List Char) (h : '}' ∉ p) : noToken p = true := by
  induction p with
  | nil => rfl
  | cons c rest ih =>
    have hr : '}' ∉ rest := fun hm => h (List.mem_cons_of_mem _ hm)
    simp only [noToken, findIdx_none rest hr, ih hr, ite_self, Bool.and_self]

theorem expandFrom_noToken (env : TokenProviders) (out_len : Nat) :
    ∀ (p out : List Char) (w : Nat), noToken p = true →
      expandFrom env out_len p out w
        = (out ++ p.take (out_len - 1 - w), w + min p.length (out_len - 1 - w)) := by
  intro p
  induction p with
  | nil => intro out w _; simp [expandFrom_nil]
  | cons c rest ih =>
    intro out w h
    simp only [noToken, Bool.and_eq_true] at h
    obtain ⟨hc, hrest⟩ := h
    by_cases hw : w + 1 < out_len
    · have step : expandFrom env out_len (c :: rest) out w
          = expandFrom env out_len rest (out ++ [c]) (w + 1) := by
        by_cases hb : c = '{'
        · subst hb
          apply expandFrom_brace env out_len rest out w hw
          intro tlen hf
          simp only [hf, if_true, decide_eq_true_eq] at hc
          omega
        · exact expandFrom_literal env out_len c rest out w hw hb
      rw [step, ih _ _ hrest]
      have e : out_len - 1 - w = (out_len - 1 - (w + 1)) + 1 := by omega
      rw [e, List.take_succ_cons]
      simp only [List.append_assoc, List.singleton_append, List.length_cons, Prod.mk.injEq,
        true_and]
      omega
    · rw [expandFrom_full env out_len _ out w hw]
      have e : out_len - 1 - w = 0 := by omega
      simp [e]

/-- C21, amended. A template with no well-formed token that fits the buffer is
copied unchanged: the text stored is the template and `w` is its length. From
any point of the scan, a text with no well-formed token is copied up to the
room left in the buffer, `out_len - 1 - w` characters, and what follows is
dropped; once `w + 1 < out_len` fails the scan stops. A template whose `{` has
no later `}` has no well-formed token. While `w + 1 < out_len`, a `{` followed
by no `}`, at once by `}`, or by 32 or more characters before the next `}`, is
stored literally and the scan goes on at the character after it, and every
other character than `{` is stored literally as well. -/
theorem literal_passthrough (env : TokenProviders) (out_len : Nat) :
    (∀ tmpl : List Char, noToken tmpl = true → tmpl.length < out_len →
        templateExpand env tmpl out_len = (tmpl, tmpl.length))
      ∧ (∀ (p out : List Char) (w : Nat), noToken p = true →
          expandFrom env out_len p out w
            = (out ++ p.take (out_len - 1 - w), w + min p.length (out_len - 1 - w)))
      ∧ (∀ (p out : List Char) (w : Nat), ¬ w + 1 < out_len →
          expandFrom env out_len p out w = (out, w))
      ∧ (∀ rest : List Char, '}' ∉ rest → noToken ('{' :: rest) = true)
      ∧ (∀ (rest out : List Char) (w : Nat), w + 1 < out_len →
          (∀ tlen, rest.findIdx? (fun x => x == '}') = some tlen → tlen = 0 ∨ 32 ≤ tlen) →
          expandFrom env out_len ('{' :: rest) out w
            = expandFrom env out_len rest (out ++ ['{']) (w + 1))
      ∧ (∀ (c : Char) (rest out : List Char) (w : Nat), w + 1 < out_len → c ≠ '{' →
          expandFrom env out_len (c :: rest) out w
            = expandFrom env out_len rest (out ++ [c]) (w + 1)) := by
  refine ⟨?_, expandFrom_noToken env out_len, expandFrom_full env out_len,
    fun rest hr => noToken_of_no_close _ ?_, ?_, ?_⟩
  · intro tmpl h hlen
    unfold templateExpand
    rw [expandFrom_noToken env out_len tmpl [] 0 h]
    have e : tmpl.take (out_len - 1 - 0) = tmpl := List.take_of_length_le (by omega)
    rw [e]
    simp only [List.nil_append, Nat.zero_add, Prod.mk.injEq, true_and]
    omega
  · intro hm
    rcases List.mem_cons.mp hm with h1 | h1
    · exact absurd h1 (by decide)
    · exact hr h1
  · intro rest out w hw hf
    exact expandFrom_brace env out_len rest out w hw hf
  · intro c rest out w hw hc
    exact expandFrom_literal env out_len c rest out w hw hc

/-- Witness of C21: the unterminated template `{abc` is stored literally. -/
theorem literal_passthrough_witness :
    (noToken "\x7babc".toList = true ∧ "\x7babc".toList.length < 256) ∧
    templateExpand exampleProviders "\x7babc".toList 256 = ("\x7babc".toList, 4) :=
  ⟨⟨by decide, by decide⟩,
    (literal_passthrough exampleProviders 256).1 "\x7babc".toList (by decide) (by decide)⟩

set_option maxRecDepth 100000 in
/-- Counterexample to C21. The first `{` of `nestedTemplate` has its next `}`
34 characters later, a token longer than 31 characters, and the text that
follows it is not stored literally: the token `{y}` inside it is replaced by
`?y`. In the template of 83 characters `fullTemplate` with the unterminated
tail `{abc` the buffer of 256 bytes is full when the tail is reached, and the
tail is not stored at all. -/
theorem long_token_text_expanded :
    nestedTemplate.tail.findIdx? (fun x => x == '}') = some 34
      ∧ (templateExpand exampleProviders nestedTemplate 256).1
          = '{' :: (List.replicate 32 'x' ++ "?y".toList)
      ∧ (templateExpand exampleProviders nestedTemplate 256).1 ≠ nestedTemplate
      ∧ (fullTemplate "\x7babc".toList).length = 83
      ∧ templateExpand exampleProviders (fullTemplate "\x7babc".toList) 256
          = ('x' :: ((List.replicate 16 "192.168.100.100".toList).flatten
              ++ List.replicate 14 'a'), 255) := by
  decide

set_option maxRecDepth 100000 in
/-- C30, the divergence. With the 256-byte buffer, `overflowTemplate` and the
address 192.168.100.100, `templateExpand` ends with `w = 256`: the final
`out[w] = 0` is one byte past the buffer. The text stored always has
`min w (out_len - 1)` characters, so the characters themselves stay within
the buffer. -/
theorem expand_index_past_buffer :
    overflowTemplate.length = 69
      ∧ (templateExpand exampleProviders overflowTemplate 256).2 = 256
      ∧ (templateExpand exampleProviders overflowTemplate 256).1.length = 255
      ∧ (∀ (env : TokenProviders) (tmpl : List Char) (out_len : Nat),
          (templateExpand env tmpl out_len).1.length
            = min (templateExpand env tmpl out_len).2 (out_len - 1)) := by
  refine ⟨by decide, by decide, by decide, ?_⟩
  intro env tmpl out_len
  exact expandLoop_stored env out_len tmpl.length tmpl [] 0 (by simp)

/-! ## Theorems: template rendering -/

theorem segments_eq (text : List Char) :
    segments text = text.takeWhile (fun x => x != '\n') ::
      (match text.dropWhile (fun x => x != '\n') with
        | [] => []
        | _ :: rest => segments rest) := by
  induction text with
  | nil => rfl
  | cons c rest ih =>
    by_cases hc : c = '\n'
    · subst hc
      simp [segments]
    · have hb : (c != '\n') = true := by simpa using hc
      rw [segments, if_neg hc, ih, List.takeWhile_cons, List.dropWhile_cons, hb]
      simp only [if_true]

theorem blankLines_eq (k line_num : Nat) :
    blankLines k line_num = (List.range k).map fun i => (line_num + i, ([] : List Char)) := by
  induction k generalizing line_num with
  | zero => rfl
  | succ k ih =>
    rw [blankLines, ih, List.range_succ_eq_map, List.map_cons, List.map_map]
    congr 1
    apply List.map_congr_left
    intro i _
    simp only [Function.comp_apply, Prod.mk.injEq, and_true]
    omega

theorem renderLines_eq (k : Nat) :
    ∀ (text : List Char) (line_num : Nat),
      renderLines k text line_num
        = (List.range k).map fun i => (line_num + i, (segments text).getD i []) := by
  induction k with
  | zero => intro text line_num; rfl
  | succ k ih =>
    intro text line_num
    cases text with
    | nil =>
      rw [renderLines, blankLines_eq]
      apply List.map_congr_left
      intro i _
      cases i with
      | zero => rfl
      | succ i => simp [segments]
    | cons c rest =>
      rw [segments_eq (c :: rest), List.range_succ_eq_map, List.map_cons, List.map_map]
      simp only [renderLines]
      cases hd : List.dropWhile (fun x => x != '\n') (c :: rest) with
      | nil =>
        simp only
        rw [blankLines_eq]
        congr 1
        apply List.map_congr_left
        intro i _
        simp only [Function.comp_apply, List.getD_cons_succ, Prod.mk.injEq]
        constructor
        · omega
        · simp
      | cons d rest2 =>
        simp only
        rw [ih]
        congr 1
        apply List.map_congr_left
        intro i _
        simp only [Function.comp_apply, List.getD_cons_succ, Prod.mk.injEq, and_true]
        omega

theorem expandLoop_grows (env : TokenProviders) (out_len : Nat) (fuel : Nat) :
    ∀ (p out : List Char) (w : Nat),
      out.length ≤ (expandLoop env out_len fuel p out w).1.length := by
  induction fuel with
  | zero => intro p out w; simp [expandLoop]
  | succ fuel ih =>
    intro p out w
    cases p with
    | nil => simp [expandLoop]
    | cons c rest =>
      simp only [expandLoop]
      have hlit := ih rest (out ++ [c]) (w + 1)
      rw [List.length_append] at hlit
      split
      · split
        · split
          · omega
          · split
            · omega
            · refine Nat.le_trans ?_ (ih _ _ _)
              rw [List.length_append]
              omega
        · omega
      · exact Nat.le_refl _

theorem readsSensor_text (env : TokenProviders) (token : List Char)
    (h : readsSensor env token = true) : 1 ≤ (tokenText env token).length := by
  unfold readsSensor at h
  unfold tokenText
  split at h
  · exact absurd h (by decide)
  · split at h
    · exact absurd h (by decide)
    · split at h
      · exact absurd h (by decide)
      · split at h
        · exact absurd h (by decide)
        · rename_i h1 h2 h3 h4
          simp only [h1, h2, h3, h4, if_false]
          cases hd : env.deviceFind token with
          | absent => rw [hd] at h; simp at h
          | actuator v => rw [hd] at h; simp at h
          | sensor first more => simp

theorem sensorReadsLoop_nil (env : TokenProviders) (out_len : Nat) (fuel : Nat) :
    ∀ (p out : List Char) (w : Nat), (expandLoop env out_len fuel p out w).1 = [] →
      sensorReadsLoop env out_len fuel p w = [] := by
  induction fuel with
  | zero => intro p out w _; rfl
  | succ fuel ih =>
    intro p out w h
    cases p with
    | nil => rfl
    | cons c rest =>
      have hlit : (expandLoop env out_len fuel rest (out ++ [c]) (w + 1)).1 = [] → False := by
        intro h0
        have := expandLoop_grows env out_len fuel rest (out ++ [c]) (w + 1)
        rw [h0, List.length_append] at this
        simp at this
      simp only [expandLoop] at h
      simp only [sensorReadsLoop]
      split
      · rename_i hw
        rw [if_pos hw] at h
        split
        · rename_i hc
          rw [if_pos hc] at h
          split
          · rename_i hf
            rw [hf] at h
            exact absurd h hlit
          · rename_i tlen hf
            rw [hf] at h
            simp only at h
            split
            · rename_i ht
              rw [if_pos ht] at h
              exact absurd h hlit
            · rename_i ht
              rw [if_neg ht] at h
              have hrec := ih _ _ _ h
              rw [hrec, List.append_nil]
              by_cases hs : readsSensor env (rest.take tlen) = true
              · exfalso
                have h1 := readsSensor_text env _ hs
                have h2 := expandLoop_grows env out_len fuel (rest.drop (tlen + 1))
                  (out ++ (tokenText env (rest.take tlen)).take (out_len - w - 1))
                  (w + (tokenText env (rest.take tlen)).length)
                rw [h, List.length_append, List.length_take] at h2
                simp only [List.length_nil] at h2
                omega
              · simp [hs]
        · rename_i hc
          rw [if_neg hc] at h
          exact absurd h hlit
      · rfl

theorem stored_nil (env : TokenProviders) (tmpl : List Char) (out_len : Nat)
    (h : (templateExpand env tmpl out_len).1 = []) :
    sensorReads env tmpl out_len = []
      ∧ ((templateExpand env tmpl out_len).2 = 0 ∨ out_len ≤ 1) := by
  constructor
  · exact sensorReadsLoop_nil env out_len tmpl.length tmpl [] 0 h
  · have := expandLoop_stored env out_len tmpl.length tmpl [] 0 (by simp)
    have e : (templateExpand env tmpl out_len).1.length
        = min (templateExpand env tmpl out_len).2 (out_len - 1) := this
    rw [h] at e
    simp only [List.length_nil] at e
    omega

theorem renderCalls_fit (env : TokenProviders) (tmpl : List Char) (height : Nat)
    (hfit : (templateExpand env tmpl 256).2 ≤ 255) :
    renderCalls env tmpl height
      = some ((List.range (if height = 32 then 4 else 8)).map
          (fun i => (i, (segments (templateExpand env tmpl 256).1).getD i []))) := by
  unfold renderCalls
  have h : (templateExpand env tmpl 256).2 < 256 := by omega
  simp only [h, if_true, renderLines_eq, Nat.zero_add]

theorem ssd1306RenderTemplate_fit (env : TokenProviders) (s : I2cState) (addr : Nat)
    (tmpl : List Char) (height : Nat) (hact : i2cActive s = true) (hne : tmpl ≠ [])
    (hfit : (templateExpand env tmpl 256).2 ≤ 255) :
    ssd1306RenderTemplate env s addr tmpl height
      = some (((List.range (if height = 32 then 4 else 8)).map
          (fun i => (i, (segments (templateExpand env tmpl 256).1).getD i []))).foldl
            (fun st c => ssd1306WriteText st addr c.1 c.2) (expandEffect env s tmpl 256)) := by
  unfold ssd1306RenderTemplate
  have he : tmpl.isEmpty = false := by
    cases tmpl with
    | nil => exact absurd rfl hne
    | cons _ _ => rfl
  rw [hact, he, renderCalls_fit env tmpl height hfit]
  rfl

/-- C26, amended. With an empty template `ssd1306RenderTemplate` returns at
once and leaves the state and the bus as they are. Empty text is written to
each of the lines 0, 1, 2 and 3 of a display of height 32 when the bus is
active and a template that is not empty expands to the empty text. -/
theorem empty_template_returns (env : TokenProviders) (s : I2cState) (addr height : Nat) :
    ssd1306RenderTemplate env s addr [] height = some s
      ∧ (∀ tmpl : List Char, i2cActive s = true → tmpl ≠ [] →
          (templateExpand env tmpl 256).1 = [] →
          renderCalls env tmpl 32 = some [(0, []), (1, []), (2, []), (3, [])]
            ∧ ssd1306RenderTemplate env s addr tmpl 32
                = some (([(0, []), (1, []), (2, []), (3, [])] : List (Nat × List Char)).foldl
                    (fun st c => ssd1306WriteText st addr c.1 c.2) s)) := by
  constructor
  · simp [ssd1306RenderTemplate]
  · intro tmpl hact hne hexp
    obtain ⟨hreads, hw⟩ := stored_nil env tmpl 256 hexp
    have hfit : (templateExpand env tmpl 256).2 ≤ 255 := by omega
    have heff : expandEffect env s tmpl 256 = s := by
      unfold expandEffect
      rw [hreads]
      rfl
    constructor
    · rw [renderCalls_fit env tmpl 32 hfit, hexp]
      rfl
    · rw [ssd1306RenderTemplate_fit env s addr tmpl 32 hact hne hfit, hexp, heff]
      rfl

set_option maxRecDepth 100000 in
/-- Witness of C26: with an empty device name the template `{name}` expands to
the empty text and blanks the four lines, and the empty template writes
nothing. -/
theorem empty_template_returns_witness :
    (ssd1306RenderTemplate unnamedProviders activeBus 0x3C [] 32).map I2cState.hw
      = some activeBus.hw ∧
    (i2cActive activeBus = true ∧ "{name}".toList ≠ []
      ∧ (templateExpand unnamedProviders "{name}".toList 256).1 = []) ∧
    renderCalls unnamedProviders "{name}".toList 32
      = some [(0, []), (1, []), (2, []), (3, [])] :=
  ⟨congrArg (Option.map I2cState.hw)
      (empty_template_returns unnamedProviders activeBus 0x3C 32).1,
    ⟨rfl, by decide, by decide⟩,
    ((empty_template_returns unnamedProviders activeBus 0x3C 32).2 "{name}".toList rfl
      (by decide) (by decide)).1⟩

set_option maxRecDepth 100000 in
/-- Counterexample to C26: on an active bus with height 32 the empty template
leaves the bus log unchanged, while writing the empty text to the lines 0, 1,
2 and 3 extends it. -/
theorem empty_template_not_blanked :
    i2cActive activeBus = true
      ∧ (ssd1306RenderTemplate exampleProviders activeBus 0x3C [] 32).map I2cState.hw
          = some activeBus.hw
      ∧ (([(0, []), (1, []), (2, []), (3, [])] : List (Nat × List Char)).foldl
          (fun st c => ssd1306WriteText st 0x3C c.1 c.2) activeBus).hw ≠ activeBus.hw := by
  decide

end IOnode
